import Mathlib

/-!
Verification development for the tinyply PLY reader/writer engine.

The repository ships `example.cpp`, the demonstration driver of the engine;
the engine itself (header parsing, property bindings, binary and ASCII body
codecs) is described by the specification.  The definitions below embed that
engine shallowly: byte streams are `List Nat` (one entry per byte, each
`< 256`), ASCII body token streams are `List Nat` (one entry per numeric
token), header text is a list of pre-tokenized lines (`List (List String)`),
and every operation is an executable function.
-/

namespace TinyPly

/-- Modelled from the spec: the Type Registry's closed set of scalar type
tags (signed/unsigned 8/16/32/64-bit integers, 32/64-bit floats, plus the
sentinel "none"/INVALID used for non-list properties).  The library header
`tinyply.h` is not part of the sources given, so the registry is taken from
the spec's §4.1 and §6. -/
inductive PlyType where
  | INT8 | UINT8 | INT16 | UINT16 | INT32 | UINT32 | INT64 | UINT64
  | FLOAT32 | FLOAT64 | INVALID
deriving DecidableEq, Repr

/-- Modelled from the spec: byte width of each scalar type (the registry's
`byte_width`); the INVALID sentinel has width 0. -/
def PlyType.stride : PlyType → Nat
  | .INT8 => 1 | .UINT8 => 1
  | .INT16 => 2 | .UINT16 => 2
  | .INT32 => 4 | .UINT32 => 4
  | .INT64 => 8 | .UINT64 => 8
  | .FLOAT32 => 4 | .FLOAT64 => 8
  | .INVALID => 0

/-- Modelled from the spec: canonical textual name of a scalar type, used
when serializing a header. -/
def PlyType.token : PlyType → String
  | .INT8 => "int8" | .UINT8 => "uint8"
  | .INT16 => "int16" | .UINT16 => "uint16"
  | .INT32 => "int32" | .UINT32 => "uint32"
  | .INT64 => "int64" | .UINT64 => "uint64"
  | .FLOAT32 => "float32" | .FLOAT64 => "float64"
  | .INVALID => "invalid"

/-- Modelled from the spec: Type Registry lookup of a textual type token,
canonical names plus the fixed alias set (two spellings per width and
signedness); an unrecognized token yields `none` (`UnknownType`). -/
def parsePlyType (s : String) : Option PlyType :=
  if s = "int8" ∨ s = "char" then some .INT8
  else if s = "uint8" ∨ s = "uchar" then some .UINT8
  else if s = "int16" ∨ s = "short" then some .INT16
  else if s = "uint16" ∨ s = "ushort" then some .UINT16
  else if s = "int32" ∨ s = "int" then some .INT32
  else if s = "uint32" ∨ s = "uint" then some .UINT32
  else if s = "int64" then some .INT64
  else if s = "uint64" then some .UINT64
  else if s = "float32" ∨ s = "float" then some .FLOAT32
  else if s = "float64" ∨ s = "double" then some .FLOAT64
  else none

/-! ## Raw scalar layout: little/big-endian byte lists and decimal text -/

/-- Little-endian byte list of width `w` for the value `v` (`v % 256` first). -/
def natToBytesLE : Nat → Nat → List Nat
  | 0, _ => []
  | w + 1, v => v % 256 :: natToBytesLE w (v / 256)

/-- Value of a little-endian byte list. -/
def bytesToNatLE : List Nat → Nat
  | [] => 0
  | b :: bs => b + 256 * bytesToNatLE bs

/-- Byte layout of a value of width `w`, little- or big-endian. -/
def toBytesE (be : Bool) (w v : Nat) : List Nat :=
  if be then (natToBytesLE w v).reverse else natToBytesLE w v

/-- Value of a byte list read with the given endianness. -/
def fromBytesE (be : Bool) (bs : List Nat) : Nat :=
  if be then bytesToNatLE bs.reverse else bytesToNatLE bs

/-- Decimal digit characters of `n`, most significant first. -/
def natDigits (n : Nat) : List Char :=
  if h : n < 10 then [Char.ofNat (48 + n)]
  else natDigits (n / 10) ++ [Char.ofNat (48 + n % 10)]
  decreasing_by exact Nat.div_lt_self (by omega) (by omega)

/-- Decimal text of a natural number, as written into header lines. -/
def natRepr (n : Nat) : String := String.mk (natDigits n)

/-- Value of a decimal digit character, `none` for a non-digit. -/
def digitVal (c : Char) : Option Nat :=
  if 48 ≤ c.toNat ∧ c.toNat ≤ 57 then some (c.toNat - 48) else none

/-- Accumulating decimal parse of a character list. -/
def parseNatAcc : Nat → List Char → Option Nat
  | acc, [] => some acc
  | acc, c :: cs =>
    match digitVal c with
    | some d => parseNatAcc (acc * 10 + d) cs
    | none => none

/-- Modelled from the spec: parse of a decimal count token in a header line
(`element <name> <count>`); fails on the empty string or a non-digit. -/
def parseNatStr (s : String) : Option Nat :=
  match s.data with
  | [] => none
  | cs => parseNatAcc 0 cs

/-- Join tokens back into the verbatim text of a comment / obj_info line. -/
def joinTokens : List String → String
  | [] => ""
  | [t] => t
  | t :: ts => t ++ " " ++ joinTokens ts

/-! ## Header model (spec §3) -/

/-- Modelled from the spec §3: one property declaration, immutable after
header parse, in the order header text declared it. -/
structure PlyProperty where
  name : String
  propertyType : PlyType
  isList : Bool
  listType : PlyType
deriving DecidableEq, Repr

/-- Modelled from the spec §3: one repeated record type, its row count fixed
at header-parse time. -/
structure PlyElement where
  name : String
  size : Nat
  properties : List PlyProperty
deriving DecidableEq, Repr

/-- Modelled from the spec §3: the top-level Document built by one header
parse. -/
structure PlyHeader where
  isBinary : Bool
  isBigEndian : Bool
  comments : List String
  objInfo : List String
  elements : List PlyElement
deriving DecidableEq, Repr

/-- Modelled from the spec §7: the error taxonomy. -/
inductive PlyError where
  | NotAPlyFile | MalformedHeader | UnknownType
  | UnknownElement | UnknownProperty
  | RowCountMismatch | TruncatedBody
deriving DecidableEq, Repr

/-- Accumulator of the header parser; elements are kept reversed with the
current element at the head, so a property line appends to the head. -/
structure HeaderAcc where
  format : Option (Bool × Bool)
  comments : List String
  objInfo : List String
  elemsRev : List PlyElement
deriving Repr

/-- Modelled from the spec §4.2: recognized format tokens, as
(is_binary, is_big_endian). -/
def parseFormatTok (s : String) : Option (Bool × Bool) :=
  if s = "ascii" then some (false, false)
  else if s = "binary_little_endian" then some (true, false)
  else if s = "binary_big_endian" then some (true, true)
  else none

/-- Modelled from the spec §4.2 and §6: the header line parser.  Each line is
pre-tokenized.  A property line with no current element is a
`MalformedHeader` error; an unrecognized type token is `UnknownType`;
a second or malformed format line, an unparsable line, or running out of
lines before `end_header` is `MalformedHeader`. -/
def parseHeaderLines : List (List String) → HeaderAcc → Except PlyError PlyHeader
  | [], _ => .error .MalformedHeader
  | l :: rest, acc =>
    match l with
    | ["end_header"] =>
      match acc.format with
      | some (bin, be) =>
        .ok { isBinary := bin, isBigEndian := be, comments := acc.comments,
              objInfo := acc.objInfo, elements := acc.elemsRev.reverse }
      | none => .error .MalformedHeader
    | ["format", ftok, _ver] =>
      match acc.format, parseFormatTok ftok with
      | none, some fb => parseHeaderLines rest { acc with format := some fb }
      | _, _ => .error .MalformedHeader
    | "comment" :: cs =>
      parseHeaderLines rest { acc with comments := acc.comments ++ [joinTokens cs] }
    | "obj_info" :: cs =>
      parseHeaderLines rest { acc with objInfo := acc.objInfo ++ [joinTokens cs] }
    | ["element", n, c] =>
      match parseNatStr c with
      | some cnt =>
        parseHeaderLines rest
          { acc with elemsRev := { name := n, size := cnt, properties := [] } :: acc.elemsRev }
      | none => .error .MalformedHeader
    | ["property", "list", ct, vt, n] =>
      match acc.elemsRev with
      | [] => .error .MalformedHeader
      | e :: es =>
        match parsePlyType ct, parsePlyType vt with
        | some cty, some vty =>
          parseHeaderLines rest
            { acc with elemsRev :=
                { e with properties := e.properties ++
                    [{ name := n, propertyType := vty, isList := true, listType := cty }] } :: es }
        | _, _ => .error .UnknownType
    | ["property", t, n] =>
      match acc.elemsRev with
      | [] => .error .MalformedHeader
      | e :: es =>
        match parsePlyType t with
        | some ty =>
          parseHeaderLines rest
            { acc with elemsRev :=
                { e with properties := e.properties ++
                    [{ name := n, propertyType := ty, isList := false, listType := .INVALID }] } :: es }
        | none => .error .UnknownType
    | _ => .error .MalformedHeader

/-- Modelled from the spec §4.2: full header parse.  The first line must be
the magic marker `ply`, else `NotAPlyFile`; any failure aborts the whole
parse (`Except.error`), so no partial Document is produced. -/
def parseHeader (lines : List (List String)) : Except PlyError PlyHeader :=
  match lines with
  | l :: rest =>
    if l = ["ply"] then
      parseHeaderLines rest { format := none, comments := [], objInfo := [], elemsRev := [] }
    else .error .NotAPlyFile
  | [] => .error .NotAPlyFile

/-! ## Read-side bindings (spec §3 "Binding (read side)", §4.3) -/

/-- Modelled from the spec §3: a read-side binding request. -/
structure ReadRequest where
  elementName : String
  propertyNames : List String
  listSizeHint : Nat
deriving DecidableEq, Repr

/-- The hint-independent part of a registered read binding: which element
and property names it matches, plus the ResultBuffer fields filled at
resolution time (scalar type, list data, logical row count) and the data
accumulated by the decode pass. -/
structure SinkCore where
  elementName : String
  names : List String
  t : PlyType
  isList : Bool
  listType : PlyType
  count : Nat
  listIndices : List Nat
  buffer : List Nat
deriving DecidableEq, Repr

/-- Modelled from the spec §4.3: resolution of one read request against the
header.  An unknown element name is `UnknownElement`; a requested property
name absent from that element is `UnknownProperty`.  The ResultBuffer's
scalar type and list shape come from the first header-declared property the
request matches, and its logical row count is the element's header-declared
row count. -/
def resolveRequestCore (h : PlyHeader) (ename : String) (names : List String) :
    Except PlyError SinkCore :=
  match h.elements.find? (fun e => e.name == ename) with
  | none => .error .UnknownElement
  | some e =>
    if names.all (fun n => e.properties.any (fun p => p.name == n)) then
      match e.properties.find? (fun p => names.contains p.name) with
      | some p =>
        .ok { elementName := ename, names := names, t := p.propertyType,
              isList := p.isList, listType := p.listType, count := e.size,
              listIndices := [], buffer := [] }
      | none => .error .UnknownProperty
    else .error .UnknownProperty

/-- Modelled from the spec §4.3: the eager pre-allocation performed at
request time — `row_count * byte_width` for fixed properties and
`row_count * list_size_hint * byte_width` for list properties (a capacity
hint only, never the decoded size; hint 0 opts out). -/
def requestCapacityH (h : PlyHeader) (r : ReadRequest) : Nat :=
  match h.elements.find? (fun e => e.name == r.elementName) with
  | none => 0
  | some e =>
    match e.properties.find? (fun p => r.propertyNames.contains p.name) with
    | none => 0
    | some p =>
      if p.isList then e.size * r.listSizeHint * p.propertyType.stride
      else e.size * p.propertyType.stride

/-- Modelled from the spec §3: the ResultBuffer handed back for a satisfied
read binding, including the pre-allocated capacity. -/
structure PlyData where
  t : PlyType
  isList : Bool
  listType : PlyType
  count : Nat
  capacity : Nat
  listIndices : List Nat
  buffer : List Nat
deriving DecidableEq, Repr

/-- Assemble the final ResultBuffer from a decoded sink and its capacity. -/
def mkPlyData (cap : Nat) (k : SinkCore) : PlyData :=
  { t := k.t, isList := k.isList, listType := k.listType, count := k.count,
    capacity := cap, listIndices := k.listIndices, buffer := k.buffer }

/-! ## Body codecs (spec §4.4, §4.5)

Both body formats are driven by the same element/row/property iteration;
they differ in how a run of scalars and a list-count value are pulled off
the stream.  A binary stream is a byte list; an ASCII stream is a token
list (each token the numeric value it denotes).  In both cases the scalars
land in the ResultBuffer as raw little-endian host bytes. -/

/-- Split off exactly `n` stream entries, failing on a short stream. -/
def takeExact? (n : Nat) (l : List Nat) : Option (List Nat × List Nat) :=
  if n ≤ l.length then some (l.take n, l.drop n) else none

/-- A body format: how to pull `n` scalars of a type (returned as the bytes
to append to a ResultBuffer) and how to pull one list-count value. -/
structure BodyCodec where
  parseScalars : PlyType → Nat → List Nat → Option (List Nat × List Nat)
  parseCount : PlyType → List Nat → Option (Nat × List Nat)

/-- Modelled from the spec §4.4: the binary codec.  Scalars are raw bytes
taken verbatim (no conversion); a list count is `byte_width` bytes read with
the header-declared endianness. -/
def binCodec (be : Bool) : BodyCodec where
  parseScalars t n s := takeExact? (n * t.stride) s
  parseCount t s :=
    match takeExact? t.stride s with
    | some (bs, r) => some (fromBytesE be bs, r)
    | none => none

/-- Modelled from the spec §4.5: the ASCII codec.  Each scalar is one text
token converted to the scalar type's in-memory byte layout (little-endian
here, matching what the binary codec would produce for the same value); a
list count is one integer token. -/
def asciiCodec : BodyCodec where
  parseScalars t n s :=
    match takeExact? n s with
    | some (toks, r) => some ((toks.map (natToBytesLE t.stride)).flatten, r)
    | none => none
  parseCount _ s :=
    match s with
    | c :: r => some (c, r)
    | [] => none

/-- The codec selected once per Document from the parsed format line. -/
def headerCodec (h : PlyHeader) : BodyCodec :=
  if h.isBinary then binCodec h.isBigEndian else asciiCodec

/-- One decoded property occurrence: which element and property it belongs
to, its types, the buffer bytes of its value(s), and its list count (none
for a non-list property). -/
structure Item where
  ename : String
  name : String
  t : PlyType
  lt : PlyType
  bytes : List Nat
  listCount : Option Nat
deriving DecidableEq, Repr

/-- Modelled from the spec §4.4/§4.5: decode one property occurrence — for a
list property first the count value, then that many scalars; otherwise one
scalar. -/
def decodeItem (c : BodyCodec) (en : String) (p : PlyProperty) (s : List Nat) :
    Option (Item × List Nat) :=
  if p.isList then
    match c.parseCount p.listType s with
    | some (cnt, s1) =>
      match c.parseScalars p.propertyType cnt s1 with
      | some (bs, s2) =>
        some ({ ename := en, name := p.name, t := p.propertyType,
                lt := p.listType, bytes := bs, listCount := some cnt }, s2)
      | none => none
    | none => none
  else
    match c.parseScalars p.propertyType 1 s with
    | some (bs, s1) =>
      some ({ ename := en, name := p.name, t := p.propertyType,
              lt := p.listType, bytes := bs, listCount := none }, s1)
    | none => none

/-- Whether a registered binding matches a decoded property occurrence:
same element, and the property name among the requested names. -/
def itemMatches (k : SinkCore) (it : Item) : Bool :=
  it.ename == k.elementName && k.names.contains it.name

/-- Whether a header property's name is among a request's names. -/
def nameMatches (names : List String) (p : PlyProperty) : Bool :=
  names.contains p.name

/-- Modelled from the spec §4.4: append a decoded property occurrence to a
registered binding's buffer if the binding matches it; bindings that do not
match are left untouched (the bytes are skipped for them). -/
def applyItem (it : Item) (k : SinkCore) : SinkCore :=
  if itemMatches k it then
    { k with buffer := k.buffer ++ it.bytes,
             listIndices := k.listIndices ++ it.listCount.toList }
  else k

/-- Route one decoded property occurrence to a binding slot; a failed
binding (unknown element/property) is carried through untouched. -/
def applySink (it : Item) (x : Except PlyError SinkCore) : Except PlyError SinkCore :=
  x.map (applyItem it)

/-- Modelled from the spec §4.4: decode one row's properties in header
order, routing each decoded occurrence through every registered binding in
a single pass. -/
def decodeProps (c : BodyCodec) (en : String) :
    List PlyProperty → List (Except PlyError SinkCore) → List Nat →
    Option (List (Except PlyError SinkCore) × List Nat)
  | [], sinks, s => some (sinks, s)
  | p :: ps, sinks, s =>
    match decodeItem c en p s with
    | some (it, s1) => decodeProps c en ps (sinks.map (applySink it)) s1
    | none => none

/-- Modelled from the spec §4.4: decode `n` rows of an element. -/
def decodeRows (c : BodyCodec) (en : String) (ps : List PlyProperty) :
    Nat → List (Except PlyError SinkCore) → List Nat →
    Option (List (Except PlyError SinkCore) × List Nat)
  | 0, sinks, s => some (sinks, s)
  | n + 1, sinks, s =>
    match decodeProps c en ps sinks s with
    | some (sinks1, s1) => decodeRows c en ps n sinks1 s1
    | none => none

/-- Modelled from the spec §4.4: decode the whole body, elements in header
order, a single sequential pass over the stream satisfying every binding. -/
def decodeBody (c : BodyCodec) :
    List PlyElement → List (Except PlyError SinkCore) → List Nat →
    Option (List (Except PlyError SinkCore) × List Nat)
  | [], sinks, s => some (sinks, s)
  | e :: es, sinks, s =>
    match decodeRows c e.name e.properties e.size sinks s with
    | some (sinks1, s1) => decodeBody c es sinks1 s1
    | none => none

/-- Modelled from the spec §2/§4: one whole read call — parse the header
(aborting the operation on any header error), resolve every binding request
independently, then run the single decode pass over the body, and return
one per-request result (a failed resolution is reported against that
binding alone). -/
def readPly (lines : List (List String)) (body : List Nat) (reqs : List ReadRequest) :
    Except PlyError (List (Except PlyError PlyData)) :=
  match parseHeader lines with
  | .error e => .error e
  | .ok h =>
    let resolved := reqs.map (fun r => resolveRequestCore h r.elementName r.propertyNames)
    match decodeBody (headerCodec h) h.elements resolved body with
    | some (sinks, _) =>
      .ok (List.zipWith (fun r x => x.map (mkPlyData (requestCapacityH h r))) reqs sinks)
    | none => .error .TruncatedBody

/-! ## Write-side bindings and encoders (spec §3 "Binding (write side)",
§4.3 write path, §4.4/§4.5 encode) -/

/-- Modelled from the spec §3: a write-side provide binding.  `listCount`
is the fixed per-row list length, 0 for a non-list group; `source` is the
caller-owned byte buffer the scalars are read from at encode time. -/
structure WriteBinding where
  propertyNames : List String
  t : PlyType
  count : Nat
  listType : PlyType
  listCount : Nat
  source : List Nat
deriving DecidableEq, Repr

/-- Modelled from the spec §4.3: the write-side configuration — per element
name (in first-use order) the provide bindings registered against it, plus
the comment lines to serialize. -/
structure PlyFileW where
  elements : List (String × List WriteBinding)
  comments : List String
deriving DecidableEq, Repr

/-- Append one provide binding to the group of an element, creating the
group on first use (the `add_properties_to_element` call of the API). -/
def addPropertiesToElement (f : PlyFileW) (en : String) (names : List String)
    (t : PlyType) (cnt : Nat) (src : List Nat) (lt : PlyType) (lc : Nat) : PlyFileW :=
  let b : WriteBinding :=
    { propertyNames := names, t := t, count := cnt, listType := lt,
      listCount := lc, source := src }
  if f.elements.any (fun g => g.1 == en) then
    { f with elements :=
        f.elements.map (fun g => if g.1 == en then (g.1, g.2 ++ [b]) else g) }
  else
    { f with elements := f.elements ++ [(en, [b])] }

/-- Scalars emitted per property name per row: the fixed list length for a
list group, one for a plain group. -/
def bindingGS (b : WriteBinding) : Nat :=
  if b.listCount = 0 then 1 else b.listCount

/-- Source bytes consumed per property name per row. -/
def bindingGSB (b : WriteBinding) : Nat := bindingGS b * b.t.stride

/-- Modelled from the spec §4.3: the header properties a provide binding
declares, one per provided name, in the provided order (the count type is
meaningful only for a list group, as in the parsed header). -/
def bindingProps (b : WriteBinding) : List PlyProperty :=
  b.propertyNames.map (fun n =>
    { name := n, propertyType := b.t, isList := !(b.listCount == 0),
      listType := if b.listCount == 0 then .INVALID else b.listType })

/-- Row count of a binding group (fixed at header-generation time from its
first binding). -/
def groupRows (bs : List WriteBinding) : Nat :=
  match bs with
  | [] => 0
  | b :: _ => b.count

/-- The header element one binding group generates. -/
def elemOfGroup (g : String × List WriteBinding) : PlyElement :=
  { name := g.1, size := groupRows g.2,
    properties := (g.2.map bindingProps).flatten }

/-- Modelled from the spec §4.3: the header Document a write configuration
generates — elements in first-use order, each element's property list the
concatenation, in declaration order, of its bindings' property groups. -/
def headerOfW (f : PlyFileW) (isBinary : Bool) : PlyHeader :=
  { isBinary := isBinary, isBigEndian := false, comments := f.comments,
    objInfo := [], elements := f.elements.map elemOfGroup }

/-- Format token of the serialized format line (binary output is written
little-endian). -/
def formatTok (isBinary : Bool) : String :=
  if isBinary then "binary_little_endian" else "ascii"

/-- Header lines of one binding: one property line per provided name. -/
def bindingLines (b : WriteBinding) : List (List String) :=
  b.propertyNames.map (fun n =>
    if b.listCount == 0 then ["property", b.t.token, n]
    else ["property", "list", b.listType.token, b.t.token, n])

/-- Header lines of one element group: the element line then its property
lines. -/
def elementLines (g : String × List WriteBinding) : List (List String) :=
  ["element", g.1, natRepr (groupRows g.2)] :: (g.2.map bindingLines).flatten

/-- Modelled from the spec §4.2/§6: the serialized header of a write
configuration (pre-tokenized lines): magic, format, comments, element and
property declarations, terminator. -/
def headerLinesW (f : PlyFileW) (isBinary : Bool) : List (List String) :=
  [["ply"], ["format", formatTok isBinary, "1.0"]]
    ++ f.comments.map (fun c => ["comment", c])
    ++ (f.elements.map elementLines).flatten
    ++ [["end_header"]]

/-- A body format's emit side: how a run of scalars (given as raw source
bytes) and a list-count value are written to the stream. -/
structure BodyEncoder where
  emitScalars : PlyType → Nat → List Nat → List Nat
  emitCount : PlyType → Nat → List Nat

/-- Modelled from the spec §4.4: binary encode — raw bytes verbatim, count
values in the declared endianness. -/
def binEncoder (be : Bool) : BodyEncoder where
  emitScalars _ _ src := src
  emitCount t c := toBytesE be t.stride c

/-- Split `n` scalars of width `w` off a raw byte buffer into their numeric
token values. -/
def bytesToTokens : Nat → Nat → List Nat → List Nat
  | 0, _, _ => []
  | n + 1, w, src => bytesToNatLE (src.take w) :: bytesToTokens n w (src.drop w)

/-- Modelled from the spec §4.5: ASCII encode — one decimal token per
scalar value, the literal count token before each list row. -/
def asciiEncoder : BodyEncoder where
  emitScalars t n src := bytesToTokens n t.stride src
  emitCount _ c := [c]

/-- Modelled from the spec §4.4 encode: one row's output for one binding —
for each provided name, the count value first for a list group, then the
group of scalars read from the source buffer at the running offset. -/
def encNamesW (enc : BodyEncoder) (t lt : PlyType) (lc : Nat) :
    List String → List Nat → List Nat
  | [], _ => []
  | _ :: ns, src =>
    let gs := if lc = 0 then 1 else lc
    (if lc = 0 then [] else enc.emitCount lt lc)
      ++ enc.emitScalars t gs (src.take (gs * t.stride))
      ++ encNamesW enc t lt lc ns (src.drop (gs * t.stride))

/-- One row's output across an element's bindings, each binding reading
from its own source buffer. -/
def encRowW (enc : BodyEncoder) : List WriteBinding → List (List Nat) → List Nat
  | b :: bs, src :: ss =>
    encNamesW enc b.t b.listType b.listCount b.propertyNames src ++ encRowW enc bs ss
  | _, _ => []

/-- Advance each binding's source buffer past one row. -/
def advanceSrcs : List WriteBinding → List (List Nat) → List (List Nat)
  | b :: bs, src :: ss =>
    src.drop (b.propertyNames.length * bindingGSB b) :: advanceSrcs bs ss
  | _, _ => []

/-- `n` rows of an element's body, maintaining a running per-binding source
offset. -/
def encRowsW (enc : BodyEncoder) (bs : List WriteBinding) :
    Nat → List (List Nat) → List Nat
  | 0, _ => []
  | n + 1, srcs => encRowW enc bs srcs ++ encRowsW enc bs n (advanceSrcs bs srcs)

/-- Body of one element group. -/
def encElementW (enc : BodyEncoder) (bs : List WriteBinding) : List Nat :=
  encRowsW enc bs (groupRows bs) (bs.map (fun b => b.source))

/-- Modelled from the spec §4.4/§4.5 encode: the whole body, elements in
declaration order. -/
def encBodyW (enc : BodyEncoder) (f : PlyFileW) : List Nat :=
  (f.elements.map (fun g => encElementW enc g.2)).flatten

/-- Modelled from the spec §4.3: write-side validation — all bindings of
one element must agree on `row_count`. -/
def groupCountsOk (bs : List WriteBinding) : Bool :=
  match bs with
  | [] => true
  | b :: rest => rest.all (fun x => x.count == b.count)

/-- Validation over the whole configuration. -/
def rowCountsOk (f : PlyFileW) : Bool :=
  f.elements.all (fun g => groupCountsOk g.2)

/-- Modelled from the spec §4.3/§7: one write call.  Row-count validation is
exhaustive up front: on a mismatch the call fails with `RowCountMismatch`
and no header line or body byte is produced; otherwise the serialized
header lines and body stream are returned. -/
def writePly (f : PlyFileW) (isBinary : Bool) :
    Except PlyError (List (List String) × List Nat) :=
  if rowCountsOk f then
    .ok (headerLinesW f isBinary,
         encBodyW (if isBinary then binEncoder false else asciiEncoder) f)
  else .error .RowCountMismatch

/-- Modelled from the spec §3/§5: one write call with its effect on the
engine state made explicit.  The registered bindings, comments and
caller-owned source buffers are only read during serialization, so the
state handed back is the state that was passed in. -/
def writePlySt (f : PlyFileW) (isBinary : Bool) :
    Except PlyError (List (List String) × List Nat) × PlyFileW :=
  (writePly f isBinary, f)

/-! ## Parse/route factorization devices

The decode pass interleaves stream parsing with routing into the
registered bindings.  The functions below compute the same pass split into
a pure parsing phase (the list of decoded property occurrences) and a pure
routing phase (a fold of `applyItem`); the factorization theorems proved
later connect them to `decodeProps`/`decodeRows`/`decodeBody`. -/

/-- Parsing phase of `decodeProps`: the decoded occurrences of one row. -/
def parseProps (c : BodyCodec) (en : String) :
    List PlyProperty → List Nat → Option (List Item × List Nat)
  | [], s => some ([], s)
  | p :: ps, s =>
    match decodeItem c en p s with
    | some (it, s1) =>
      match parseProps c en ps s1 with
      | some (its, s2) => some (it :: its, s2)
      | none => none
    | none => none

/-- Parsing phase of `decodeRows`. -/
def parseRows (c : BodyCodec) (en : String) (ps : List PlyProperty) :
    Nat → List Nat → Option (List Item × List Nat)
  | 0, s => some ([], s)
  | n + 1, s =>
    match parseProps c en ps s with
    | some (its, s1) =>
      match parseRows c en ps n s1 with
      | some (its2, s2) => some (its ++ its2, s2)
      | none => none
    | none => none

/-- Parsing phase of `decodeBody`. -/
def parseBody (c : BodyCodec) :
    List PlyElement → List Nat → Option (List Item × List Nat)
  | [], s => some ([], s)
  | e :: es, s =>
    match parseRows c e.name e.properties e.size s with
    | some (its, s1) =>
      match parseBody c es s1 with
      | some (its2, s2) => some (its ++ its2, s2)
      | none => none
    | none => none

/-- Routing phase: fold a run of decoded occurrences into one binding. -/
def applyCore (its : List Item) (k : SinkCore) : SinkCore :=
  its.foldl (fun a it => applyItem it a) k

/-- Routing phase over a binding slot. -/
def applyAll (its : List Item) (x : Except PlyError SinkCore) :
    Except PlyError SinkCore :=
  its.foldl (fun a it => applySink it a) x

/-! ## Expected decoded occurrences of an encoded body -/

/-- The occurrences one binding's row encodes: per provided name, the group
of source bytes at the running offset. -/
def namesItemsW (en : String) (t lt : PlyType) (lc : Nat) :
    List String → List Nat → List Item
  | [], _ => []
  | n :: ns, src =>
    let gs := if lc = 0 then 1 else lc
    { ename := en, name := n, t := t,
      lt := if lc = 0 then PlyType.INVALID else lt,
      bytes := src.take (gs * t.stride),
      listCount := if lc = 0 then none else some lc }
      :: namesItemsW en t lt lc ns (src.drop (gs * t.stride))

/-- The occurrences one row encodes across an element's bindings. -/
def rowItemsW (en : String) : List WriteBinding → List (List Nat) → List Item
  | b :: bs, src :: ss =>
    namesItemsW en b.t b.listType b.listCount b.propertyNames src
      ++ rowItemsW en bs ss
  | _, _ => []

/-- The occurrences `n` rows encode. -/
def rowsItemsW (en : String) (bs : List WriteBinding) :
    Nat → List (List Nat) → List Item
  | 0, _ => []
  | n + 1, srcs => rowItemsW en bs srcs ++ rowsItemsW en bs n (advanceSrcs bs srcs)

/-- The occurrences one element group encodes. -/
def elementItemsW (en : String) (bs : List WriteBinding) : List Item :=
  rowsItemsW en bs (groupRows bs) (bs.map (fun b => b.source))

/-- The occurrences a whole write configuration encodes. -/
def bodyItemsW (f : PlyFileW) : List Item :=
  (f.elements.map (fun g => elementItemsW g.1 g.2)).flatten

/-- The occurrences of one provide binding across `n` rows, with its source
offset advanced one row at a time (the sub-stream of the element's
occurrences a mirror request for this binding matches). -/
def bindingRowsItems (en : String) (b : WriteBinding) : Nat → List Nat → List Item
  | 0, _ => []
  | n + 1, src =>
    namesItemsW en b.t b.listType b.listCount b.propertyNames src
      ++ bindingRowsItems en b n (src.drop (b.propertyNames.length * bindingGSB b))

/-! ## Round-trip scaffolding -/

/-- The read requests that mirror a write configuration: one request per
provide binding, naming the same element and the same properties. -/
def mirrorRequests (f : PlyFileW) : List ReadRequest :=
  (f.elements.map (fun g => g.2.map (fun b =>
    ({ elementName := g.1, propertyNames := b.propertyNames,
       listSizeHint := 0 } : ReadRequest)))).flatten

/-- Capacity the mirror request (hint 0) pre-allocates. -/
def expectedCapacity (rows : Nat) (b : WriteBinding) : Nat :=
  if b.listCount == 0 then rows * b.t.stride else 0

/-- The ResultBuffer a round trip should reproduce for one provide binding:
the element's row count, the fixed list length for every row of every
provided list property, and exactly the source bytes the binding covered. -/
def expectedData (rows : Nat) (b : WriteBinding) : PlyData :=
  { t := b.t, isList := !(b.listCount == 0),
    listType := if b.listCount == 0 then .INVALID else b.listType,
    count := rows, capacity := expectedCapacity rows b,
    listIndices :=
      if b.listCount == 0 then []
      else List.replicate (rows * b.propertyNames.length) b.listCount,
    buffer := b.source.take (rows * (b.propertyNames.length * bindingGSB b)) }

/-- The per-request results a round trip should produce. -/
def expectedResults (f : PlyFileW) : List (Except PlyError PlyData) :=
  (f.elements.map (fun g => g.2.map (fun b =>
    (Except.ok (expectedData (groupRows g.2) b) : Except PlyError PlyData)))).flatten

/-- Well-formedness of one provide binding within a group of `rows` rows:
nonempty name list, a real scalar type (and a real count type for a list
group), the agreed row count, a count value representable at the count
type's width, a source buffer covering the encoded rows, and byte-valued
source entries. -/
def bindingWf (rows : Nat) (b : WriteBinding) : Prop :=
  b.propertyNames ≠ [] ∧ b.t ≠ .INVALID ∧ b.count = rows ∧
  (b.listCount ≠ 0 → b.listType ≠ .INVALID) ∧
  b.listCount < 2 ^ (8 * b.listType.stride) ∧
  rows * (b.propertyNames.length * bindingGSB b) ≤ b.source.length ∧
  (∀ x ∈ b.source, x < 256)

/-- Well-formedness of one element group: distinct property names across
the whole element, and well-formed bindings. -/
def groupWf (g : String × List WriteBinding) : Prop :=
  ((g.2.map (fun b => b.propertyNames)).flatten).Nodup ∧
  ∀ b ∈ g.2, bindingWf (groupRows g.2) b

/-- Well-formedness of a write configuration: distinct element names and
well-formed groups. -/
def fileWf (f : PlyFileW) : Prop :=
  (f.elements.map (fun g => g.1)).Nodup ∧ ∀ g ∈ f.elements, groupWf g

instance {ε α : Type} [DecidableEq ε] [DecidableEq α] : DecidableEq (Except ε α) :=
  fun x y =>
    match x, y with
    | .error a, .error b => decidable_of_iff (a = b) (by simp)
    | .ok a, .ok b => decidable_of_iff (a = b) (by simp)
    | .error _, .ok _ => isFalse (fun h => by cases h)
    | .ok _, .error _ => isFalse (fun h => by cases h)

instance (rows : Nat) (b : WriteBinding) : Decidable (bindingWf rows b) := by
  unfold bindingWf; exact inferInstance

instance (g : String × List WriteBinding) : Decidable (groupWf g) := by
  unfold groupWf; exact inferInstance

instance (f : PlyFileW) : Decidable (fileWf f) := by
  unfold fileWf; exact inferInstance

/-! ## Concrete fixtures used by witnesses -/

/-- A two-property element, used to exercise multi-property bindings. -/
def vElem : PlyElement :=
  ⟨"e", 1, [⟨"x", .UINT8, false, .INVALID⟩, ⟨"y", .UINT8, false, .INVALID⟩]⟩

/-- A binary-little-endian header declaring just `vElem`. -/
def vHeader : PlyHeader := ⟨true, false, [], [], [vElem]⟩

/-- The resolved sink of requesting `{x, y}` from `vElem`. -/
def vSink0 : SinkCore := ⟨"e", ["x", "y"], .UINT8, false, .INVALID, 1, [], []⟩

/-- `vSink0` after decoding the body `[7, 9]`. -/
def vSinkDone : SinkCore := ⟨"e", ["x", "y"], .UINT8, false, .INVALID, 1, [], [7, 9]⟩

/-- A small well-formed write configuration: a two-row scalar element `v`
with properties `x`/`y` and a one-row list element `f`. -/
def vFileW : PlyFileW :=
  { elements :=
      [("v", [{ propertyNames := ["x", "y"], t := .UINT8, count := 2,
                listType := .UINT16, listCount := 0, source := [1, 2, 3, 4] }]),
       ("f", [{ propertyNames := ["vi"], t := .UINT8, count := 1,
                listType := .UINT8, listCount := 2, source := [7, 8] }])],
    comments := ["c"] }

/-- A codec parses `n` scalars of a type into exactly `n * byte_width`
buffer bytes (both body codecs satisfy this). -/
def codecWf (c : BodyCodec) : Prop :=
  ∀ t n s bs r, c.parseScalars t n s = some (bs, r) → bs.length = n * t.stride

/-- Relation between a header property and one of its decoded occurrences
within element `en`: matching identity and types, and buffer bytes sized by
the list count (or a single scalar). -/
def propItemRel (en : String) (p : PlyProperty) (it : Item) : Prop :=
  it.ename = en ∧ it.name = p.name ∧ it.t = p.propertyType ∧ it.lt = p.listType ∧
  ((p.isList = true ∧ ∃ cnt, it.listCount = some cnt ∧
      it.bytes.length = cnt * p.propertyType.stride) ∨
   (p.isList = false ∧ it.listCount = none ∧
      it.bytes.length = p.propertyType.stride))

/-- Shape of the occurrences `n` rows of an element produce: `n` groups,
each related pointwise to the element's property list. -/
def RowsShape (en : String) (ps : List PlyProperty) : Nat → List Item → Prop
  | 0, its => its = []
  | n + 1, its => ∃ row rest, its = row ++ rest ∧
      List.Forall₂ (propItemRel en) ps row ∧ RowsShape en ps n rest

/-- Shape of the occurrences a whole body produces: one `RowsShape` block
per element, in header order. -/
def BodyShape : List PlyElement → List Item → Prop
  | [], its => its = []
  | e :: es, its => ∃ a b, its = a ++ b ∧
      RowsShape e.name e.properties e.size a ∧ BodyShape es b

/-- All properties of `e` matched by the request names agree on scalar
type, list flag and list count type. -/
def matchedHomog (e : PlyElement) (names : List String) : Prop :=
  ∀ p ∈ e.properties, ∀ q ∈ e.properties,
    names.contains p.name = true → names.contains q.name = true →
    p.propertyType = q.propertyType ∧ p.isList = q.isList ∧ p.listType = q.listType

instance (e : PlyElement) (names : List String) : Decidable (matchedHomog e names) := by
  unfold matchedHomog; exact inferInstance

/-! ## Projections and request equivalence -/

/-- Everything a ResultBuffer holds apart from its pre-allocated capacity. -/
def dataNoCap (d : PlyData) :
    PlyType × Bool × PlyType × Nat × List Nat × List Nat :=
  (d.t, d.isList, d.listType, d.count, d.listIndices, d.buffer)

/-- Capacity-blind view of one read call's outcome. -/
def resultsNoCap (r : Except PlyError (List (Except PlyError PlyData))) :
    Except PlyError (List (Except PlyError (PlyType × Bool × PlyType × Nat × List Nat × List Nat))) :=
  r.map (fun l => l.map (Except.map dataNoCap))

/-- Two read requests naming the same element and the same set of property
names (in any order), with the same hint. -/
def reqEquiv (r r' : ReadRequest) : Prop :=
  r.elementName = r'.elementName ∧ r.listSizeHint = r'.listSizeHint ∧
  (∀ x ∈ r.propertyNames, x ∈ r'.propertyNames) ∧
  (∀ x ∈ r'.propertyNames, x ∈ r.propertyNames)

/-- Two binding slots equal in everything but the stored request-name
order (same name set). -/
def coreEquiv (k k' : SinkCore) : Prop :=
  k.elementName = k'.elementName ∧ (∀ x, x ∈ k.names ↔ x ∈ k'.names) ∧
  k.t = k'.t ∧ k.isList = k'.isList ∧ k.listType = k'.listType ∧
  k.count = k'.count ∧ k.listIndices = k'.listIndices ∧ k.buffer = k'.buffer

/-! # Theorems -/

/-! ## Basic byte-layout and number-format lemmas -/

theorem natToBytesLE_length (w v : Nat) : (natToBytesLE w v).length = w := by
  induction w generalizing v with
  | zero => rfl
  | succ w ih => simp [natToBytesLE, ih]

theorem natToBytesLE_lt (w v : Nat) : ∀ b ∈ natToBytesLE w v, b < 256 := by
  induction w generalizing v with
  | zero => simp [natToBytesLE]
  | succ w ih =>
    intro b hb
    simp only [natToBytesLE, List.mem_cons] at hb
    rcases hb with h | h
    · subst h; exact Nat.mod_lt _ (by omega)
    · exact ih _ _ h

theorem bytesToNatLE_natToBytesLE (w v : Nat) (h : v < 2 ^ (8 * w)) :
    bytesToNatLE (natToBytesLE w v) = v := by
  induction w generalizing v with
  | zero => simp [natToBytesLE, bytesToNatLE] at *; omega
  | succ w ih =>
    have hpow : 2 ^ (8 * (w + 1)) = 256 * 2 ^ (8 * w) := by
      rw [Nat.mul_succ, Nat.pow_add]; ring
    have hdiv : v / 256 < 2 ^ (8 * w) := by
      rw [hpow] at h
      exact Nat.div_lt_of_lt_mul (by omega)
    simp [natToBytesLE, bytesToNatLE, ih _ hdiv]
    omega

theorem natToBytesLE_bytesToNatLE (c : List Nat) (hb : ∀ b ∈ c, b < 256) :
    natToBytesLE c.length (bytesToNatLE c) = c := by
  induction c with
  | nil => rfl
  | cons b bs ih =>
    have hblt : b < 256 := hb b (by simp)
    have h1 : (b + 256 * bytesToNatLE bs) % 256 = b := by
      rw [Nat.add_mul_mod_self_left, Nat.mod_eq_of_lt hblt]
    have h2 : (b + 256 * bytesToNatLE bs) / 256 = bytesToNatLE bs := by
      rw [Nat.add_mul_div_left _ _ (by omega), Nat.div_eq_of_lt hblt]
      omega
    simp [natToBytesLE, bytesToNatLE, h1, h2]
    exact ih (fun x hx => hb x (by simp [hx]))

theorem toBytesE_length (be : Bool) (w v : Nat) : (toBytesE be w v).length = w := by
  cases be <;> simp [toBytesE, natToBytesLE_length]

theorem fromBytesE_toBytesE (be : Bool) (w v : Nat) (h : v < 2 ^ (8 * w)) :
    fromBytesE be (toBytesE be w v) = v := by
  cases be <;> simp [toBytesE, fromBytesE, bytesToNatLE_natToBytesLE w v h]

theorem takeExact?_append (n : Nat) (a r : List Nat) (ha : a.length = n) :
    takeExact? n (a ++ r) = some (a, r) := by
  subst ha
  unfold takeExact?
  rw [if_pos (by simp)]
  rw [List.take_left, List.drop_left]

theorem takeExact?_spec (n : Nat) (s bs r : List Nat)
    (h : takeExact? n s = some (bs, r)) :
    bs.length = n ∧ s = bs ++ r := by
  unfold takeExact? at h
  by_cases hn : n ≤ s.length
  · rw [if_pos hn] at h
    cases h
    constructor
    · simp [Nat.min_eq_left hn]
    · exact (List.take_append_drop n s).symm
  · rw [if_neg hn] at h; cases h

/-! ## Decimal text round trip -/

theorem natDigits_ge (n : Nat) (h : ¬ n < 10) :
    natDigits n = natDigits (n / 10) ++ [Char.ofNat (48 + n % 10)] := by
  rw [natDigits]
  simp [h]

theorem natDigits_lt (n : Nat) (h : n < 10) : natDigits n = [Char.ofNat (48 + n)] := by
  rw [natDigits]
  simp [h]

theorem digitVal_ofNat (d : Nat) (h : d < 10) :
    digitVal (Char.ofNat (48 + d)) = some d := by
  interval_cases d <;> decide

theorem parseNatAcc_append (a : Nat) (xs ys : List Char) :
    parseNatAcc a (xs ++ ys) =
      match parseNatAcc a xs with
      | some m => parseNatAcc m ys
      | none => none := by
  induction xs generalizing a with
  | nil => simp [parseNatAcc]
  | cons c cs ih =>
    simp only [List.cons_append, parseNatAcc]
    cases digitVal c with
    | none => rfl
    | some d => exact ih _

theorem parseNatAcc_natDigits (n : Nat) :
    ∀ a, parseNatAcc a (natDigits n) = some (a * 10 ^ (natDigits n).length + n) := by
  induction n using Nat.strong_induction_on with
  | _ n ih =>
    intro a
    by_cases h : n < 10
    · rw [natDigits_lt n h]
      simp [parseNatAcc, digitVal_ofNat n h]
    · rw [natDigits_ge n h]
      rw [parseNatAcc_append]
      have hlt : n / 10 < n := Nat.div_lt_self (by omega) (by omega)
      rw [ih (n / 10) hlt a]
      simp only [parseNatAcc, digitVal_ofNat (n % 10) (Nat.mod_lt _ (by omega))]
      rw [List.length_append]
      simp only [List.length_singleton, parseNatAcc]
      congr 1
      rw [Nat.pow_add, Nat.pow_one]
      have : n = 10 * (n / 10) + n % 10 := (Nat.div_add_mod n 10).symm ▸ by omega
      ring_nf
      omega

theorem natDigits_ne_nil (n : Nat) : natDigits n ≠ [] := by
  by_cases h : n < 10
  · rw [natDigits_lt n h]; simp
  · rw [natDigits_ge n h]; simp

theorem parseNatStr_natRepr (n : Nat) : parseNatStr (natRepr n) = some n := by
  unfold parseNatStr natRepr
  have hd : (String.mk (natDigits n)).data = natDigits n := rfl
  rw [hd]
  cases hds : natDigits n with
  | nil => exact absurd hds (natDigits_ne_nil n)
  | cons c cs =>
    show parseNatAcc 0 (c :: cs) = some n
    have h0 := parseNatAcc_natDigits n 0
    rw [hds] at h0
    simpa using h0

/-! ## Type registry round trip -/

theorem parsePlyType_token (t : PlyType) (h : t ≠ .INVALID) :
    parsePlyType t.token = some t := by
  cases t <;> first
    | exact absurd rfl h
    | rfl

theorem stride_pos (t : PlyType) (h : t ≠ .INVALID) : 0 < t.stride := by
  cases t <;> first
    | exact absurd rfl h
    | simp [PlyType.stride]

/-! ## Decode factorization: parse phase then route phase -/

theorem applyAll_nil (x : Except PlyError SinkCore) : applyAll [] x = x := rfl

theorem applyAll_cons (it : Item) (its : List Item) (x : Except PlyError SinkCore) :
    applyAll (it :: its) x = applyAll its (applySink it x) := rfl

theorem applyAll_append (a b : List Item) (x : Except PlyError SinkCore) :
    applyAll (a ++ b) x = applyAll b (applyAll a x) := by
  simp [applyAll, List.foldl_append]

theorem applyCore_append (a b : List Item) (k : SinkCore) :
    applyCore (a ++ b) k = applyCore b (applyCore a k) := by
  simp [applyCore, List.foldl_append]

theorem applyAll_ok (its : List Item) (k : SinkCore) :
    applyAll its (.ok k) = .ok (applyCore its k) := by
  induction its generalizing k with
  | nil => rfl
  | cons it its ih => simp [applyAll_cons, applySink, Except.map, applyCore, ih]

theorem applyAll_error (its : List Item) (e : PlyError) :
    applyAll its (.error e) = .error e := by
  induction its with
  | nil => rfl
  | cons it its ih => simp [applyAll_cons, applySink, Except.map, ih]

theorem map_applyAll_nil (sinks : List (Except PlyError SinkCore)) :
    sinks.map (applyAll []) = sinks := by
  have h : ∀ x, applyAll [] x = x := fun _ => rfl
  calc sinks.map (applyAll []) = sinks.map id := List.map_congr_left (fun x _ => h x)
    _ = sinks := List.map_id sinks

theorem decodeProps_eq_parse (c : BodyCodec) (en : String) (ps : List PlyProperty)
    (sinks : List (Except PlyError SinkCore)) (s : List Nat) :
    decodeProps c en ps sinks s =
      match parseProps c en ps s with
      | some (its, r) => some (sinks.map (applyAll its), r)
      | none => none := by
  induction ps generalizing sinks s with
  | nil => simp [decodeProps, parseProps, map_applyAll_nil]
  | cons p ps ih =>
    simp only [decodeProps, parseProps]
    cases hit : decodeItem c en p s with
    | none => rfl
    | some pr =>
      obtain ⟨it, s1⟩ := pr
      show decodeProps c en ps (sinks.map (applySink it)) s1 =
        match (match parseProps c en ps s1 with
               | some (its, s2) => some (it :: its, s2)
               | none => none) with
        | some (its, r) => some (sinks.map (applyAll its), r)
        | none => none
      rw [ih]
      cases hps : parseProps c en ps s1 with
      | none => rfl
      | some pr2 =>
        obtain ⟨its, r⟩ := pr2
        show some ((sinks.map (applySink it)).map (applyAll its), r)
           = some (sinks.map (applyAll (it :: its)), r)
        rw [List.map_map]
        exact congrArg (fun l => some (l, r)) (List.map_congr_left (fun x _ => rfl))

theorem decodeRows_eq_parse (c : BodyCodec) (en : String) (ps : List PlyProperty)
    (n : Nat) (sinks : List (Except PlyError SinkCore)) (s : List Nat) :
    decodeRows c en ps n sinks s =
      match parseRows c en ps n s with
      | some (its, r) => some (sinks.map (applyAll its), r)
      | none => none := by
  induction n generalizing sinks s with
  | zero => simp [decodeRows, parseRows, map_applyAll_nil]
  | succ n ih =>
    simp only [decodeRows, parseRows]
    rw [decodeProps_eq_parse]
    cases hps : parseProps c en ps s with
    | none => rfl
    | some pr =>
      obtain ⟨its, s1⟩ := pr
      show decodeRows c en ps n (sinks.map (applyAll its)) s1 =
        match (match parseRows c en ps n s1 with
               | some (its2, s2) => some (its ++ its2, s2)
               | none => none) with
        | some (its3, r) => some (sinks.map (applyAll its3), r)
        | none => none
      rw [ih]
      cases hrs : parseRows c en ps n s1 with
      | none => rfl
      | some pr2 =>
        obtain ⟨its2, r⟩ := pr2
        show some ((sinks.map (applyAll its)).map (applyAll its2), r)
           = some (sinks.map (applyAll (its ++ its2)), r)
        rw [List.map_map]
        exact congrArg (fun l => some (l, r))
          (List.map_congr_left (fun x _ => (applyAll_append its its2 x).symm))

theorem decodeBody_eq_parse (c : BodyCodec) (es : List PlyElement)
    (sinks : List (Except PlyError SinkCore)) (s : List Nat) :
    decodeBody c es sinks s =
      match parseBody c es s with
      | some (its, r) => some (sinks.map (applyAll its), r)
      | none => none := by
  induction es generalizing sinks s with
  | nil => simp [decodeBody, parseBody, map_applyAll_nil]
  | cons e es ih =>
    simp only [decodeBody, parseBody]
    rw [decodeRows_eq_parse]
    cases hrs : parseRows c e.name e.properties e.size s with
    | none => rfl
    | some pr =>
      obtain ⟨its, s1⟩ := pr
      show decodeBody c es (sinks.map (applyAll its)) s1 =
        match (match parseBody c es s1 with
               | some (its2, s2) => some (its ++ its2, s2)
               | none => none) with
        | some (its3, r) => some (sinks.map (applyAll its3), r)
        | none => none
      rw [ih]
      cases hbd : parseBody c es s1 with
      | none => rfl
      | some pr2 =>
        obtain ⟨its2, r⟩ := pr2
        show some ((sinks.map (applyAll its)).map (applyAll its2), r)
           = some (sinks.map (applyAll (its ++ its2)), r)
        rw [List.map_map]
        exact congrArg (fun l => some (l, r))
          (List.map_congr_left (fun x _ => (applyAll_append its its2 x).symm))

/-! ## Codec lemmas -/

theorem binCodec_parseScalars_spec (be : Bool) (t : PlyType) (n : Nat)
    (s bs r : List Nat) (h : (binCodec be).parseScalars t n s = some (bs, r)) :
    bs.length = n * t.stride ∧ s = bs ++ r :=
  takeExact?_spec _ _ _ _ h

theorem binCodec_wf (be : Bool) : codecWf (binCodec be) :=
  fun _ _ _ _ _ h => (binCodec_parseScalars_spec _ _ _ _ _ _ h).1

theorem flattenBytes_length (w : Nat) (toks : List Nat) :
    ((toks.map (natToBytesLE w)).flatten).length = toks.length * w := by
  induction toks with
  | nil => simp
  | cons v vs ih =>
    simp [natToBytesLE_length, ih]
    ring

theorem asciiCodec_parseScalars_spec (t : PlyType) (n : Nat)
    (s bs r : List Nat) (h : asciiCodec.parseScalars t n s = some (bs, r)) :
    bs.length = n * t.stride ∧ s.length = n + r.length := by
  simp only [asciiCodec] at h
  cases hte : takeExact? n s with
  | none => rw [hte] at h; cases h
  | some pr =>
    obtain ⟨toks, r2⟩ := pr
    rw [hte] at h
    replace h : some ((toks.map (natToBytesLE t.stride)).flatten, r2) = some (bs, r) := h
    cases h
    obtain ⟨hlen, hs⟩ := takeExact?_spec _ _ _ _ hte
    refine ⟨?_, ?_⟩
    · rw [flattenBytes_length, hlen]
    · rw [hs, List.length_append, hlen]

theorem asciiCodec_wf : codecWf asciiCodec :=
  fun _ _ _ _ _ h => (asciiCodec_parseScalars_spec _ _ _ _ _ h).1

theorem headerCodec_wf (h : PlyHeader) : codecWf (headerCodec h) := by
  unfold headerCodec
  by_cases hb : h.isBinary
  · rw [if_pos hb]; exact binCodec_wf _
  · rw [if_neg hb]; exact asciiCodec_wf

theorem binCodec_emit_scalars (be be2 : Bool) (t : PlyType) (n : Nat)
    (src r : List Nat) (h : src.length = n * t.stride) :
    (binCodec be).parseScalars t n ((binEncoder be2).emitScalars t n src ++ r) =
      some (src, r) := by
  simp only [binCodec, binEncoder]
  exact takeExact?_append _ _ _ h

theorem binCodec_emit_count (be : Bool) (t : PlyType) (c : Nat) (r : List Nat)
    (hc : c < 2 ^ (8 * t.stride)) :
    (binCodec be).parseCount t ((binEncoder be).emitCount t c ++ r) = some (c, r) := by
  simp only [binCodec, binEncoder]
  rw [takeExact?_append _ _ _ (toBytesE_length be t.stride c)]
  show some (fromBytesE be (toBytesE be t.stride c), r) = some (c, r)
  rw [fromBytesE_toBytesE be t.stride c hc]

theorem bytesToTokens_length (n w : Nat) (src : List Nat) :
    (bytesToTokens n w src).length = n := by
  induction n generalizing src with
  | zero => rfl
  | succ n ih => simp [bytesToTokens, ih]

theorem bytesToTokens_flatten (n w : Nat) (src : List Nat)
    (h : src.length = n * w) (hb : ∀ b ∈ src, b < 256) :
    ((bytesToTokens n w src).map (natToBytesLE w)).flatten = src := by
  induction n generalizing src with
  | zero =>
    have : src = [] := List.length_eq_zero.mp (by omega)
    subst this
    rfl
  | succ n ih =>
    have hw : w ≤ src.length := by
      rw [h, Nat.succ_mul]; omega
    have htl : (src.take w).length = w := by
      simp [Nat.min_eq_left hw]
    simp only [bytesToTokens, List.map_cons, List.flatten_cons]
    rw [show natToBytesLE w (bytesToNatLE (src.take w)) =
          natToBytesLE (src.take w).length (bytesToNatLE (src.take w)) by rw [htl]]
    rw [natToBytesLE_bytesToNatLE _ (fun b hbm => hb b (List.mem_of_mem_take hbm))]
    rw [ih (src.drop w) (by simp [h, Nat.succ_mul])
          (fun b hbm => hb b (List.mem_of_mem_drop hbm))]
    exact List.take_append_drop w src

theorem asciiCodec_emit_scalars (t : PlyType) (n : Nat) (src r : List Nat)
    (h : src.length = n * t.stride) (hb : ∀ b ∈ src, b < 256) :
    asciiCodec.parseScalars t n (asciiEncoder.emitScalars t n src ++ r) =
      some (src, r) := by
  simp only [asciiCodec, asciiEncoder]
  rw [takeExact?_append _ _ _ (bytesToTokens_length n t.stride src)]
  show some (((bytesToTokens n t.stride src).map (natToBytesLE t.stride)).flatten, r)
     = some (src, r)
  rw [bytesToTokens_flatten n t.stride src h hb]

theorem asciiCodec_emit_count (t : PlyType) (c : Nat) (r : List Nat) :
    asciiCodec.parseCount t (asciiEncoder.emitCount t c ++ r) = some (c, r) := rfl

/-! ## Decoded-occurrence structure -/

theorem decodeItem_spec (c : BodyCodec) (hc : codecWf c) (en : String)
    (p : PlyProperty) (s : List Nat) (it : Item) (r : List Nat)
    (h : decodeItem c en p s = some (it, r)) : propItemRel en p it := by
  unfold decodeItem at h
  by_cases hpl : p.isList
  · rw [if_pos hpl] at h
    cases hcnt : c.parseCount p.listType s with
    | none => rw [hcnt] at h; cases h
    | some pr =>
      obtain ⟨cnt, s1⟩ := pr
      rw [hcnt] at h
      replace h :
          (match c.parseScalars p.propertyType cnt s1 with
           | some (bs, s2) =>
             some (({ ename := en, name := p.name, t := p.propertyType,
                      lt := p.listType, bytes := bs, listCount := some cnt } : Item), s2)
           | none => none) = some (it, r) := h
      cases hsc : c.parseScalars p.propertyType cnt s1 with
      | none => rw [hsc] at h; cases h
      | some pr2 =>
        obtain ⟨bs, s2⟩ := pr2
        rw [hsc] at h
        cases h
        refine ⟨rfl, rfl, rfl, rfl, Or.inl ⟨hpl, cnt, rfl, ?_⟩⟩
        exact hc _ _ _ _ _ hsc
  · rw [if_neg hpl] at h
    cases hsc : c.parseScalars p.propertyType 1 s with
    | none => rw [hsc] at h; cases h
    | some pr =>
      obtain ⟨bs, s1⟩ := pr
      rw [hsc] at h
      cases h
      refine ⟨rfl, rfl, rfl, rfl, Or.inr ⟨by simpa using hpl, rfl, ?_⟩⟩
      have hb := hc _ _ _ _ _ hsc
      show bs.length = p.propertyType.stride
      omega

theorem applyCore_spec (its : List Item) (k : SinkCore) :
    applyCore its k =
      { k with
        buffer := k.buffer ++
          ((its.filter (itemMatches k)).map (fun it => it.bytes)).flatten,
        listIndices := k.listIndices ++
          ((its.filter (itemMatches k)).map
            (fun it => it.listCount.toList)).flatten } := by
  induction its generalizing k with
  | nil =>
    simp only [List.filter_nil, List.map_nil, List.flatten_nil, List.append_nil]
    rfl
  | cons it its ih =>
    cases hm : itemMatches k it with
    | true =>
      have hstep : applyCore (it :: its) k =
          applyCore its { k with buffer := k.buffer ++ it.bytes,
                                 listIndices := k.listIndices ++ it.listCount.toList } := by
        show applyCore its (applyItem it k) = _
        rw [applyItem, if_pos hm]
      rw [hstep, ih]
      have hfe : List.filter
          (itemMatches { k with buffer := k.buffer ++ it.bytes,
                                listIndices := k.listIndices ++ it.listCount.toList }) its
          = List.filter (itemMatches k) its :=
        List.filter_congr (fun x _ => rfl)
      rw [hfe]
      simp [List.filter_cons, hm]
    | false =>
      have hstep : applyCore (it :: its) k = applyCore its k := by
        show applyCore its (applyItem it k) = _
        rw [applyItem, if_neg (by simp [hm])]
      rw [hstep, ih]
      simp [List.filter_cons, hm]

/-! ## Shape of parsed bodies -/

theorem parseProps_items (c : BodyCodec) (hc : codecWf c) (en : String)
    (ps : List PlyProperty) (s : List Nat) (its : List Item) (r : List Nat)
    (h : parseProps c en ps s = some (its, r)) :
    List.Forall₂ (propItemRel en) ps its := by
  induction ps generalizing s its r with
  | nil =>
    replace h : some (([] : List Item), s) = some (its, r) := h
    cases h
    exact List.Forall₂.nil
  | cons p ps ih =>
    unfold parseProps at h
    cases hit : decodeItem c en p s with
    | none => rw [hit] at h; cases h
    | some pr =>
      obtain ⟨it, s1⟩ := pr
      rw [hit] at h
      replace h :
          (match parseProps c en ps s1 with
           | some (its2, s2) => some (it :: its2, s2)
           | none => none) = some (its, r) := h
      cases hps : parseProps c en ps s1 with
      | none => rw [hps] at h; cases h
      | some pr2 =>
        obtain ⟨its2, s2⟩ := pr2
        rw [hps] at h
        cases h
        exact List.Forall₂.cons (decodeItem_spec c hc en p s it s1 hit) (ih _ _ _ hps)

theorem parseRows_shape (c : BodyCodec) (hc : codecWf c) (en : String)
    (ps : List PlyProperty) (n : Nat) (s : List Nat) (its : List Item) (r : List Nat)
    (h : parseRows c en ps n s = some (its, r)) :
    RowsShape en ps n its := by
  induction n generalizing s its r with
  | zero =>
    replace h : some (([] : List Item), s) = some (its, r) := h
    cases h
    rfl
  | succ n ih =>
    unfold parseRows at h
    cases hps : parseProps c en ps s with
    | none => rw [hps] at h; cases h
    | some pr =>
      obtain ⟨row, s1⟩ := pr
      rw [hps] at h
      replace h :
          (match parseRows c en ps n s1 with
           | some (its2, s2) => some (row ++ its2, s2)
           | none => none) = some (its, r) := h
      cases hrs : parseRows c en ps n s1 with
      | none => rw [hrs] at h; cases h
      | some pr2 =>
        obtain ⟨its2, s2⟩ := pr2
        rw [hrs] at h
        cases h
        exact ⟨row, its2, rfl, parseProps_items c hc en ps s row s1 hps, ih _ _ _ hrs⟩

theorem parseBody_shape (c : BodyCodec) (hc : codecWf c)
    (es : List PlyElement) (s : List Nat) (its : List Item) (r : List Nat)
    (h : parseBody c es s = some (its, r)) :
    BodyShape es its := by
  induction es generalizing s its r with
  | nil =>
    replace h : some (([] : List Item), s) = some (its, r) := h
    cases h
    rfl
  | cons e es ih =>
    unfold parseBody at h
    cases hrs : parseRows c e.name e.properties e.size s with
    | none => rw [hrs] at h; cases h
    | some pr =>
      obtain ⟨a, s1⟩ := pr
      rw [hrs] at h
      replace h :
          (match parseBody c es s1 with
           | some (its2, s2) => some (a ++ its2, s2)
           | none => none) = some (its, r) := h
      cases hbd : parseBody c es s1 with
      | none => rw [hbd] at h; cases h
      | some pr2 =>
        obtain ⟨b, s2⟩ := pr2
        rw [hbd] at h
        cases h
        exact ⟨a, b, rfl, parseRows_shape c hc _ _ _ _ _ _ hrs, ih _ _ _ hbd⟩

theorem forall₂_mem_right {ps : List PlyProperty} {row : List Item} {en : String}
    (h : List.Forall₂ (propItemRel en) ps row) :
    ∀ it ∈ row, ∃ p ∈ ps, propItemRel en p it := by
  induction h with
  | nil => intro it hit; cases hit
  | cons hr _ ih =>
    intro it hit
    rcases List.mem_cons.mp hit with h1 | h1
    · subst h1; exact ⟨_, by simp, hr⟩
    · obtain ⟨p, hp, hrel⟩ := ih it h1
      exact ⟨p, by simp [hp], hrel⟩

theorem rowsShape_mem {en : String} {ps : List PlyProperty} {n : Nat} {its : List Item}
    (h : RowsShape en ps n its) : ∀ it ∈ its, ∃ p ∈ ps, propItemRel en p it := by
  induction n generalizing its with
  | zero => rw [show RowsShape en ps 0 its = (its = []) from rfl] at h; subst h; simp
  | succ n ih =>
    obtain ⟨row, rest, hsplit, hrow, hrest⟩ := h
    subst hsplit
    intro it hit
    rcases List.mem_append.mp hit with h1 | h1
    · exact forall₂_mem_right hrow it h1
    · exact ih hrest it h1

theorem bodyShape_mem {es : List PlyElement} {its : List Item}
    (h : BodyShape es its) : ∀ it ∈ its, ∃ e ∈ es, it.ename = e.name := by
  induction es generalizing its with
  | nil => rw [show BodyShape [] its = (its = []) from rfl] at h; subst h; simp
  | cons e es ih =>
    obtain ⟨a, b, hsplit, ha, hb⟩ := h
    subst hsplit
    intro it hit
    rcases List.mem_append.mp hit with h1 | h1
    · obtain ⟨p, _, hrel⟩ := rowsShape_mem ha it h1
      exact ⟨e, by simp, hrel.1⟩
    · obtain ⟨e2, he2, hn⟩ := ih hb it h1
      exact ⟨e2, by simp [he2], hn⟩

theorem forall₂_filter_length {en : String} {ps : List PlyProperty} {row : List Item}
    (h : List.Forall₂ (propItemRel en) ps row) (k : SinkCore) (hk : k.elementName = en) :
    (row.filter (itemMatches k)).length =
      (ps.filter (nameMatches k.names)).length := by
  induction h with
  | nil => rfl
  | @cons p it ps2 row2 hr hrest ih =>
    have hm : itemMatches k it = nameMatches k.names p := by
      unfold itemMatches nameMatches
      rw [hr.1, hk, hr.2.1]
      simp
    simp only [List.filter_cons, hm]
    cases hcn : nameMatches k.names p with
    | true => simp [ih]
    | false => simp [ih]

theorem rowsShape_filter_length {en : String} {ps : List PlyProperty} {n : Nat}
    {its : List Item} (h : RowsShape en ps n its) (k : SinkCore)
    (hk : k.elementName = en) :
    (its.filter (itemMatches k)).length =
      n * (ps.filter (nameMatches k.names)).length := by
  induction n generalizing its with
  | zero =>
    rw [show RowsShape en ps 0 its = (its = []) from rfl] at h
    subst h
    simp
  | succ n ih =>
    obtain ⟨row, rest, hsplit, hrow, hrest⟩ := h
    subst hsplit
    rw [List.filter_append, List.length_append,
      forall₂_filter_length hrow k hk, ih hrest, Nat.succ_mul]
    omega

/-! ## Resolution structure -/

theorem resolveRequestCore_ok (h : PlyHeader) (ename : String) (names : List String)
    (k : SinkCore) (hres : resolveRequestCore h ename names = .ok k) :
    ∃ e, h.elements.find? (fun x => x.name == ename) = some e ∧
      e ∈ h.elements ∧ e.name = ename ∧
      k.elementName = ename ∧ k.names = names ∧ k.count = e.size ∧
      k.listIndices = [] ∧ k.buffer = [] ∧
      ∃ p0, e.properties.find? (fun p => names.contains p.name) = some p0 ∧
        k.t = p0.propertyType ∧ k.isList = p0.isList ∧ k.listType = p0.listType := by
  unfold resolveRequestCore at hres
  cases hfind : h.elements.find? (fun x => x.name == ename) with
  | none => rw [hfind] at hres; cases hres
  | some e =>
    rw [hfind] at hres
    replace hres :
        (if names.all (fun n => e.properties.any (fun p => p.name == n)) then
          match e.properties.find? (fun p => names.contains p.name) with
          | some p =>
            Except.ok { elementName := ename, names := names, t := p.propertyType,
                        isList := p.isList, listType := p.listType,
                        count := e.size, listIndices := [], buffer := [] }
          | none => Except.error PlyError.UnknownProperty
        else Except.error PlyError.UnknownProperty) = Except.ok k := hres
    by_cases hall : names.all (fun n => e.properties.any (fun p => p.name == n))
    · rw [if_pos hall] at hres
      cases hfp : e.properties.find? (fun p => names.contains p.name) with
      | none => rw [hfp] at hres; cases hres
      | some p0 =>
        rw [hfp] at hres
        cases hres
        have hname0 := List.find?_some hfind
        have hname : (e.name == ename) = true := hname0
        exact ⟨e, rfl, List.mem_of_find?_eq_some hfind,
          beq_iff_eq.mp hname, rfl, rfl, rfl, rfl, rfl,
          p0, hfp, rfl, rfl, rfl⟩
    · rw [if_neg hall] at hres; cases hres

theorem matched_types (e : PlyElement) (names : List String) (tv : PlyType)
    (bv : Bool) (lv : PlyType) (p0 : PlyProperty)
    (hhom : matchedHomog e names)
    (hp0 : e.properties.find? (fun p => names.contains p.name) = some p0)
    (ht : tv = p0.propertyType) (hb : bv = p0.isList) (hl : lv = p0.listType) :
    ∀ p ∈ e.properties, nameMatches names p = true →
      p.propertyType = tv ∧ p.isList = bv ∧ p.listType = lv := by
  intro p hp hnm
  have hp0mem := List.mem_of_find?_eq_some hp0
  have hp0match := List.find?_some hp0
  obtain ⟨h1, h2, h3⟩ := hhom p hp p0 hp0mem hnm hp0match
  exact ⟨by rw [h1, ht], by rw [h2, hb], by rw [h3, hl]⟩

theorem find?_decomp {α : Type} {l : List α} {p : α → Bool} {e : α}
    (h : l.find? p = some e) :
    ∃ pre post, l = pre ++ e :: post ∧ ∀ x ∈ pre, p x = false := by
  induction l with
  | nil => cases h
  | cons a l ih =>
    rw [List.find?_cons] at h
    cases hpa : p a with
    | true =>
      rw [hpa] at h
      cases h
      exact ⟨[], l, rfl, by simp⟩
    | false =>
      rw [hpa] at h
      obtain ⟨pre, post, hsplit, hpre⟩ := ih h
      refine ⟨a :: pre, post, by rw [hsplit]; rfl, ?_⟩
      intro x hx
      rcases List.mem_cons.mp hx with h1 | h1
      · subst h1; exact hpa
      · exact hpre x h1

theorem itemMatches_false_of_ename {k : SinkCore} {it : Item}
    (h : it.ename ≠ k.elementName) : itemMatches k it = false := by
  unfold itemMatches
  simp [h]

theorem filter_eq_nil_of_ename {k : SinkCore} {its : List Item}
    (h : ∀ it ∈ its, it.ename ≠ k.elementName) :
    its.filter (itemMatches k) = [] := by
  refine List.filter_eq_nil_iff.mpr ?_
  intro it hit
  rw [itemMatches_false_of_ename (h it hit)]
  simp

theorem bodyShape_filter_pre {k : SinkCore} :
    ∀ (pre rest : List PlyElement) (its : List Item),
      BodyShape (pre ++ rest) its →
      (∀ x ∈ pre, x.name ≠ k.elementName) →
      ∃ b, BodyShape rest b ∧
        its.filter (itemMatches k) = b.filter (itemMatches k)
  | [], _, its, hsh, _ => ⟨its, hsh, rfl⟩
  | x :: pre, rest, its, hsh, hpre => by
    obtain ⟨a, b, hab, ha, hb⟩ := hsh
    subst hab
    obtain ⟨b2, hsh2, hf⟩ :=
      bodyShape_filter_pre pre rest b hb (fun y hy => hpre y (by simp [hy]))
    refine ⟨b2, hsh2, ?_⟩
    have hanil : a.filter (itemMatches k) = [] := by
      refine filter_eq_nil_of_ename ?_
      intro it hit
      obtain ⟨p, _, hrel⟩ := rowsShape_mem ha it hit
      rw [hrel.1]
      exact hpre x (by simp)
    rw [List.filter_append, hanil, List.nil_append, hf]

theorem bodyShape_filter {es : List PlyElement} {its : List Item}
    (hsh : BodyShape es its) (k : SinkCore)
    (pre post : List PlyElement) (e : PlyElement)
    (hsplit : es = pre ++ e :: post)
    (hpre : ∀ x ∈ pre, x.name ≠ k.elementName)
    (hpost : ∀ x ∈ post, x.name ≠ k.elementName) :
    ∃ a, RowsShape e.name e.properties e.size a ∧
      its.filter (itemMatches k) = a.filter (itemMatches k) := by
  subst hsplit
  obtain ⟨b, hshb, hfb⟩ := bodyShape_filter_pre pre (e :: post) its hsh hpre
  obtain ⟨a, b2, hab, ha, hb2⟩ := hshb
  subst hab
  refine ⟨a, ha, ?_⟩
  rw [hfb, List.filter_append]
  have hbnil : b2.filter (itemMatches k) = [] := by
    refine filter_eq_nil_of_ename ?_
    intro it hit
    obtain ⟨e2, he2, hn⟩ := bodyShape_mem hb2 it hit
    rw [hn]
    exact hpost e2 he2
  rw [hbnil, List.append_nil]

theorem flatten_sums_list (its : List Item) (t0 : PlyType)
    (hits : ∀ it ∈ its, ∃ cnt, it.listCount = some cnt ∧
      it.bytes.length = cnt * t0.stride) :
    ((its.map (fun it => it.bytes)).flatten).length =
        (((its.map (fun it => it.listCount.toList)).flatten).sum) * t0.stride ∧
      ((its.map (fun it => it.listCount.toList)).flatten).length = its.length := by
  induction its with
  | nil => simp
  | cons it its ih =>
    obtain ⟨cnt, hcnt, hlen⟩ := hits it (by simp)
    obtain ⟨ih1, ih2⟩ := ih (fun x hx => hits x (by simp [hx]))
    simp only [List.map_cons, List.flatten_cons, List.length_append, List.sum_append,
      hcnt, Option.toList_some, hlen, ih1, ih2]
    constructor
    · simp [Nat.add_mul]
    · simp [Nat.add_comm]

theorem flatten_sums_nonlist (its : List Item) (t0 : PlyType)
    (hits : ∀ it ∈ its, it.listCount = none ∧ it.bytes.length = t0.stride) :
    ((its.map (fun it => it.bytes)).flatten).length = its.length * t0.stride ∧
      ((its.map (fun it => it.listCount.toList)).flatten) = [] := by
  induction its with
  | nil => simp
  | cons it its ih =>
    obtain ⟨hcnt, hlen⟩ := hits it (by simp)
    obtain ⟨ih1, ih2⟩ := ih (fun x hx => hits x (by simp [hx]))
    simp only [List.map_cons, List.flatten_cons, List.length_append,
      hcnt, Option.toList_none, hlen, ih1, ih2]
    constructor
    · simp [Nat.succ_mul]; omega
    · simp

/-! ## Claim C3 -/

/-- C3 (amended): for every ResultBuffer populated by a completed decode
pass over a header whose element names are distinct and whose matched
properties are homogeneous, a non-list buffer holds
`logical_row_count * matched_property_count * byte_width` raw bytes with no
list lengths, and a list buffer holds `sum(list_row_lengths) * byte_width`
raw bytes with `logical_row_count * matched_property_count` list lengths.
(The claim as frozen omits the `matched_property_count` factor; the
counterexample `c3_counterexample` shows a two-property binding violating
it.) -/
theorem c3_buffer_invariant (c : BodyCodec) (h : PlyHeader)
    (ename : String) (names : List String) (k0 k : SinkCore) (e : PlyElement)
    (body r : List Nat)
    (hcwf : codecWf c)
    (hres : resolveRequestCore h ename names = .ok k0)
    (hdec : decodeBody c h.elements [.ok k0] body = some ([.ok k], r))
    (hnodup : (h.elements.map (fun x => x.name)).Nodup)
    (hein : h.elements.find? (fun x => x.name == ename) = some e)
    (hhom : matchedHomog e names) :
    k.count = e.size ∧
    (k.isList = true →
       k.buffer.length = k.listIndices.sum * k.t.stride ∧
       k.listIndices.length = k.count * (e.properties.filter (nameMatches names)).length) ∧
    (k.isList = false →
       k.buffer.length = k.count * (e.properties.filter (nameMatches names)).length * k.t.stride ∧
       k.listIndices = []) := by
  obtain ⟨e', hfind', hemem, hename', hkel, hknames, hkcount, hkli, hkbuf,
    p0, hp0, hkt, hkisl, hklt⟩ := resolveRequestCore_ok h ename names k0 hres
  rw [hein] at hfind'
  cases hfind'
  rw [decodeBody_eq_parse] at hdec
  cases hpb : parseBody c h.elements body with
  | none => rw [hpb] at hdec; cases hdec
  | some pr =>
    obtain ⟨its, rest⟩ := pr
    rw [hpb] at hdec
    replace hdec : some ([applyAll its (.ok k0)], rest) = some ([.ok k], r) := hdec
    rw [applyAll_ok] at hdec
    cases hdec
    have hsh := parseBody_shape c hcwf _ _ _ _ hpb
    obtain ⟨pre, post, hsplit, hprefalse⟩ := find?_decomp hein
    have hpre : ∀ x ∈ pre, x.name ≠ k0.elementName := by
      intro x hx heq
      have := hprefalse x hx
      rw [heq, hkel] at this
      simp at this
    have hpost : ∀ x ∈ post, x.name ≠ k0.elementName := by
      rw [hsplit] at hnodup
      rw [List.map_append, List.map_cons] at hnodup
      have h2 := hnodup.of_append_right
      have h3 := (List.nodup_cons.mp h2).1
      intro x hx heq
      refine h3 ?_
      have hxn : x.name = e.name := by rw [heq, hkel, ← hename']
      rw [← hxn]
      exact List.mem_map_of_mem (fun y => y.name) hx
    obtain ⟨a, ha, hfeq⟩ := bodyShape_filter hsh k0 pre post e hsplit hpre hpost
    rw [applyCore_spec, hfeq]
    have hkelname : k0.elementName = e.name := by rw [hkel, hename']
    have hmt := matched_types e names k0.t k0.isList k0.listType p0 hhom hp0
      hkt hkisl hklt
    have hmem : ∀ it ∈ a.filter (itemMatches k0), ∃ p ∈ e.properties,
        propItemRel e.name p it ∧ nameMatches names p = true := by
      intro it hit
      obtain ⟨hita, hitm⟩ := List.mem_filter.mp hit
      obtain ⟨p, hp, hrel⟩ := rowsShape_mem ha it hita
      refine ⟨p, hp, hrel, ?_⟩
      unfold itemMatches at hitm
      have hcont := (Bool.and_eq_true_iff.mp hitm).2
      unfold nameMatches
      rw [← hrel.2.1, ← hknames]
      exact hcont
    have hcnt : (a.filter (itemMatches k0)).length =
        e.size * (e.properties.filter (nameMatches k0.names)).length :=
      rowsShape_filter_length ha k0 hkelname
    refine ⟨hkcount, ?_, ?_⟩
    · intro hisl
      replace hisl : k0.isList = true := hisl
      have hfacts : ∀ it ∈ a.filter (itemMatches k0), ∃ cnt,
          it.listCount = some cnt ∧ it.bytes.length = cnt * k0.t.stride := by
        intro it hit
        obtain ⟨p, hp, hrel, hnm⟩ := hmem it hit
        obtain ⟨hpt, hpl, _⟩ := hmt p hp hnm
        rcases hrel.2.2.2.2 with ⟨_, cnt, hclc, hcbl⟩ | ⟨hplf, _, _⟩
        · exact ⟨cnt, hclc, by rw [hcbl, hpt]⟩
        · rw [hplf] at hpl; rw [hisl] at hpl; cases hpl
      obtain ⟨hb1, hb2⟩ := flatten_sums_list _ k0.t hfacts
      constructor
      · simp only [hkbuf, hkli, List.nil_append]
        exact hb1
      · simp only [hkli, List.nil_append, hkcount, hknames]
        rw [hb2, hcnt, hknames]
    · intro hisl
      replace hisl : k0.isList = false := hisl
      have hfacts : ∀ it ∈ a.filter (itemMatches k0),
          it.listCount = none ∧ it.bytes.length = k0.t.stride := by
        intro it hit
        obtain ⟨p, hp, hrel, hnm⟩ := hmem it hit
        obtain ⟨hpt, hpl, _⟩ := hmt p hp hnm
        rcases hrel.2.2.2.2 with ⟨hplt, _, _, _⟩ | ⟨_, hclc, hcbl⟩
        · rw [hplt] at hpl; rw [hisl] at hpl; cases hpl
        · exact ⟨hclc, by rw [hcbl, hpt]⟩
      obtain ⟨hb1, hb2⟩ := flatten_sums_nonlist _ k0.t hfacts
      constructor
      · simp only [hkbuf, List.nil_append, hkcount]
        rw [hb1, hcnt, hknames]
      · simp only [hkli, List.nil_append]
        exact hb2

/-- C3 counterexample: the invariant as frozen (`raw_bytes.length =
logical_row_count * byte_width` for a non-list buffer) fails for a binding
that requests the two one-byte properties of `vElem`: the completed decode
pass leaves 2 bytes in the buffer while `logical_row_count * byte_width`
is 1. -/
theorem c3_counterexample :
    resolveRequestCore vHeader "e" ["x", "y"] = .ok vSink0 ∧
    decodeBody (binCodec false) vHeader.elements [.ok vSink0] [7, 9] =
      some ([.ok vSinkDone], []) ∧
    vSinkDone.isList = false ∧
    vSinkDone.buffer.length = 2 ∧
    vSinkDone.count * vSinkDone.t.stride = 1 ∧
    vSinkDone.buffer.length ≠ vSinkDone.count * vSinkDone.t.stride := by
  refine ⟨by decide, by decide, by decide, by decide, by decide, by decide⟩

/-- C3 witness: the amended invariant applied to the counterexample's
input. -/
theorem c3_buffer_invariant_witness :
    resolveRequestCore vHeader "e" ["x", "y"] = .ok vSink0 ∧
    (vSinkDone.count = vElem.size ∧
     (vSinkDone.isList = true →
        vSinkDone.buffer.length = vSinkDone.listIndices.sum * vSinkDone.t.stride ∧
        vSinkDone.listIndices.length = vSinkDone.count *
          (vElem.properties.filter (nameMatches ["x", "y"])).length) ∧
     (vSinkDone.isList = false →
        vSinkDone.buffer.length = vSinkDone.count *
          (vElem.properties.filter (nameMatches ["x", "y"])).length *
          vSinkDone.t.stride ∧
        vSinkDone.listIndices = [])) :=
  ⟨by decide,
   c3_buffer_invariant (binCodec false) vHeader "e" ["x", "y"] vSink0 vSinkDone
     vElem [7, 9] [] (binCodec_wf false) (by decide) (by decide) (by decide)
     (by decide) (by decide)⟩

/-! ## Claim C4 -/

theorem dataNoCap_mkPlyData (cap1 cap2 : Nat) (k : SinkCore) :
    dataNoCap (mkPlyData cap1 k) = dataNoCap (mkPlyData cap2 k) := rfl

theorem resolve_map_eq (h : PlyHeader) (reqs reqs2 : List ReadRequest)
    (hpt : List.Forall₂ (fun r r2 => r.elementName = r2.elementName ∧
      r.propertyNames = r2.propertyNames) reqs reqs2) :
    reqs.map (fun r => resolveRequestCore h r.elementName r.propertyNames) =
      reqs2.map (fun r => resolveRequestCore h r.elementName r.propertyNames) := by
  induction hpt with
  | nil => rfl
  | @cons r r2 rs rs2 hr _ ih =>
    simp only [List.map_cons, ih, hr.1, hr.2]

theorem zip_cap_eq (h : PlyHeader) :
    ∀ (reqs reqs2 : List ReadRequest) (sinks : List (Except PlyError SinkCore)),
      List.Forall₂ (fun r r2 => r.elementName = r2.elementName ∧
        r.propertyNames = r2.propertyNames) reqs reqs2 →
      ((List.zipWith (fun r x => x.map (mkPlyData (requestCapacityH h r))) reqs sinks).map
          (Except.map dataNoCap)) =
        ((List.zipWith (fun r x => x.map (mkPlyData (requestCapacityH h r))) reqs2 sinks).map
          (Except.map dataNoCap)) := by
  intro reqs reqs2 sinks hpt
  induction hpt generalizing sinks with
  | nil => rfl
  | @cons r r2 rs rs2 _ _ ih =>
    cases sinks with
    | nil => rfl
    | cons x sinks =>
      simp only [List.zipWith_cons_cons, List.map_cons, ih]
      cases x with
      | error e => rfl
      | ok k => rfl

/-- C4: the decoded result is independent of the list-size hints — two read
calls over the same header, body and binding names, differing only in each
request's `list_size_hint`, produce identical ResultBuffer contents (same
scalar type, list shape, row count, list lengths and raw bytes); the hint
influences only the pre-allocated capacity. -/
theorem c4_hint_independence (lines : List (List String)) (body : List Nat)
    (reqs reqs2 : List ReadRequest)
    (hpt : List.Forall₂ (fun r r2 => r.elementName = r2.elementName ∧
      r.propertyNames = r2.propertyNames) reqs reqs2) :
    resultsNoCap (readPly lines body reqs) = resultsNoCap (readPly lines body reqs2) := by
  unfold readPly
  cases hph : parseHeader lines with
  | error e => rfl
  | ok h =>
    show resultsNoCap
        (match decodeBody (headerCodec h) h.elements
            (List.map (fun r => resolveRequestCore h r.elementName r.propertyNames) reqs)
            body with
         | some (sinks, _) =>
           Except.ok (List.zipWith
             (fun r x => Except.map (mkPlyData (requestCapacityH h r)) x) reqs sinks)
         | none => Except.error PlyError.TruncatedBody)
      = resultsNoCap
        (match decodeBody (headerCodec h) h.elements
            (List.map (fun r => resolveRequestCore h r.elementName r.propertyNames) reqs2)
            body with
         | some (sinks, _) =>
           Except.ok (List.zipWith
             (fun r x => Except.map (mkPlyData (requestCapacityH h r)) x) reqs2 sinks)
         | none => Except.error PlyError.TruncatedBody)
    rw [← resolve_map_eq h reqs reqs2 hpt]
    cases hdec : decodeBody (headerCodec h) h.elements
        (reqs.map (fun r => resolveRequestCore h r.elementName r.propertyNames)) body with
    | none => rfl
    | some pr =>
      obtain ⟨sinks, rest⟩ := pr
      unfold resultsNoCap
      simp only [Except.map]
      exact congrArg Except.ok (zip_cap_eq h reqs reqs2 sinks hpt)

/-- C4 witness: hint 0 and hint 5 give the same contents on a concrete
two-property binary file. -/
theorem c4_hint_independence_witness :
    resultsNoCap (readPly
      [["ply"], ["format", "binary_little_endian", "1.0"], ["element", "e", "1"],
       ["property", "uint8", "x"], ["property", "uint8", "y"], ["end_header"]]
      [7, 9] [⟨"e", ["x", "y"], 0⟩]) =
    resultsNoCap (readPly
      [["ply"], ["format", "binary_little_endian", "1.0"], ["element", "e", "1"],
       ["property", "uint8", "x"], ["property", "uint8", "y"], ["end_header"]]
      [7, 9] [⟨"e", ["x", "y"], 5⟩]) :=
  c4_hint_independence _ _ _ _ (List.Forall₂.cons ⟨rfl, rfl⟩ List.Forall₂.nil)

/-! ## Pipeline characterization of a read call -/

theorem readPly_ok (lines : List (List String)) (body : List Nat)
    (reqs : List ReadRequest) (h : PlyHeader) (hph : parseHeader lines = .ok h) :
    readPly lines body reqs =
      match parseBody (headerCodec h) h.elements body with
      | some (its, _) =>
        .ok (List.zipWith
          (fun r x => Except.map (mkPlyData (requestCapacityH h r)) x) reqs
          ((reqs.map (fun r => resolveRequestCore h r.elementName r.propertyNames)).map
            (applyAll its)))
      | none => .error .TruncatedBody := by
  unfold readPly
  rw [hph]
  show (match decodeBody (headerCodec h) h.elements
        (reqs.map (fun r => resolveRequestCore h r.elementName r.propertyNames)) body with
      | some (sinks, _) =>
        Except.ok (List.zipWith
          (fun r x => Except.map (mkPlyData (requestCapacityH h r)) x) reqs sinks)
      | none => Except.error PlyError.TruncatedBody) = _
  rw [decodeBody_eq_parse]
  cases hpb : parseBody (headerCodec h) h.elements body with
  | none => rfl
  | some pr =>
    obtain ⟨its, rest⟩ := pr
    rfl

theorem exceptMap_ok {ε α β : Type} (f : α → β) (a : α) :
    Except.map f (Except.ok a : Except ε α) = Except.ok (f a) := rfl

/-! ## Claim C7 -/

/-- C7: a request that fails to resolve (unknown element or unknown
property) is reported as an error against that binding alone — the read
call's result for every other binding, and whether the decode pass runs and
populates them, is exactly as if the failing request had not been issued,
with the failing binding's slot holding the resolution error. -/
theorem c7_binding_isolation (lines : List (List String)) (body : List Nat)
    (reqs1 reqs2 : List ReadRequest) (bad : ReadRequest) (h : PlyHeader)
    (err : PlyError)
    (hph : parseHeader lines = .ok h)
    (hbad : resolveRequestCore h bad.elementName bad.propertyNames = .error err) :
    readPly lines body (reqs1 ++ bad :: reqs2) =
      (readPly lines body (reqs1 ++ reqs2)).map
        (fun out => out.take reqs1.length ++ .error err :: out.drop reqs1.length) := by
  rw [readPly_ok lines body (reqs1 ++ bad :: reqs2) h hph,
      readPly_ok lines body (reqs1 ++ reqs2) h hph]
  cases hpb : parseBody (headerCodec h) h.elements body with
  | none => rfl
  | some pr =>
    obtain ⟨its, rest⟩ := pr
    show Except.ok _ = Except.map _ (Except.ok _)
    rw [exceptMap_ok]
    refine congrArg Except.ok ?_
    have hl1 : reqs1.length =
        ((reqs1.map (fun r => resolveRequestCore h r.elementName r.propertyNames)).map
          (applyAll its)).length := by simp
    simp only [List.map_append, List.map_cons, hbad, applyAll_error,
      List.zipWith_append _ _ _ _ _ hl1, List.zipWith_cons_cons]
    have hlz : (List.zipWith
        (fun r x => Except.map (mkPlyData (requestCapacityH h r)) x) reqs1
        ((reqs1.map (fun r => resolveRequestCore h r.elementName r.propertyNames)).map
          (applyAll its))).length = reqs1.length := by
      rw [List.length_zipWith]
      simp
    rw [List.take_left' hlz, List.drop_left' hlz]
    rfl

/-- C7 witness: on a concrete file, a request for the absent element `f`
between two valid requests fails with `UnknownElement` in its own slot and
leaves the other two bindings' results untouched. -/
theorem c7_binding_isolation_witness :
    readPly
      [["ply"], ["format", "binary_little_endian", "1.0"], ["element", "e", "1"],
       ["property", "uint8", "x"], ["property", "uint8", "y"], ["end_header"]]
      [7, 9] [⟨"e", ["x"], 0⟩, ⟨"f", ["q"], 0⟩, ⟨"e", ["y"], 0⟩] =
    (readPly
      [["ply"], ["format", "binary_little_endian", "1.0"], ["element", "e", "1"],
       ["property", "uint8", "x"], ["property", "uint8", "y"], ["end_header"]]
      [7, 9] [⟨"e", ["x"], 0⟩, ⟨"e", ["y"], 0⟩]).map
      (fun out => out.take 1 ++ .error .UnknownElement :: out.drop 1) :=
  c7_binding_isolation _ _ [⟨"e", ["x"], 0⟩] [⟨"e", ["y"], 0⟩] ⟨"f", ["q"], 0⟩
    vHeader .UnknownElement (by decide) (by decide)

/-! ## Claim C2 -/

theorem contains_congr {ns1 ns2 : List String}
    (hiff : ∀ x, x ∈ ns1 ↔ x ∈ ns2) (a : String) :
    ns1.contains a = ns2.contains a := by
  show ns1.elem a = ns2.elem a
  rw [List.elem_eq_mem, List.elem_eq_mem]
  exact decide_eq_decide.mpr (hiff a)

theorem find?_congr_local {α : Type} (l : List α) (p q : α → Bool)
    (h : ∀ a, p a = q a) : l.find? p = l.find? q := by
  induction l with
  | nil => rfl
  | cons a l ih => rw [List.find?_cons, List.find?_cons, h a, ih]

theorem reqEquiv_iff {r r2 : ReadRequest} (he : reqEquiv r r2) :
    ∀ x, x ∈ r.propertyNames ↔ x ∈ r2.propertyNames :=
  fun x => ⟨fun hx => he.2.2.1 x hx, fun hx => he.2.2.2 x hx⟩

theorem resolve_equiv (h : PlyHeader) (en : String) (ns1 ns2 : List String)
    (hiff : ∀ x, x ∈ ns1 ↔ x ∈ ns2) :
    (∀ e1, resolveRequestCore h en ns1 = .error e1 →
       resolveRequestCore h en ns2 = .error e1) ∧
    (∀ k1, resolveRequestCore h en ns1 = .ok k1 →
       ∃ k2, resolveRequestCore h en ns2 = .ok k2 ∧ coreEquiv k1 k2) := by
  unfold resolveRequestCore
  cases hfind : h.elements.find? (fun x => x.name == en) with
  | none => exact ⟨fun e1 h1 => h1, fun k1 h1 => by cases h1⟩
  | some e =>
    have hall : (ns1.all (fun n => e.properties.any (fun p => p.name == n)))
        = (ns2.all (fun n => e.properties.any (fun p => p.name == n))) := by
      refine Bool.coe_iff_coe.mp ?_
      rw [List.all_eq_true, List.all_eq_true]
      constructor
      · intro ha n hn
        exact ha n ((hiff n).mpr hn)
      · intro ha n hn
        exact ha n ((hiff n).mp hn)
    have hfp : e.properties.find? (fun p => ns1.contains p.name)
        = e.properties.find? (fun p => ns2.contains p.name) :=
      find?_congr_local _ _ _ (fun p => contains_congr hiff p.name)
    constructor
    · intro e1 h1
      replace h1 :
          (if ns1.all (fun n => e.properties.any (fun p => p.name == n)) then
            match e.properties.find? (fun p => ns1.contains p.name) with
            | some p =>
              Except.ok ({ elementName := en, names := ns1, t := p.propertyType,
                           isList := p.isList, listType := p.listType,
                           count := e.size, listIndices := [], buffer := [] } : SinkCore)
            | none => Except.error PlyError.UnknownProperty
          else Except.error PlyError.UnknownProperty) = .error e1 := h1
      show (if ns2.all (fun n => e.properties.any (fun p => p.name == n)) then
            match e.properties.find? (fun p => ns2.contains p.name) with
            | some p =>
              Except.ok ({ elementName := en, names := ns2, t := p.propertyType,
                           isList := p.isList, listType := p.listType,
                           count := e.size, listIndices := [], buffer := [] } : SinkCore)
            | none => Except.error PlyError.UnknownProperty
          else Except.error PlyError.UnknownProperty) = .error e1
      rw [← hall, ← hfp]
      by_cases hc : (ns1.all (fun n => e.properties.any (fun p => p.name == n))) = true
      · rw [if_pos hc] at h1 ⊢
        cases hfp1 : e.properties.find? (fun p => ns1.contains p.name) with
        | none => rw [hfp1] at h1; exact h1
        | some p0 => rw [hfp1] at h1; cases h1
      · rw [if_neg hc] at h1 ⊢
        exact h1
    · intro k1 h1
      replace h1 :
          (if ns1.all (fun n => e.properties.any (fun p => p.name == n)) then
            match e.properties.find? (fun p => ns1.contains p.name) with
            | some p =>
              Except.ok ({ elementName := en, names := ns1, t := p.propertyType,
                           isList := p.isList, listType := p.listType,
                           count := e.size, listIndices := [], buffer := [] } : SinkCore)
            | none => Except.error PlyError.UnknownProperty
          else Except.error PlyError.UnknownProperty) = .ok k1 := h1
      by_cases hc : (ns1.all (fun n => e.properties.any (fun p => p.name == n))) = true
      · rw [if_pos hc] at h1
        cases hfp1 : e.properties.find? (fun p => ns1.contains p.name) with
        | none => rw [hfp1] at h1; cases h1
        | some p0 =>
          rw [hfp1] at h1
          cases h1
          refine ⟨{ elementName := en, names := ns2, t := p0.propertyType,
                    isList := p0.isList, listType := p0.listType,
                    count := e.size, listIndices := [], buffer := [] }, ?_, ?_⟩
          · show (if ns2.all (fun n => e.properties.any (fun p => p.name == n)) then
                match e.properties.find? (fun p => ns2.contains p.name) with
                | some p =>
                  Except.ok ({ elementName := en, names := ns2, t := p.propertyType,
                               isList := p.isList, listType := p.listType,
                               count := e.size, listIndices := [], buffer := [] } : SinkCore)
                | none => Except.error PlyError.UnknownProperty
              else Except.error PlyError.UnknownProperty) = _
            rw [← hall, ← hfp, if_pos hc, hfp1]
          · exact ⟨rfl, hiff, rfl, rfl, rfl, rfl, rfl, rfl⟩
      · rw [if_neg hc] at h1
        cases h1

theorem applyItem_equiv {k k2 : SinkCore} (he : coreEquiv k k2) (it : Item) :
    coreEquiv (applyItem it k) (applyItem it k2) := by
  have hm : itemMatches k it = itemMatches k2 it := by
    unfold itemMatches
    rw [he.1, contains_congr he.2.1 it.name]
  unfold applyItem
  rw [hm]
  cases h2 : itemMatches k2 it with
  | false =>
    rw [if_neg (by simp), if_neg (by simp)]
    exact he
  | true =>
    rw [if_pos rfl, if_pos rfl]
    exact ⟨he.1, he.2.1, he.2.2.1, he.2.2.2.1, he.2.2.2.2.1, he.2.2.2.2.2.1,
      by rw [he.2.2.2.2.2.2.1], by rw [he.2.2.2.2.2.2.2]⟩

theorem applyCore_equiv {k k2 : SinkCore} (he : coreEquiv k k2) (its : List Item) :
    coreEquiv (applyCore its k) (applyCore its k2) := by
  induction its generalizing k k2 with
  | nil => exact he
  | cons it its ih =>
    show coreEquiv (applyCore its (applyItem it k)) (applyCore its (applyItem it k2))
    exact ih (applyItem_equiv he it)

theorem mkPlyData_equiv {k k2 : SinkCore} (he : coreEquiv k k2) (cap : Nat) :
    mkPlyData cap k = mkPlyData cap k2 := by
  unfold mkPlyData
  rw [he.2.2.1, he.2.2.2.1, he.2.2.2.2.1, he.2.2.2.2.2.1,
    he.2.2.2.2.2.2.1, he.2.2.2.2.2.2.2]

theorem cap_congr (h : PlyHeader) {r r2 : ReadRequest} (he : reqEquiv r r2) :
    requestCapacityH h r = requestCapacityH h r2 := by
  unfold requestCapacityH
  have hfun : (fun p : PlyProperty => r.propertyNames.contains p.name)
      = (fun p : PlyProperty => r2.propertyNames.contains p.name) :=
    funext (fun p => contains_congr (reqEquiv_iff he) p.name)
  rw [he.1, he.2.1, hfun]

theorem slot_equiv (h : PlyHeader) (its : List Item) {r r2 : ReadRequest}
    (he : reqEquiv r r2) :
    Except.map (mkPlyData (requestCapacityH h r))
      (applyAll its (resolveRequestCore h r.elementName r.propertyNames)) =
    Except.map (mkPlyData (requestCapacityH h r2))
      (applyAll its (resolveRequestCore h r2.elementName r2.propertyNames)) := by
  obtain ⟨herr, hok⟩ := resolve_equiv h r.elementName r.propertyNames
    r2.propertyNames (reqEquiv_iff he)
  rw [← he.1, ← cap_congr h he]
  cases hr1 : resolveRequestCore h r.elementName r.propertyNames with
  | error e1 =>
    rw [herr e1 hr1]
  | ok k1 =>
    obtain ⟨k2, hr2, hequiv⟩ := hok k1 hr1
    rw [hr2, applyAll_ok, applyAll_ok, exceptMap_ok, exceptMap_ok]
    exact congrArg Except.ok (mkPlyData_equiv (applyCore_equiv hequiv its) _)

theorem zip_slots_equiv (h : PlyHeader) (its : List Item) :
    ∀ (reqs reqs2 : List ReadRequest), List.Forall₂ reqEquiv reqs reqs2 →
      List.zipWith (fun r x => Except.map (mkPlyData (requestCapacityH h r)) x) reqs
        ((reqs.map (fun r => resolveRequestCore h r.elementName r.propertyNames)).map
          (applyAll its)) =
      List.zipWith (fun r x => Except.map (mkPlyData (requestCapacityH h r)) x) reqs2
        ((reqs2.map (fun r => resolveRequestCore h r.elementName r.propertyNames)).map
          (applyAll its)) := by
  intro reqs reqs2 hpt
  induction hpt with
  | nil => rfl
  | @cons r r2 rs rs2 hr _ ih =>
    simp only [List.map_cons, List.zipWith_cons_cons, ih]
    rw [slot_equiv h its hr]

/-- C2: (order invariance) two read calls whose requests name the same
elements and the same property-name sets — in any order — produce identical
results, so the output layout can never reflect the request order; and
(header-order layout) the bytes accumulated in a binding's ResultBuffer are
exactly the concatenation, in header declaration order, of the matched
decoded occurrences' bytes. -/
theorem c2_order_invariance :
    (∀ (lines : List (List String)) (body : List Nat)
       (reqs reqs2 : List ReadRequest), List.Forall₂ reqEquiv reqs reqs2 →
       readPly lines body reqs = readPly lines body reqs2) ∧
    (∀ (c : BodyCodec) (en : String) (ps : List PlyProperty) (n : Nat)
       (s rest : List Nat) (its : List Item) (k0 : SinkCore),
       k0.buffer = [] →
       parseRows c en ps n s = some (its, rest) →
       decodeRows c en ps n [.ok k0] s = some ([.ok (applyCore its k0)], rest) ∧
       (applyCore its k0).buffer =
         ((its.filter (itemMatches k0)).map (fun it => it.bytes)).flatten) := by
  constructor
  · intro lines body reqs reqs2 hpt
    cases hph : parseHeader lines with
    | error e =>
      unfold readPly
      rw [hph]
    | ok h =>
      rw [readPly_ok lines body reqs h hph, readPly_ok lines body reqs2 h hph]
      cases hpb : parseBody (headerCodec h) h.elements body with
      | none => rfl
      | some pr =>
        obtain ⟨its, rest⟩ := pr
        exact congrArg Except.ok (zip_slots_equiv h its reqs reqs2 hpt)
  · intro c en ps n s rest its k0 hbuf hpr
    constructor
    · rw [decodeRows_eq_parse, hpr]
      show some ([applyAll its (.ok k0)], rest) = some ([.ok (applyCore its k0)], rest)
      rw [applyAll_ok]
    · rw [applyCore_spec]
      show k0.buffer ++ _ = _
      rw [hbuf, List.nil_append]

/-- C2 witness: requesting `{z, x, y}` from a header declaring `{x, y, z}`
gives the same result as requesting `{x, y, z}`; the buffer is laid out in
header order. -/
theorem c2_order_invariance_witness :
    readPly
      [["ply"], ["format", "binary_little_endian", "1.0"], ["element", "e", "1"],
       ["property", "uint8", "x"], ["property", "uint8", "y"],
       ["property", "uint8", "z"], ["end_header"]]
      [1, 2, 3] [⟨"e", ["z", "x", "y"], 0⟩] =
    readPly
      [["ply"], ["format", "binary_little_endian", "1.0"], ["element", "e", "1"],
       ["property", "uint8", "x"], ["property", "uint8", "y"],
       ["property", "uint8", "z"], ["end_header"]]
      [1, 2, 3] [⟨"e", ["x", "y", "z"], 0⟩] :=
  c2_order_invariance.1 _ _ _ _
    (List.Forall₂.cons ⟨rfl, rfl, by decide, by decide⟩ List.Forall₂.nil)

/-! ## Claim C9 -/

theorem prop_line_malformed (ts : List String) (rest : List (List String))
    (fmt : Option (Bool × Bool)) (cms infs : List String) :
    parseHeaderLines (("property" :: ts) :: rest) ⟨fmt, cms, infs, []⟩ =
      .error .MalformedHeader := by
  unfold parseHeaderLines
  split <;> first
    | rfl
    | (rename_i heq; simp at heq)

theorem benign_line_step (l : List String) (rest : List (List String))
    (acc : HeaderAcc)
    (hl : (∃ cs, l = "comment" :: cs) ∨ (∃ cs, l = "obj_info" :: cs) ∨
      (∃ a b, l = ["format", a, b])) :
    parseHeaderLines (l :: rest) acc = .error .MalformedHeader ∨
    ∃ acc2, parseHeaderLines (l :: rest) acc = parseHeaderLines rest acc2 ∧
      acc2.elemsRev = acc.elemsRev := by
  rcases hl with ⟨cs, rfl⟩ | ⟨cs, rfl⟩ | ⟨a, b, rfl⟩
  · exact Or.inr ⟨{ acc with comments := acc.comments ++ [joinTokens cs] }, rfl, rfl⟩
  · exact Or.inr ⟨{ acc with objInfo := acc.objInfo ++ [joinTokens cs] }, rfl, rfl⟩
  · cases haf : acc.format with
    | some fb =>
      refine Or.inl ?_
      show (match acc.format, parseFormatTok a with
            | none, some fb => parseHeaderLines rest { acc with format := some fb }
            | _, _ => Except.error PlyError.MalformedHeader) = _
      rw [haf]
    | none =>
      cases hpf : parseFormatTok a with
      | some fb =>
        refine Or.inr ⟨{ acc with format := some fb }, ?_, rfl⟩
        show (match acc.format, parseFormatTok a with
              | none, some fb => parseHeaderLines rest { acc with format := some fb }
              | _, _ => Except.error PlyError.MalformedHeader) = _
        rw [haf, hpf]
      | none =>
        refine Or.inl ?_
        show (match acc.format, parseFormatTok a with
              | none, some fb => parseHeaderLines rest { acc with format := some fb }
              | _, _ => Except.error PlyError.MalformedHeader) = _
        rw [haf, hpf]

theorem benign_prefix_malformed (ts : List String) (rest : List (List String)) :
    ∀ (mid : List (List String)) (acc : HeaderAcc), acc.elemsRev = [] →
      (∀ l ∈ mid, (∃ cs, l = "comment" :: cs) ∨ (∃ cs, l = "obj_info" :: cs) ∨
        (∃ a b, l = ["format", a, b])) →
      parseHeaderLines (mid ++ ("property" :: ts) :: rest) acc =
        .error .MalformedHeader
  | [], acc, hacc, _ => by
    obtain ⟨fmt, cms, infs, er⟩ := acc
    replace hacc : er = [] := hacc
    subst hacc
    exact prop_line_malformed ts rest fmt cms infs
  | l :: mid, acc, hacc, hben => by
    rcases benign_line_step l (mid ++ ("property" :: ts) :: rest) acc
        (hben l (by simp)) with herr | ⟨acc2, hstep, hpres⟩
    · exact herr
    · rw [List.cons_append, hstep]
      exact benign_prefix_malformed ts rest mid acc2 (by rw [hpres, hacc])
        (fun x hx => hben x (by simp [hx]))

/-- C9: header-parse error behaviour — an empty input or a first line other
than the magic marker `ply` fails with `NotAPlyFile`; a property
declaration line that appears (after any run of comment / obj_info / format
lines) before any element declaration fails with `MalformedHeader`; and
every header failure is returned as `Except.error`, so the whole operation
aborts with no partial Document to use. -/
theorem c9_header_errors :
    parseHeader [] = .error .NotAPlyFile ∧
    (∀ (l : List String) (ls : List (List String)), l ≠ ["ply"] →
       parseHeader (l :: ls) = .error .NotAPlyFile) ∧
    (∀ (mid : List (List String)) (ts : List String) (rest : List (List String)),
       (∀ l ∈ mid, (∃ cs, l = "comment" :: cs) ∨ (∃ cs, l = "obj_info" :: cs) ∨
         (∃ a b, l = ["format", a, b])) →
       parseHeader (["ply"] :: (mid ++ ("property" :: ts) :: rest)) =
         .error .MalformedHeader) := by
  refine ⟨rfl, ?_, ?_⟩
  · intro l ls hne
    unfold parseHeader
    show (if l = ["ply"] then
        parseHeaderLines ls { format := none, comments := [], objInfo := [], elemsRev := [] }
      else Except.error PlyError.NotAPlyFile) = Except.error PlyError.NotAPlyFile
    rw [if_neg hne]
  · intro mid ts rest hben
    unfold parseHeader
    show (if (["ply"] : List String) = ["ply"] then
        parseHeaderLines (mid ++ ("property" :: ts) :: rest)
          { format := none, comments := [], objInfo := [], elemsRev := [] }
      else Except.error PlyError.NotAPlyFile) = Except.error PlyError.MalformedHeader
    rw [if_pos rfl]
    exact benign_prefix_malformed ts rest mid _ rfl hben

/-- C9 witness: a garbled magic line and a property line before any element
line, each on a concrete header. -/
theorem c9_header_errors_witness :
    parseHeader [["plyx"], ["format", "ascii", "1.0"], ["end_header"]] =
      .error .NotAPlyFile ∧
    parseHeader [["ply"], ["format", "ascii", "1.0"], ["comment", "hi"],
      ["property", "float32", "x"], ["element", "vertex", "3"], ["end_header"]] =
      .error .MalformedHeader :=
  ⟨c9_header_errors.2.1 ["plyx"] _ (by decide),
   c9_header_errors.2.2 [["format", "ascii", "1.0"], ["comment", "hi"]]
     ["float32", "x"] [["element", "vertex", "3"], ["end_header"]]
     (by
       intro l hl
       rcases List.mem_cons.mp hl with h1 | h1
       · exact Or.inr (Or.inr ⟨"ascii", "1.0", h1⟩)
       · rcases List.mem_cons.mp h1 with h2 | h2
         · exact Or.inl ⟨["hi"], h2⟩
         · cases h2)⟩

/-! ## Claim C8 -/

theorem groupCountsOk_false {bs : List WriteBinding} {b1 b2 : WriteBinding}
    (h1 : b1 ∈ bs) (h2 : b2 ∈ bs) (hne : b1.count ≠ b2.count) :
    groupCountsOk bs = false := by
  cases bs with
  | nil => cases h1
  | cons b rest =>
    by_contra hok
    replace hok : groupCountsOk (b :: rest) = true := by
      cases hgc : groupCountsOk (b :: rest) with
      | false => exact absurd hgc hok
      | true => rfl
    replace hok : rest.all (fun x => x.count == b.count) = true := hok
    rw [List.all_eq_true] at hok
    have hcnt : ∀ x ∈ b :: rest, x.count = b.count := by
      intro x hx
      rcases List.mem_cons.mp hx with hx1 | hx1
      · rw [hx1]
      · exact beq_iff_eq.mp (hok x hx1)
    exact hne (by rw [hcnt b1 h1, hcnt b2 h2])

/-- C8: if two provide bindings registered against the same element declare
different row counts, the write call fails with `RowCountMismatch` and
returns no serialized output at all — neither header lines nor body bytes
are produced, so nothing reaches the output sink. -/
theorem c8_row_count_mismatch (f : PlyFileW) (isBinary : Bool)
    (en : String) (bs : List WriteBinding) (b1 b2 : WriteBinding)
    (hg : (en, bs) ∈ f.elements) (h1 : b1 ∈ bs) (h2 : b2 ∈ bs)
    (hne : b1.count ≠ b2.count) :
    writePly f isBinary = .error .RowCountMismatch := by
  unfold writePly
  rw [if_neg ?_]
  intro hok
  replace hok : rowCountsOk f = true := hok
  unfold rowCountsOk at hok
  rw [List.all_eq_true] at hok
  have := hok (en, bs) hg
  rw [groupCountsOk_false h1 h2 hne] at this
  cases this

/-- C8 witness: 8 positions against 6 normals for the same `vertex` element
fails in both output modes. -/
theorem c8_row_count_mismatch_witness :
    (8 : Nat) ≠ 6 ∧
    writePly (addPropertiesToElement
      (addPropertiesToElement ⟨[], []⟩ "vertex" ["x"] .UINT8 8
        [0, 1, 2, 3, 4, 5, 6, 7] .INVALID 0)
      "vertex" ["nx"] .UINT8 6 [0, 1, 2, 3, 4, 5] .INVALID 0) true =
      .error .RowCountMismatch :=
  ⟨by decide,
   c8_row_count_mismatch _ true "vertex"
     [⟨["x"], .UINT8, 8, .INVALID, 0, [0, 1, 2, 3, 4, 5, 6, 7]⟩,
      ⟨["nx"], .UINT8, 6, .INVALID, 0, [0, 1, 2, 3, 4, 5]⟩]
     ⟨["x"], .UINT8, 8, .INVALID, 0, [0, 1, 2, 3, 4, 5, 6, 7]⟩
     ⟨["nx"], .UINT8, 6, .INVALID, 0, [0, 1, 2, 3, 4, 5]⟩
     (by decide) (by decide) (by decide) (by decide)⟩

/-! ## Claim C6 -/

/-- C6: format-agnostic buffer layout — the ASCII codec converts the token
whose value is `v` into exactly the byte run `natToBytesLE byte_width v`,
which is also exactly what the binary codec delivers to the buffer when the
file stores the same value (the binary little-endian encoding of `v` is
`natToBytesLE` itself, copied verbatim).  Downstream buffer consumers
therefore cannot tell which body format the file used. -/
theorem c6_ascii_binary_layout (t : PlyType) (v : Nat) (r1 r2 : List Nat) :
    asciiCodec.parseScalars t 1 (v :: r1) = some (natToBytesLE t.stride v, r1) ∧
    (binCodec false).parseScalars t 1 (natToBytesLE t.stride v ++ r2) =
      some (natToBytesLE t.stride v, r2) := by
  constructor
  · show (match takeExact? 1 (v :: r1) with
          | some (toks, r) => some ((toks.map (natToBytesLE t.stride)).flatten, r)
          | none => none) = some (natToBytesLE t.stride v, r1)
    rw [show takeExact? 1 (v :: r1) = some ([v], r1) from takeExact?_append 1 [v] r1 rfl]
    show some (([v].map (natToBytesLE t.stride)).flatten, r1) = _
    simp
  · show takeExact? (1 * t.stride) (natToBytesLE t.stride v ++ r2) = _
    rw [Nat.one_mul]
    exact takeExact?_append _ _ _ (natToBytesLE_length _ _)

/-! ## Claim C5 -/

theorem decodeItem_bin_len (be : Bool) (en : String) (p : PlyProperty)
    (s : List Nat) (it : Item) (r : List Nat)
    (h : decodeItem (binCodec be) en p s = some (it, r)) :
    s.length = ((if it.listCount.isSome then it.lt.stride else 0) + it.bytes.length)
      + r.length := by
  unfold decodeItem at h
  by_cases hpl : p.isList
  · rw [if_pos hpl] at h
    cases hcnt : (binCodec be).parseCount p.listType s with
    | none => rw [hcnt] at h; cases h
    | some pr =>
      obtain ⟨cnt, s1⟩ := pr
      rw [hcnt] at h
      replace h :
          (match (binCodec be).parseScalars p.propertyType cnt s1 with
           | some (bs, s2) =>
             some (({ ename := en, name := p.name, t := p.propertyType,
                      lt := p.listType, bytes := bs, listCount := some cnt } : Item), s2)
           | none => none) = some (it, r) := h
      cases hsc : (binCodec be).parseScalars p.propertyType cnt s1 with
      | none => rw [hsc] at h; cases h
      | some pr2 =>
        obtain ⟨bs, s2⟩ := pr2
        rw [hsc] at h
        obtain ⟨hbl, hs1⟩ := binCodec_parseScalars_spec be p.propertyType cnt s1 bs s2 hsc
        replace hcnt :
            (match takeExact? p.listType.stride s with
             | some (bs2, r2) => some (fromBytesE be bs2, r2)
             | none => none) = some (cnt, s1) := hcnt
        cases hte : takeExact? p.listType.stride s with
        | none => rw [hte] at hcnt; cases hcnt
        | some pr3 =>
          obtain ⟨cb, s0⟩ := pr3
          rw [hte] at hcnt
          have hs1eq : s1 = s0 := by cases hcnt; rfl
          have e1 : s.length = p.listType.stride + s0.length := by
            obtain ⟨hcbl, hsplit⟩ := takeExact?_spec _ _ _ _ hte
            rw [hsplit]
            simp [hcbl]
          have e2 : s1.length = bs.length + s2.length := by
            rw [hs1]
            simp
          have hr : r = s2 := by cases h; rfl
          have hit : it = { ename := en, name := p.name, t := p.propertyType,
                            lt := p.listType, bytes := bs, listCount := some cnt } := by
            cases h; rfl
          have e3 : s1.length = s0.length := by rw [hs1eq]
          rw [hr, hit]
          show s.length = (p.listType.stride + bs.length) + s2.length
          omega
  · rw [if_neg hpl] at h
    cases hsc : (binCodec be).parseScalars p.propertyType 1 s with
    | none => rw [hsc] at h; cases h
    | some pr =>
      obtain ⟨bs, s1⟩ := pr
      rw [hsc] at h
      obtain ⟨hbl, hs⟩ := binCodec_parseScalars_spec be p.propertyType 1 s bs s1 hsc
      have hr : r = s1 := by cases h; rfl
      have hit : it = { ename := en, name := p.name, t := p.propertyType,
                        lt := p.listType, bytes := bs, listCount := none } := by
        cases h; rfl
      rw [hr, hit]
      show s.length = (0 + bs.length) + s1.length
      rw [hs]
      simp

theorem parseProps_bin_len (be : Bool) (en : String) :
    ∀ (ps : List PlyProperty) (s : List Nat) (its : List Item) (r : List Nat),
      parseProps (binCodec be) en ps s = some (its, r) →
      s.length = (its.map (fun it =>
        (if it.listCount.isSome then it.lt.stride else 0) + it.bytes.length)).sum
        + r.length
  | [], s, its, r, h => by
    replace h : some (([] : List Item), s) = some (its, r) := h
    cases h
    simp
  | p :: ps, s, its, r, h => by
    unfold parseProps at h
    cases hit : decodeItem (binCodec be) en p s with
    | none => rw [hit] at h; cases h
    | some pr =>
      obtain ⟨it, s1⟩ := pr
      rw [hit] at h
      replace h :
          (match parseProps (binCodec be) en ps s1 with
           | some (its2, s2) => some (it :: its2, s2)
           | none => none) = some (its, r) := h
      cases hps : parseProps (binCodec be) en ps s1 with
      | none => rw [hps] at h; cases h
      | some pr2 =>
        obtain ⟨its2, s2⟩ := pr2
        rw [hps] at h
        cases h
        have h1 := decodeItem_bin_len be en p s it s1 hit
        have h2 := parseProps_bin_len be en ps s1 its2 r hps
        simp only [List.map_cons, List.sum_cons]
        omega

theorem parseRows_bin_len (be : Bool) (en : String) (ps : List PlyProperty) :
    ∀ (n : Nat) (s : List Nat) (its : List Item) (r : List Nat),
      parseRows (binCodec be) en ps n s = some (its, r) →
      s.length = (its.map (fun it =>
        (if it.listCount.isSome then it.lt.stride else 0) + it.bytes.length)).sum
        + r.length
  | 0, s, its, r, h => by
    replace h : some (([] : List Item), s) = some (its, r) := h
    cases h
    simp
  | n + 1, s, its, r, h => by
    unfold parseRows at h
    cases hps : parseProps (binCodec be) en ps s with
    | none => rw [hps] at h; cases h
    | some pr =>
      obtain ⟨row, s1⟩ := pr
      rw [hps] at h
      replace h :
          (match parseRows (binCodec be) en ps n s1 with
           | some (its2, s2) => some (row ++ its2, s2)
           | none => none) = some (its, r) := h
      cases hrs : parseRows (binCodec be) en ps n s1 with
      | none => rw [hrs] at h; cases h
      | some pr2 =>
        obtain ⟨its2, s2⟩ := pr2
        rw [hrs] at h
        cases h
        have h1 := parseProps_bin_len be en ps s row s1 hps
        have h2 := parseRows_bin_len be en ps n s1 its2 r hrs
        simp only [List.map_append, List.sum_append]
        omega

theorem binCost_partition (k1 k2 : SinkCore) :
    ∀ (its : List Item),
      (∀ it ∈ its, (itemMatches k1 it = true ∧ itemMatches k2 it = false) ∨
        (itemMatches k1 it = false ∧ itemMatches k2 it = true)) →
      (its.map (fun it =>
        (if it.listCount.isSome then it.lt.stride else 0) + it.bytes.length)).sum =
      ((its.filter (itemMatches k1)).map (fun it =>
        (if it.listCount.isSome then it.lt.stride else 0) + it.bytes.length)).sum +
      ((its.filter (itemMatches k2)).map (fun it =>
        (if it.listCount.isSome then it.lt.stride else 0) + it.bytes.length)).sum
  | [], _ => by simp
  | it :: its, hx => by
    have ih := binCost_partition k1 k2 its (fun x hxm => hx x (by simp [hxm]))
    rcases hx it (by simp) with ⟨hm1, hm2⟩ | ⟨hm1, hm2⟩ <;>
      simp [List.filter_cons, hm1, hm2, ih] <;> omega

theorem cost_eq_buffer (lt0 : PlyType) (isL : Bool) :
    ∀ (its : List Item),
      (∀ it ∈ its, it.listCount.isSome = isL ∧ (isL = true → it.lt = lt0)) →
      (its.map (fun it =>
        (if it.listCount.isSome then it.lt.stride else 0) + it.bytes.length)).sum =
      ((its.map (fun it => it.bytes)).flatten).length +
        ((its.map (fun it => it.listCount.toList)).flatten).length * lt0.stride
  | [], _ => by simp
  | it :: its, hx => by
    have ih := cost_eq_buffer lt0 isL its (fun x hxm => hx x (by simp [hxm]))
    obtain ⟨hsome, hlt⟩ := hx it (by simp)
    cases isL with
    | false =>
      have hnone : it.listCount = none := Option.not_isSome_iff_eq_none.mp (by simp [hsome])
      simp [hnone, ih]
      omega
    | true =>
      obtain ⟨cnt, hcnt⟩ := Option.isSome_iff_exists.mp hsome
      simp [hcnt, ih, hlt rfl]
      ring

/-- C5: disjoint-binding completeness.  For an element whose properties are
covered by two non-overlapping registered bindings, one binary decode pass
accounts for every byte of the element's body exactly once: the stream
bytes consumed equal the bytes landed in the first buffer plus its count
prefixes, plus the bytes landed in the second buffer plus its count
prefixes, with no overlap and no gap; and a binding matching none of the
element's properties is skipped over — the pass leaves it untouched while
still consuming the same body. -/
theorem mem_of_contains {l : List String} {a : String}
    (h : l.contains a = true) : a ∈ l := by
  simpa using h

theorem c5_disjoint_coverage (be : Bool) (en : String) (ps : List PlyProperty)
    (n : Nat) (s r : List Nat) (k1 k2 k1' k2' : SinkCore)
    (hdec : decodeRows (binCodec be) en ps n [.ok k1, .ok k2] s =
      some ([.ok k1', .ok k2'], r))
    (he1 : k1.elementName = en) (he2 : k2.elementName = en)
    (hb1 : k1.buffer = []) (hb2 : k2.buffer = [])
    (hl1 : k1.listIndices = []) (hl2 : k2.listIndices = [])
    (hdisj : ∀ x ∈ k1.names, k2.names.contains x = false)
    (hcov : ∀ p ∈ ps, k1.names.contains p.name = true ∨
      k2.names.contains p.name = true)
    (hom1 : ∀ p ∈ ps, k1.names.contains p.name = true →
      p.isList = k1.isList ∧ p.listType = k1.listType)
    (hom2 : ∀ p ∈ ps, k2.names.contains p.name = true →
      p.isList = k2.isList ∧ p.listType = k2.listType) :
    s.length = (k1'.buffer.length + k1'.listIndices.length * k1.listType.stride)
      + (k2'.buffer.length + k2'.listIndices.length * k2.listType.stride)
      + r.length ∧
    (∀ (k3 : SinkCore) (ss : List (Except PlyError SinkCore)) (r3 : List Nat),
       (∀ p ∈ ps, k3.names.contains p.name = false) →
       decodeRows (binCodec be) en ps n [.ok k3] s = some (ss, r3) →
       ss = [.ok k3]) := by
  rw [decodeRows_eq_parse] at hdec
  cases hpr : parseRows (binCodec be) en ps n s with
  | none => rw [hpr] at hdec; cases hdec
  | some pr =>
    obtain ⟨its, rest⟩ := pr
    rw [hpr] at hdec
    replace hdec : some ([applyAll its (.ok k1), applyAll its (.ok k2)], rest)
        = some ([.ok k1', .ok k2'], r) := hdec
    rw [applyAll_ok, applyAll_ok] at hdec
    have hk1 : k1' = applyCore its k1 := by cases hdec; rfl
    have hk2 : k2' = applyCore its k2 := by cases hdec; rfl
    have hrr : r = rest := by cases hdec; rfl
    have hsh := parseRows_shape (binCodec be) (binCodec_wf be) en ps n s its rest hpr
    constructor
    · have hone : ∀ it ∈ its,
          (itemMatches k1 it = true ∧ itemMatches k2 it = false) ∨
          (itemMatches k1 it = false ∧ itemMatches k2 it = true) := by
        intro it hit
        obtain ⟨p, hp, hrel⟩ := rowsShape_mem hsh it hit
        have hm1 : itemMatches k1 it = k1.names.contains p.name := by
          unfold itemMatches
          rw [hrel.1, he1, hrel.2.1]
          simp
        have hm2 : itemMatches k2 it = k2.names.contains p.name := by
          unfold itemMatches
          rw [hrel.1, he2, hrel.2.1]
          simp
        rcases hcov p hp with hc | hc
        · exact Or.inl ⟨by rw [hm1, hc],
            by rw [hm2, hdisj p.name (mem_of_contains hc)]⟩
        · refine Or.inr ⟨?_, by rw [hm2, hc]⟩
          rw [hm1]
          cases hc1 : k1.names.contains p.name with
          | false => rfl
          | true => rw [hdisj p.name (mem_of_contains hc1)] at hc; cases hc
      have hfacts : ∀ (k : SinkCore), k.elementName = en →
          (∀ p ∈ ps, k.names.contains p.name = true →
            p.isList = k.isList ∧ p.listType = k.listType) →
          ∀ it ∈ its.filter (itemMatches k),
            it.listCount.isSome = k.isList ∧
            (k.isList = true → it.lt = k.listType) := by
        intro k hke hom it hit
        obtain ⟨hita, hitm⟩ := List.mem_filter.mp hit
        obtain ⟨p, hp, hrel⟩ := rowsShape_mem hsh it hita
        have hcont : k.names.contains p.name = true := by
          unfold itemMatches at hitm
          have := (Bool.and_eq_true_iff.mp hitm).2
          rw [← hrel.2.1]
          exact this
        obtain ⟨hisl, hltp⟩ := hom p hp hcont
        have hltit : it.lt = k.listType := by rw [hrel.2.2.2.1, hltp]
        refine ⟨?_, fun _ => hltit⟩
        rcases hrel.2.2.2.2 with ⟨hpl, cnt, hclc, _⟩ | ⟨hpl, hclc, _⟩
        · rw [hclc]
          rw [hpl] at hisl
          rw [← hisl]
          rfl
        · rw [hclc]
          rw [hpl] at hisl
          rw [← hisl]
          rfl
      have hlen := parseRows_bin_len be en ps n s its rest hpr
      have hpart := binCost_partition k1 k2 its hone
      have hc1 := cost_eq_buffer k1.listType k1.isList (its.filter (itemMatches k1))
        (hfacts k1 he1 hom1)
      have hc2 := cost_eq_buffer k2.listType k2.isList (its.filter (itemMatches k2))
        (hfacts k2 he2 hom2)
      rw [hpart, hc1, hc2] at hlen
      rw [hk1, hk2, hrr, applyCore_spec, applyCore_spec]
      simp only [hb1, hb2, hl1, hl2, List.nil_append]
      exact hlen
    · intro k3 ss r3 hnone hdec3
      rw [decodeRows_eq_parse, hpr] at hdec3
      replace hdec3 : some ([applyAll its (.ok k3)], rest) = some (ss, r3) := hdec3
      have hss : ss = [applyAll its (.ok k3)] := by cases hdec3; rfl
      rw [hss, applyAll_ok]
      have hfil : its.filter (itemMatches k3) = [] := by
        refine List.filter_eq_nil_iff.mpr ?_
        intro it hit
        obtain ⟨p, hp, hrel⟩ := rowsShape_mem hsh it hit
        intro hmm
        unfold itemMatches at hmm
        have := (Bool.and_eq_true_iff.mp hmm).2
        rw [hrel.2.1, hnone p hp] at this
        cases this
      rw [applyCore_spec, hfil]
      simp

/-- C5 witness: a one-row element with a scalar byte property and a 2-long
list property, split across two disjoint bindings, accounts for all 4 body
bytes; and a binding matching nothing is left untouched. -/
theorem c5_disjoint_coverage_witness :
    ([5, 2, 7, 8] : List Nat).length =
      (([5] : List Nat).length + ([] : List Nat).length * PlyType.INVALID.stride)
      + (([7, 8] : List Nat).length + ([2] : List Nat).length * PlyType.UINT8.stride)
      + ([] : List Nat).length :=
  (c5_disjoint_coverage false "e"
    [⟨"x", .UINT8, false, .INVALID⟩, ⟨"vi", .UINT8, true, .UINT8⟩] 1
    [5, 2, 7, 8] []
    ⟨"e", ["x"], .UINT8, false, .INVALID, 1, [], []⟩
    ⟨"e", ["vi"], .UINT8, true, .UINT8, 1, [], []⟩
    ⟨"e", ["x"], .UINT8, false, .INVALID, 1, [], [5]⟩
    ⟨"e", ["vi"], .UINT8, true, .UINT8, 1, [2], [7, 8]⟩
    (by decide) (by decide) (by decide) (by decide) (by decide) (by decide)
    (by decide) (by decide) (by decide) (by decide) (by decide)).1

/-! ## C1, stage 1: the serialized header parses back to the generated
Document -/

theorem parse_format_line (bin : Bool) (rest : List (List String))
    (cms infs : List String) (ers : List PlyElement) :
    parseHeaderLines (["format", formatTok bin, "1.0"] :: rest)
      ⟨none, cms, infs, ers⟩ =
    parseHeaderLines rest ⟨some (bin, false), cms, infs, ers⟩ := by
  cases bin <;> rfl

theorem parse_end_line (bin be : Bool) (rest : List (List String))
    (cms infs : List String) (ers : List PlyElement) :
    parseHeaderLines (["end_header"] :: rest) ⟨some (bin, be), cms, infs, ers⟩ =
      .ok ⟨bin, be, cms, infs, ers.reverse⟩ := rfl

theorem parse_comment_lines :
    ∀ (cs : List String) (rest : List (List String)) (fmt : Option (Bool × Bool))
      (cms infs : List String) (ers : List PlyElement),
      parseHeaderLines ((cs.map (fun c => ["comment", c])) ++ rest)
        ⟨fmt, cms, infs, ers⟩ =
      parseHeaderLines rest ⟨fmt, cms ++ cs, infs, ers⟩
  | [], rest, fmt, cms, infs, ers => by rw [List.append_nil]; rfl
  | c :: cs, rest, fmt, cms, infs, ers => by
    show parseHeaderLines ((cs.map (fun c => ["comment", c])) ++ rest)
        ⟨fmt, cms ++ [joinTokens [c]], infs, ers⟩ = _
    rw [parse_comment_lines cs rest fmt (cms ++ [joinTokens [c]]) infs ers]
    show parseHeaderLines rest ⟨fmt, (cms ++ [c]) ++ cs, infs, ers⟩ = _
    rw [List.append_assoc]
    rfl

theorem parse_scalar_prop_line (ty : PlyType) (hty : ty ≠ .INVALID)
    (n : String) (rest : List (List String)) (fmt : Option (Bool × Bool))
    (cms infs : List String) (e : PlyElement) (es : List PlyElement) :
    parseHeaderLines (["property", ty.token, n] :: rest) ⟨fmt, cms, infs, e :: es⟩ =
      parseHeaderLines rest ⟨fmt, cms, infs,
        { e with properties := e.properties ++
            [⟨n, ty, false, .INVALID⟩] } :: es⟩ := by
  cases ty <;> first | exact absurd rfl hty | rfl

theorem parse_list_prop_line (ct vt : PlyType) (hct : ct ≠ .INVALID)
    (hvt : vt ≠ .INVALID) (n : String) (rest : List (List String))
    (fmt : Option (Bool × Bool)) (cms infs : List String)
    (e : PlyElement) (es : List PlyElement) :
    parseHeaderLines (["property", "list", ct.token, vt.token, n] :: rest)
      ⟨fmt, cms, infs, e :: es⟩ =
      parseHeaderLines rest ⟨fmt, cms, infs,
        { e with properties := e.properties ++ [⟨n, vt, true, ct⟩] } :: es⟩ := by
  cases ct <;> cases vt <;>
    first | exact absurd rfl hct | exact absurd rfl hvt | rfl

theorem parse_element_line (en : String) (sz : Nat) (rest : List (List String))
    (fmt : Option (Bool × Bool)) (cms infs : List String) (ers : List PlyElement) :
    parseHeaderLines (["element", en, natRepr sz] :: rest) ⟨fmt, cms, infs, ers⟩ =
      parseHeaderLines rest ⟨fmt, cms, infs, ⟨en, sz, []⟩ :: ers⟩ := by
  show (match parseNatStr (natRepr sz) with
        | some cnt => parseHeaderLines rest ⟨fmt, cms, infs, ⟨en, cnt, []⟩ :: ers⟩
        | none => Except.error PlyError.MalformedHeader) = _
  rw [parseNatStr_natRepr]

theorem parse_binding_names (b : WriteBinding) (hbt : b.t ≠ .INVALID)
    (hlt : b.listCount ≠ 0 → b.listType ≠ .INVALID) :
    ∀ (ns : List String) (rest : List (List String)) (fmt : Option (Bool × Bool))
      (cms infs : List String) (e : PlyElement) (es : List PlyElement),
      parseHeaderLines ((ns.map (fun n =>
          if b.listCount == 0 then ["property", b.t.token, n]
          else ["property", "list", b.listType.token, b.t.token, n])) ++ rest)
        ⟨fmt, cms, infs, e :: es⟩ =
      parseHeaderLines rest ⟨fmt, cms, infs,
        { e with properties := e.properties ++ ns.map (fun n =>
            ({ name := n, propertyType := b.t, isList := !(b.listCount == 0),
               listType := if b.listCount == 0 then PlyType.INVALID
                           else b.listType } : PlyProperty)) } :: es⟩
  | [], rest, fmt, cms, infs, e, es => by
    rw [List.map_nil, List.nil_append, List.map_nil, List.append_nil]
  | n :: ns, rest, fmt, cms, infs, e, es => by
    have ih := parse_binding_names b hbt hlt ns
    cases hlc : b.listCount with
    | zero =>
      simp only [hlc] at ih ⊢
      rw [List.map_cons, List.cons_append]
      rw [show ((if (0 == 0 : Bool) then ["property", b.t.token, n]
            else ["property", "list", b.listType.token, b.t.token, n]))
          = ["property", b.t.token, n] from rfl]
      rw [parse_scalar_prop_line b.t hbt n _ fmt cms infs
        { e with properties := e.properties } es]
      rw [ih _ fmt cms infs _ es]
      show parseHeaderLines rest ⟨fmt, cms, infs, _ :: es⟩ =
        parseHeaderLines rest ⟨fmt, cms, infs, _ :: es⟩
      rw [List.map_cons, List.append_assoc]
      rfl
    | succ c =>
      simp only [hlc] at ih ⊢
      rw [List.map_cons, List.cons_append]
      rw [show ((if ((c + 1 : Nat) == 0 : Bool) then ["property", b.t.token, n]
            else ["property", "list", b.listType.token, b.t.token, n]))
          = ["property", "list", b.listType.token, b.t.token, n] from rfl]
      rw [parse_list_prop_line b.listType b.t
        (hlt (by rw [hlc]; simp)) hbt n _ fmt cms infs
        { e with properties := e.properties } es]
      rw [ih _ fmt cms infs _ es]
      show parseHeaderLines rest ⟨fmt, cms, infs, _ :: es⟩ =
        parseHeaderLines rest ⟨fmt, cms, infs, _ :: es⟩
      rw [List.map_cons, List.append_assoc]
      rfl

theorem parse_bindings_lines :
    ∀ (bs : List WriteBinding),
      (∀ b ∈ bs, b.t ≠ .INVALID ∧ (b.listCount ≠ 0 → b.listType ≠ .INVALID)) →
      ∀ (rest : List (List String)) (fmt : Option (Bool × Bool))
        (cms infs : List String) (e : PlyElement) (es : List PlyElement),
      parseHeaderLines ((bs.map bindingLines).flatten ++ rest)
        ⟨fmt, cms, infs, e :: es⟩ =
      parseHeaderLines rest ⟨fmt, cms, infs,
        { e with properties := e.properties ++ (bs.map bindingProps).flatten } :: es⟩
  | [], _, rest, fmt, cms, infs, e, es => by
    rw [List.map_nil, List.flatten_nil, List.nil_append, List.map_nil,
      List.flatten_nil, List.append_nil]
  | b :: bs, hb, rest, fmt, cms, infs, e, es => by
    have hbb := hb b (List.mem_cons_self b bs)
    rw [List.map_cons, List.flatten_cons, List.append_assoc]
    rw [show bindingLines b = b.propertyNames.map (fun n =>
        if b.listCount == 0 then ["property", b.t.token, n]
        else ["property", "list", b.listType.token, b.t.token, n]) from rfl]
    rw [parse_binding_names b hbb.1 hbb.2 b.propertyNames _ fmt cms infs e es]
    rw [parse_bindings_lines bs (fun x hx => hb x (List.mem_cons_of_mem b hx))
      rest fmt cms infs _ es]
    rw [List.map_cons, List.flatten_cons]
    show parseHeaderLines rest ⟨fmt, cms, infs, _ :: es⟩ =
      parseHeaderLines rest ⟨fmt, cms, infs, _ :: es⟩
    rw [List.append_assoc]
    rfl

theorem parse_groups_lines :
    ∀ (gs : List (String × List WriteBinding)),
      (∀ g ∈ gs, ∀ b ∈ g.2, b.t ≠ .INVALID ∧
        (b.listCount ≠ 0 → b.listType ≠ .INVALID)) →
      ∀ (rest : List (List String)) (fmt : Option (Bool × Bool))
        (cms infs : List String) (ers : List PlyElement),
      parseHeaderLines ((gs.map elementLines).flatten ++ rest) ⟨fmt, cms, infs, ers⟩ =
      parseHeaderLines rest ⟨fmt, cms, infs, (gs.map elemOfGroup).reverse ++ ers⟩
  | [], _, rest, fmt, cms, infs, ers => by
    rw [List.map_nil, List.flatten_nil, List.nil_append, List.map_nil,
      List.reverse_nil, List.nil_append]
  | g :: gs, hg, rest, fmt, cms, infs, ers => by
    rw [List.map_cons, List.flatten_cons, List.append_assoc]
    rw [show elementLines g = ["element", g.1, natRepr (groupRows g.2)]
        :: (g.2.map bindingLines).flatten from rfl]
    rw [List.cons_append]
    rw [parse_element_line g.1 (groupRows g.2) _ fmt cms infs ers]
    rw [parse_bindings_lines g.2 (hg g (List.mem_cons_self g gs)) _ fmt cms infs
      ⟨g.1, groupRows g.2, []⟩ ers]
    rw [parse_groups_lines gs (fun x hx => hg x (List.mem_cons_of_mem g hx))
      rest fmt cms infs _]
    rw [List.map_cons, List.reverse_cons, List.append_assoc]
    rfl

theorem parseHeader_cons (rest : List (List String)) :
    parseHeader (["ply"] :: rest) = parseHeaderLines rest ⟨none, [], [], []⟩ := by
  show (if (["ply"] : List String) = ["ply"]
      then parseHeaderLines rest ⟨none, [], [], []⟩
      else Except.error PlyError.NotAPlyFile) = _
  rw [if_pos rfl]

theorem parseHeader_headerLinesW (f : PlyFileW) (isBin : Bool)
    (hb : ∀ g ∈ f.elements, ∀ b ∈ g.2, b.t ≠ .INVALID ∧
      (b.listCount ≠ 0 → b.listType ≠ .INVALID)) :
    parseHeader (headerLinesW f isBin) = .ok (headerOfW f isBin) := by
  have h1 : headerLinesW f isBin = ["ply"] :: ["format", formatTok isBin, "1.0"]
      :: (f.comments.map (fun c => ["comment", c])
        ++ ((f.elements.map elementLines).flatten ++ [["end_header"]])) := by
    simp [headerLinesW]
  rw [h1, parseHeader_cons, parse_format_line,
    parse_comment_lines f.comments _ _ [] [] [],
    parse_groups_lines f.elements hb [["end_header"]] _ _ _ [],
    parse_end_line]
  rw [List.append_nil, List.reverse_reverse]
  rfl

/-! ## C1, stage 2: the encoded body parses back to the encoded
occurrences -/

theorem decodeItem_scalar (c : BodyCodec) (en : String) (p : PlyProperty)
    (hp : p.isList = false) (s s1 bs : List Nat)
    (h : c.parseScalars p.propertyType 1 s = some (bs, s1)) :
    decodeItem c en p s =
      some ({ ename := en, name := p.name, t := p.propertyType,
              lt := p.listType, bytes := bs, listCount := none }, s1) := by
  unfold decodeItem
  rw [hp]
  show (match c.parseScalars p.propertyType 1 s with
        | some (bs, s1) =>
          some (({ ename := en, name := p.name, t := p.propertyType,
                   lt := p.listType, bytes := bs, listCount := none } : Item), s1)
        | none => none) = _
  rw [h]

theorem decodeItem_list (c : BodyCodec) (en : String) (p : PlyProperty)
    (hp : p.isList = true) (s s1 s2 bs : List Nat) (cnt : Nat)
    (h1 : c.parseCount p.listType s = some (cnt, s1))
    (h2 : c.parseScalars p.propertyType cnt s1 = some (bs, s2)) :
    decodeItem c en p s =
      some ({ ename := en, name := p.name, t := p.propertyType,
              lt := p.listType, bytes := bs, listCount := some cnt }, s2) := by
  unfold decodeItem
  rw [hp]
  show (match c.parseCount p.listType s with
        | some (cnt, s1) =>
          match c.parseScalars p.propertyType cnt s1 with
          | some (bs, s2) =>
            some (({ ename := en, name := p.name, t := p.propertyType,
                     lt := p.listType, bytes := bs, listCount := some cnt } : Item),
                  s2)
          | none => none
        | none => none) = _
  rw [h1]
  show (match c.parseScalars p.propertyType cnt s1 with
        | some (bs, s2) =>
          some (({ ename := en, name := p.name, t := p.propertyType,
                   lt := p.listType, bytes := bs, listCount := some cnt } : Item),
                s2)
        | none => none) = _
  rw [h2]

theorem parseProps_cons_of (c : BodyCodec) (en : String) (p : PlyProperty)
    (ps : List PlyProperty) (s s1 s2 : List Nat) (it : Item) (its : List Item)
    (h1 : decodeItem c en p s = some (it, s1))
    (h2 : parseProps c en ps s1 = some (its, s2)) :
    parseProps c en (p :: ps) s = some (it :: its, s2) := by
  show (match decodeItem c en p s with
        | some (it, s1) =>
          match parseProps c en ps s1 with
          | some (its, s2) => some (it :: its, s2)
          | none => none
        | none => none) = _
  rw [h1]
  show (match parseProps c en ps s1 with
        | some (its, s2) => some (it :: its, s2)
        | none => none) = _
  rw [h2]

theorem parseProps_append_of (c : BodyCodec) (en : String) :
    ∀ (ps1 ps2 : List PlyProperty) (s s1 s2 : List Nat) (its1 its2 : List Item),
      parseProps c en ps1 s = some (its1, s1) →
      parseProps c en ps2 s1 = some (its2, s2) →
      parseProps c en (ps1 ++ ps2) s = some (its1 ++ its2, s2)
  | [], ps2, s, s1, s2, its1, its2, h1, h2 => by
    replace h1 : (some (([] : List Item), s) : Option (List Item × List Nat))
        = some (its1, s1) := h1
    cases h1
    exact h2
  | p :: ps1, ps2, s, s1, s2, its1, its2, h1, h2 => by
    replace h1 : (match decodeItem c en p s with
        | some (it2, s3) =>
          match parseProps c en ps1 s3 with
          | some (its3, s4) => some (it2 :: its3, s4)
          | none => none
        | none => none) = some (its1, s1) := h1
    cases hd : decodeItem c en p s with
    | none => rw [hd] at h1; cases h1
    | some pr =>
      obtain ⟨it, sM⟩ := pr
      rw [hd] at h1
      replace h1 : (match parseProps c en ps1 sM with
          | some (its3, s4) => some (it :: its3, s4)
          | none => none) = some (its1, s1) := h1
      cases hp1 : parseProps c en ps1 sM with
      | none => rw [hp1] at h1; cases h1
      | some pr2 =>
        obtain ⟨itsA, sB⟩ := pr2
        rw [hp1] at h1
        replace h1 : (some (it :: itsA, sB) : Option (List Item × List Nat))
            = some (its1, s1) := h1
        have e1 : its1 = it :: itsA := by cases h1; rfl
        have e2 : s1 = sB := by cases h1; rfl
        subst e1
        subst e2
        exact parseProps_cons_of c en p (ps1 ++ ps2) s sM s2 it (itsA ++ its2)
          hd (parseProps_append_of c en ps1 ps2 sM s1 s2 itsA its2 hp1 h2)

theorem parseRows_succ_of (c : BodyCodec) (en : String) (ps : List PlyProperty)
    (n : Nat) (s s1 s2 : List Nat) (its1 its2 : List Item)
    (h1 : parseProps c en ps s = some (its1, s1))
    (h2 : parseRows c en ps n s1 = some (its2, s2)) :
    parseRows c en ps (n + 1) s = some (its1 ++ its2, s2) := by
  show (match parseProps c en ps s with
        | some (its, s1) =>
          match parseRows c en ps n s1 with
          | some (its2, s2) => some (its ++ its2, s2)
          | none => none
        | none => none) = _
  rw [h1]
  show (match parseRows c en ps n s1 with
        | some (its2, s2) => some (its1 ++ its2, s2)
        | none => none) = _
  rw [h2]

theorem parseBody_cons_of (c : BodyCodec) (e : PlyElement) (es : List PlyElement)
    (s s1 s2 : List Nat) (its1 its2 : List Item)
    (h1 : parseRows c e.name e.properties e.size s = some (its1, s1))
    (h2 : parseBody c es s1 = some (its2, s2)) :
    parseBody c (e :: es) s = some (its1 ++ its2, s2) := by
  show (match parseRows c e.name e.properties e.size s with
        | some (its, s1) =>
          match parseBody c es s1 with
          | some (its2, s2) => some (its ++ its2, s2)
          | none => none
        | none => none) = _
  rw [h1]
  show (match parseBody c es s1 with
        | some (its2, s2) => some (its1 ++ its2, s2)
        | none => none) = _
  rw [h2]

theorem parse_enc_names (c : BodyCodec) (enc : BodyEncoder) (okb : Nat → Prop)
    (hS : ∀ (t : PlyType) (n : Nat) (src r : List Nat), src.length = n * t.stride →
      (∀ x ∈ src, okb x) →
      c.parseScalars t n (enc.emitScalars t n src ++ r) = some (src, r))
    (hC : ∀ (t : PlyType) (cnt : Nat) (r : List Nat), cnt < 2 ^ (8 * t.stride) →
      c.parseCount t (enc.emitCount t cnt ++ r) = some (cnt, r))
    (en : String) (t lt : PlyType) (lc : Nat) (hcnt : lc < 2 ^ (8 * lt.stride)) :
    ∀ (ns : List String) (src rest : List Nat),
      ns.length * ((if lc = 0 then 1 else lc) * t.stride) ≤ src.length →
      (∀ x ∈ src, okb x) →
      parseProps c en (ns.map (fun n =>
          ({ name := n, propertyType := t, isList := !(lc == 0),
             listType := if lc == 0 then PlyType.INVALID else lt } : PlyProperty)))
        (encNamesW enc t lt lc ns src ++ rest)
      = some (namesItemsW en t lt lc ns src, rest)
  | [], _, _, _, _ => rfl
  | n :: ns, src, rest, hlen, hok => by
    have ih := parse_enc_names c enc okb hS hC en t lt lc hcnt ns
    cases hlc : lc with
    | zero =>
      subst hlc
      have hlen0 : (ns.length + 1) * (1 * t.stride) ≤ src.length := by
        have e : (n :: ns).length * ((if (0 : Nat) = 0 then 1 else 0) * t.stride)
            = (ns.length + 1) * (1 * t.stride) := by simp
        rw [e] at hlen
        exact hlen
      have hstep : 1 * t.stride ≤ src.length :=
        le_trans (Nat.le_mul_of_pos_left _ (Nat.succ_pos ns.length)) hlen0
      have htake : (src.take (1 * t.stride)).length = 1 * t.stride := by
        rw [List.length_take]
        exact Nat.min_eq_left hstep
      have hrec : ns.length * (1 * t.stride) ≤ (src.drop (1 * t.stride)).length := by
        rw [List.length_drop]
        have h4 : (ns.length + 1) * (1 * t.stride)
            = ns.length * (1 * t.stride) + 1 * t.stride := by ring
        rw [h4] at hlen0
        exact Nat.le_sub_of_add_le hlen0
      have hps := hS t 1 (src.take (1 * t.stride))
        (encNamesW enc t lt 0 ns (src.drop (1 * t.stride)) ++ rest) htake
        (fun x hx => hok x (List.take_subset _ _ hx))
      have hd : decodeItem c en
          ({ name := n, propertyType := t, isList := !((0 : Nat) == 0),
             listType := if (0 : Nat) == 0 then PlyType.INVALID else lt } : PlyProperty)
          (encNamesW enc t lt 0 (n :: ns) src ++ rest) =
          some ({ ename := en, name := n, t := t, lt := PlyType.INVALID,
                  bytes := src.take (1 * t.stride), listCount := none },
                encNamesW enc t lt 0 ns (src.drop (1 * t.stride)) ++ rest) := by
        have he : encNamesW enc t lt 0 (n :: ns) src ++ rest
            = enc.emitScalars t 1 (src.take (1 * t.stride))
              ++ (encNamesW enc t lt 0 ns (src.drop (1 * t.stride)) ++ rest) := by
          rw [show encNamesW enc t lt 0 (n :: ns) src
              = enc.emitScalars t 1 (src.take (1 * t.stride))
                ++ encNamesW enc t lt 0 ns (src.drop (1 * t.stride)) from rfl,
            List.append_assoc]
        rw [he]
        exact decodeItem_scalar c en _ rfl _ _ _ hps
      rw [List.map_cons]
      exact parseProps_cons_of c en _ _ _ _ _ _ _ hd
        (ih (src.drop (1 * t.stride)) rest hrec
          (fun x hx => hok x (List.drop_subset _ _ hx)))
    | succ m =>
      subst hlc
      have hlen0 : (ns.length + 1) * ((m + 1) * t.stride) ≤ src.length := by
        have e : (n :: ns).length * ((if (m + 1 : Nat) = 0 then 1 else m + 1) * t.stride)
            = (ns.length + 1) * ((m + 1) * t.stride) := by simp
        rw [e] at hlen
        exact hlen
      have hstep : (m + 1) * t.stride ≤ src.length :=
        le_trans (Nat.le_mul_of_pos_left _ (Nat.succ_pos ns.length)) hlen0
      have htake : (src.take ((m + 1) * t.stride)).length = (m + 1) * t.stride := by
        rw [List.length_take]
        exact Nat.min_eq_left hstep
      have hrec : ns.length * ((m + 1) * t.stride)
          ≤ (src.drop ((m + 1) * t.stride)).length := by
        rw [List.length_drop]
        have h4 : (ns.length + 1) * ((m + 1) * t.stride)
            = ns.length * ((m + 1) * t.stride) + (m + 1) * t.stride := by ring
        rw [h4] at hlen0
        exact Nat.le_sub_of_add_le hlen0
      have hps := hS t (m + 1) (src.take ((m + 1) * t.stride))
        (encNamesW enc t lt (m + 1) ns (src.drop ((m + 1) * t.stride)) ++ rest) htake
        (fun x hx => hok x (List.take_subset _ _ hx))
      have hpc := hC lt (m + 1)
        (enc.emitScalars t (m + 1) (src.take ((m + 1) * t.stride))
          ++ (encNamesW enc t lt (m + 1) ns (src.drop ((m + 1) * t.stride)) ++ rest))
        hcnt
      have hd : decodeItem c en
          ({ name := n, propertyType := t, isList := !((m + 1 : Nat) == 0),
             listType := if (m + 1 : Nat) == 0 then PlyType.INVALID else lt }
            : PlyProperty)
          (encNamesW enc t lt (m + 1) (n :: ns) src ++ rest) =
          some ({ ename := en, name := n, t := t, lt := lt,
                  bytes := src.take ((m + 1) * t.stride), listCount := some (m + 1) },
                encNamesW enc t lt (m + 1) ns (src.drop ((m + 1) * t.stride)) ++ rest) := by
        have he : encNamesW enc t lt (m + 1) (n :: ns) src ++ rest
            = enc.emitCount lt (m + 1)
              ++ (enc.emitScalars t (m + 1) (src.take ((m + 1) * t.stride))
                ++ (encNamesW enc t lt (m + 1) ns (src.drop ((m + 1) * t.stride))
                  ++ rest)) := by
          rw [encNamesW]
          simp
        rw [he]
        exact decodeItem_list c en _ rfl _ _ _ _ _ hpc hps
      rw [List.map_cons]
      exact parseProps_cons_of c en _ _ _ _ _ _ _ hd
        (ih (src.drop ((m + 1) * t.stride)) rest hrec
          (fun x hx => hok x (List.drop_subset _ _ hx)))

theorem forall₂_self_map {α β : Type} (P : α → β → Prop) (f : α → β) :
    ∀ (l : List α), (∀ a ∈ l, P a (f a)) → List.Forall₂ P l (l.map f)
  | [], _ => List.Forall₂.nil
  | a :: l, h => List.Forall₂.cons (h a (List.mem_cons_self a l))
      (forall₂_self_map P f l (fun x hx => h x (List.mem_cons_of_mem a hx)))

theorem parse_enc_row (c : BodyCodec) (enc : BodyEncoder) (okb : Nat → Prop)
    (hS : ∀ (t : PlyType) (n : Nat) (src r : List Nat), src.length = n * t.stride →
      (∀ x ∈ src, okb x) →
      c.parseScalars t n (enc.emitScalars t n src ++ r) = some (src, r))
    (hC : ∀ (t : PlyType) (cnt : Nat) (r : List Nat), cnt < 2 ^ (8 * t.stride) →
      c.parseCount t (enc.emitCount t cnt ++ r) = some (cnt, r))
    (en : String) (bs : List WriteBinding) (srcs : List (List Nat)) (rest : List Nat)
    (h : List.Forall₂ (fun (b : WriteBinding) (src : List Nat) =>
      b.listCount < 2 ^ (8 * b.listType.stride) ∧
      b.propertyNames.length * bindingGSB b ≤ src.length ∧
      (∀ x ∈ src, okb x)) bs srcs) :
    parseProps c en ((bs.map bindingProps).flatten) (encRowW enc bs srcs ++ rest)
      = some (rowItemsW en bs srcs, rest) := by
  induction h with
  | nil => rfl
  | @cons b src bs srcs hb htl ih =>
    rw [List.map_cons, List.flatten_cons]
    have he : encRowW enc (b :: bs) (src :: srcs) ++ rest
        = encNamesW enc b.t b.listType b.listCount b.propertyNames src
          ++ (encRowW enc bs srcs ++ rest) := by
      rw [show encRowW enc (b :: bs) (src :: srcs)
          = encNamesW enc b.t b.listType b.listCount b.propertyNames src
            ++ encRowW enc bs srcs from rfl, List.append_assoc]
    rw [he]
    have h1 := parse_enc_names c enc okb hS hC en b.t b.listType b.listCount hb.1
      b.propertyNames src (encRowW enc bs srcs ++ rest) hb.2.1 hb.2.2
    exact parseProps_append_of c en (bindingProps b) ((bs.map bindingProps).flatten)
      _ _ _ _ _ h1 ih

theorem advance_forall₂ (okb : Nat → Prop) (n : Nat) :
    ∀ (bs : List WriteBinding) (srcs : List (List Nat)),
      List.Forall₂ (fun (b : WriteBinding) (src : List Nat) =>
        b.listCount < 2 ^ (8 * b.listType.stride) ∧
        (n + 1) * (b.propertyNames.length * bindingGSB b) ≤ src.length ∧
        (∀ x ∈ src, okb x)) bs srcs →
      List.Forall₂ (fun (b : WriteBinding) (src : List Nat) =>
        b.listCount < 2 ^ (8 * b.listType.stride) ∧
        n * (b.propertyNames.length * bindingGSB b) ≤ src.length ∧
        (∀ x ∈ src, okb x)) bs (advanceSrcs bs srcs) := by
  intro bs srcs h
  induction h with
  | nil => exact List.Forall₂.nil
  | @cons b src bs srcs hb htl ih =>
    show List.Forall₂ _ (b :: bs)
      (src.drop (b.propertyNames.length * bindingGSB b) :: advanceSrcs bs srcs)
    refine List.Forall₂.cons ⟨hb.1, ?_, fun x hx => hb.2.2 x (List.drop_subset _ _ hx)⟩ ih
    rw [List.length_drop]
    have h4 : (n + 1) * (b.propertyNames.length * bindingGSB b)
        = n * (b.propertyNames.length * bindingGSB b)
          + b.propertyNames.length * bindingGSB b := by ring
    have hx := hb.2.1
    rw [h4] at hx
    exact Nat.le_sub_of_add_le hx

theorem parse_enc_rows (c : BodyCodec) (enc : BodyEncoder) (okb : Nat → Prop)
    (hS : ∀ (t : PlyType) (n : Nat) (src r : List Nat), src.length = n * t.stride →
      (∀ x ∈ src, okb x) →
      c.parseScalars t n (enc.emitScalars t n src ++ r) = some (src, r))
    (hC : ∀ (t : PlyType) (cnt : Nat) (r : List Nat), cnt < 2 ^ (8 * t.stride) →
      c.parseCount t (enc.emitCount t cnt ++ r) = some (cnt, r))
    (en : String) (bs : List WriteBinding) :
    ∀ (n : Nat) (srcs : List (List Nat)) (rest : List Nat),
      List.Forall₂ (fun (b : WriteBinding) (src : List Nat) =>
        b.listCount < 2 ^ (8 * b.listType.stride) ∧
        n * (b.propertyNames.length * bindingGSB b) ≤ src.length ∧
        (∀ x ∈ src, okb x)) bs srcs →
      parseRows c en ((bs.map bindingProps).flatten) n (encRowsW enc bs n srcs ++ rest)
        = some (rowsItemsW en bs n srcs, rest)
  | 0, _, _, _ => rfl
  | n + 1, srcs, rest, h => by
    have hrow : List.Forall₂ (fun (b : WriteBinding) (src : List Nat) =>
        b.listCount < 2 ^ (8 * b.listType.stride) ∧
        b.propertyNames.length * bindingGSB b ≤ src.length ∧
        (∀ x ∈ src, okb x)) bs srcs :=
      h.imp (fun _ _ hx =>
        ⟨hx.1, le_trans (Nat.le_mul_of_pos_left _ (Nat.succ_pos n)) hx.2.1, hx.2.2⟩)
    have hadv := advance_forall₂ okb n bs srcs h
    have he : encRowsW enc bs (n + 1) srcs ++ rest
        = encRowW enc bs srcs
          ++ (encRowsW enc bs n (advanceSrcs bs srcs) ++ rest) := by
      rw [show encRowsW enc bs (n + 1) srcs
          = encRowW enc bs srcs ++ encRowsW enc bs n (advanceSrcs bs srcs)
          from rfl, List.append_assoc]
    rw [he]
    exact parseRows_succ_of c en _ n _ _ _ _ _
      (parse_enc_row c enc okb hS hC en bs srcs
        (encRowsW enc bs n (advanceSrcs bs srcs) ++ rest) hrow)
      (parse_enc_rows c enc okb hS hC en bs n (advanceSrcs bs srcs) rest hadv)

theorem parse_enc_body (c : BodyCodec) (enc : BodyEncoder) (okb : Nat → Prop)
    (hS : ∀ (t : PlyType) (n : Nat) (src r : List Nat), src.length = n * t.stride →
      (∀ x ∈ src, okb x) →
      c.parseScalars t n (enc.emitScalars t n src ++ r) = some (src, r))
    (hC : ∀ (t : PlyType) (cnt : Nat) (r : List Nat), cnt < 2 ^ (8 * t.stride) →
      c.parseCount t (enc.emitCount t cnt ++ r) = some (cnt, r))
    (hOk : ∀ x, x < 256 → okb x) :
    ∀ (gs : List (String × List WriteBinding)) (rest : List Nat),
      (∀ g ∈ gs, groupWf g) →
      parseBody c (gs.map elemOfGroup)
        ((gs.map (fun g => encElementW enc g.2)).flatten ++ rest)
      = some ((gs.map (fun g => elementItemsW g.1 g.2)).flatten, rest)
  | [], _, _ => rfl
  | g :: gs, rest, hw => by
    simp only [List.map_cons, List.flatten_cons, List.append_assoc]
    have hgw := hw g (List.mem_cons_self g gs)
    have hfa : List.Forall₂ (fun (b : WriteBinding) (src : List Nat) =>
        b.listCount < 2 ^ (8 * b.listType.stride) ∧
        groupRows g.2 * (b.propertyNames.length * bindingGSB b) ≤ src.length ∧
        (∀ x ∈ src, okb x)) g.2 (g.2.map (fun b => b.source)) := by
      refine forall₂_self_map _ _ g.2 (fun b hb => ?_)
      have hbw := hgw.2 b hb
      exact ⟨hbw.2.2.2.2.1, hbw.2.2.2.2.2.1,
        fun x hx => hOk x (hbw.2.2.2.2.2.2 x hx)⟩
    have h1 := parse_enc_rows c enc okb hS hC g.1 g.2 (groupRows g.2)
      (g.2.map (fun b => b.source))
      ((gs.map (fun g => encElementW enc g.2)).flatten ++ rest) hfa
    exact parseBody_cons_of c (elemOfGroup g) (gs.map elemOfGroup) _ _ _ _ _ h1
      (parse_enc_body c enc okb hS hC hOk gs rest
        (fun x hx => hw x (List.mem_cons_of_mem g hx)))

theorem parseBody_encBodyW_bin (f : PlyFileW) (hwf : ∀ g ∈ f.elements, groupWf g) :
    parseBody (binCodec false) (f.elements.map elemOfGroup)
      (encBodyW (binEncoder false) f) = some (bodyItemsW f, []) := by
  have h := parse_enc_body (binCodec false) (binEncoder false) (fun _ => True)
    (fun t n src r hlen _ => binCodec_emit_scalars false false t n src r hlen)
    (fun t cnt r hc => binCodec_emit_count false t cnt r hc)
    (fun _ _ => trivial) f.elements [] hwf
  rw [List.append_nil] at h
  exact h

theorem parseBody_encBodyW_ascii (f : PlyFileW) (hwf : ∀ g ∈ f.elements, groupWf g) :
    parseBody asciiCodec (f.elements.map elemOfGroup)
      (encBodyW asciiEncoder f) = some (bodyItemsW f, []) := by
  have h := parse_enc_body asciiCodec asciiEncoder (fun x => x < 256)
    (fun t n src r hlen hok => asciiCodec_emit_scalars t n src r hlen hok)
    (fun t cnt r _ => asciiCodec_emit_count t cnt r)
    (fun _ hx => hx) f.elements [] hwf
  rw [List.append_nil] at h
  exact h

/-! ## C1, stage 3: routing the decoded occurrences into the mirror
requests -/

theorem namesItemsW_ename (en : String) (t lt : PlyType) (lc : Nat) :
    ∀ (ns : List String) (src : List Nat) (it : Item),
      it ∈ namesItemsW en t lt lc ns src → it.ename = en
  | [], _, _, h => absurd h (List.not_mem_nil _)
  | n :: ns, src, it, h => by
    replace h := h
    rw [show namesItemsW en t lt lc (n :: ns) src
        = ({ ename := en, name := n, t := t,
             lt := if lc = 0 then PlyType.INVALID else lt,
             bytes := src.take ((if lc = 0 then 1 else lc) * t.stride),
             listCount := if lc = 0 then none else some lc } : Item)
          :: namesItemsW en t lt lc ns
            (src.drop ((if lc = 0 then 1 else lc) * t.stride)) from rfl] at h
    rcases List.mem_cons.mp h with h1 | h2
    · rw [h1]
    · exact namesItemsW_ename en t lt lc ns _ it h2

theorem namesItemsW_name (en : String) (t lt : PlyType) (lc : Nat) :
    ∀ (ns : List String) (src : List Nat) (it : Item),
      it ∈ namesItemsW en t lt lc ns src → it.name ∈ ns
  | [], _, _, h => absurd h (List.not_mem_nil _)
  | n :: ns, src, it, h => by
    rw [show namesItemsW en t lt lc (n :: ns) src
        = ({ ename := en, name := n, t := t,
             lt := if lc = 0 then PlyType.INVALID else lt,
             bytes := src.take ((if lc = 0 then 1 else lc) * t.stride),
             listCount := if lc = 0 then none else some lc } : Item)
          :: namesItemsW en t lt lc ns
            (src.drop ((if lc = 0 then 1 else lc) * t.stride)) from rfl] at h
    rcases List.mem_cons.mp h with h1 | h2
    · rw [h1]; exact List.mem_cons_self n ns
    · exact List.mem_cons_of_mem n (namesItemsW_name en t lt lc ns _ it h2)

theorem rowItemsW_ename (en : String) :
    ∀ (bs : List WriteBinding) (srcs : List (List Nat)) (it : Item),
      it ∈ rowItemsW en bs srcs → it.ename = en
  | [], _, _, h => absurd h (List.not_mem_nil _)
  | _ :: _, [], _, h => absurd h (List.not_mem_nil _)
  | b :: bs, src :: srcs, it, h => by
    rw [show rowItemsW en (b :: bs) (src :: srcs)
        = namesItemsW en b.t b.listType b.listCount b.propertyNames src
          ++ rowItemsW en bs srcs from rfl] at h
    rcases List.mem_append.mp h with h1 | h2
    · exact namesItemsW_ename en b.t b.listType b.listCount b.propertyNames src it h1
    · exact rowItemsW_ename en bs srcs it h2

theorem rowsItemsW_ename (en : String) (bs : List WriteBinding) :
    ∀ (n : Nat) (srcs : List (List Nat)) (it : Item),
      it ∈ rowsItemsW en bs n srcs → it.ename = en
  | 0, _, _, h => absurd h (List.not_mem_nil _)
  | n + 1, srcs, it, h => by
    rw [show rowsItemsW en bs (n + 1) srcs
        = rowItemsW en bs srcs ++ rowsItemsW en bs n (advanceSrcs bs srcs)
        from rfl] at h
    rcases List.mem_append.mp h with h1 | h2
    · exact rowItemsW_ename en bs srcs it h1
    · exact rowsItemsW_ename en bs n (advanceSrcs bs srcs) it h2

theorem elementItemsW_ename (en : String) (bs : List WriteBinding) (it : Item)
    (h : it ∈ elementItemsW en bs) : it.ename = en := by
  unfold elementItemsW at h
  exact rowsItemsW_ename en bs (groupRows bs) (bs.map (fun b => b.source)) it h

theorem filter_namesItems_all (k : SinkCore) (en : String) (t lt : PlyType)
    (lc : Nat) (ns : List String) (src : List Nat)
    (hen : (en == k.elementName) = true)
    (hns : ∀ nm ∈ ns, k.names.contains nm = true) :
    (namesItemsW en t lt lc ns src).filter (itemMatches k)
      = namesItemsW en t lt lc ns src := by
  apply List.filter_eq_self.mpr
  intro it hit
  unfold itemMatches
  rw [namesItemsW_ename en t lt lc ns src it hit, hen,
    hns it.name (namesItemsW_name en t lt lc ns src it hit)]
  rfl

theorem filter_namesItems_none (k : SinkCore) (en : String) (t lt : PlyType)
    (lc : Nat) (ns : List String) (src : List Nat)
    (hns : ∀ nm ∈ ns, k.names.contains nm = false) :
    (namesItemsW en t lt lc ns src).filter (itemMatches k) = [] := by
  apply List.filter_eq_nil_iff.mpr
  intro it hit
  unfold itemMatches
  rw [hns it.name (namesItemsW_name en t lt lc ns src it hit)]
  simp

theorem rowItemsW_append (en : String) :
    ∀ (bs1 bs2 : List WriteBinding) (s1 s2 : List (List Nat)),
      bs1.length = s1.length →
      rowItemsW en (bs1 ++ bs2) (s1 ++ s2)
        = rowItemsW en bs1 s1 ++ rowItemsW en bs2 s2
  | [], bs2, [], s2, _ => rfl
  | b :: bs1, bs2, src :: s1, s2, hlen => by
    rw [List.cons_append, List.cons_append]
    rw [show rowItemsW en (b :: (bs1 ++ bs2)) (src :: (s1 ++ s2))
        = namesItemsW en b.t b.listType b.listCount b.propertyNames src
          ++ rowItemsW en (bs1 ++ bs2) (s1 ++ s2) from rfl]
    rw [rowItemsW_append en bs1 bs2 s1 s2 (by simpa using hlen)]
    rw [show rowItemsW en (b :: bs1) (src :: s1)
        = namesItemsW en b.t b.listType b.listCount b.propertyNames src
          ++ rowItemsW en bs1 s1 from rfl]
    rw [List.append_assoc]

theorem advanceSrcs_append :
    ∀ (bs1 bs2 : List WriteBinding) (s1 s2 : List (List Nat)),
      bs1.length = s1.length →
      advanceSrcs (bs1 ++ bs2) (s1 ++ s2)
        = advanceSrcs bs1 s1 ++ advanceSrcs bs2 s2
  | [], bs2, [], s2, _ => rfl
  | b :: bs1, bs2, src :: s1, s2, hlen => by
    rw [List.cons_append, List.cons_append]
    rw [show advanceSrcs (b :: (bs1 ++ bs2)) (src :: (s1 ++ s2))
        = src.drop (b.propertyNames.length * bindingGSB b)
          :: advanceSrcs (bs1 ++ bs2) (s1 ++ s2) from rfl]
    rw [advanceSrcs_append bs1 bs2 s1 s2 (by simpa using hlen)]
    rfl

theorem advanceSrcs_length :
    ∀ (bs : List WriteBinding) (srcs : List (List Nat)),
      bs.length = srcs.length → (advanceSrcs bs srcs).length = bs.length
  | [], [], _ => rfl
  | b :: bs, src :: srcs, hlen => by
    show (advanceSrcs bs srcs).length + 1 = bs.length + 1
    rw [advanceSrcs_length bs srcs (by simpa using hlen)]

theorem filter_rowItems_none (k : SinkCore) (en : String) :
    ∀ (bs : List WriteBinding) (srcs : List (List Nat)),
      (∀ b' ∈ bs, ∀ nm ∈ b'.propertyNames, k.names.contains nm = false) →
      (rowItemsW en bs srcs).filter (itemMatches k) = []
  | [], _, _ => rfl
  | _ :: _, [], _ => rfl
  | b :: bs, src :: srcs, hd => by
    rw [show rowItemsW en (b :: bs) (src :: srcs)
        = namesItemsW en b.t b.listType b.listCount b.propertyNames src
          ++ rowItemsW en bs srcs from rfl]
    rw [List.filter_append,
      filter_namesItems_none k en b.t b.listType b.listCount b.propertyNames src
        (hd b (List.mem_cons_self b bs)),
      filter_rowItems_none k en bs srcs
        (fun x hx => hd x (List.mem_cons_of_mem b hx))]
    rfl

theorem filter_rowItems_split (k : SinkCore) (en : String)
    (pre post : List WriteBinding) (b : WriteBinding)
    (sPre sPost : List (List Nat)) (src : List Nat)
    (hlen : pre.length = sPre.length)
    (hen : (en == k.elementName) = true)
    (hpre : ∀ b' ∈ pre, ∀ nm ∈ b'.propertyNames, k.names.contains nm = false)
    (hpost : ∀ b' ∈ post, ∀ nm ∈ b'.propertyNames, k.names.contains nm = false)
    (hb : ∀ nm ∈ b.propertyNames, k.names.contains nm = true) :
    (rowItemsW en (pre ++ b :: post) (sPre ++ src :: sPost)).filter (itemMatches k)
      = namesItemsW en b.t b.listType b.listCount b.propertyNames src := by
  rw [rowItemsW_append en pre (b :: post) sPre (src :: sPost) hlen,
    List.filter_append, filter_rowItems_none k en pre sPre hpre]
  rw [show rowItemsW en (b :: post) (src :: sPost)
      = namesItemsW en b.t b.listType b.listCount b.propertyNames src
        ++ rowItemsW en post sPost from rfl]
  rw [List.filter_append,
    filter_namesItems_all k en b.t b.listType b.listCount b.propertyNames src hen hb,
    filter_rowItems_none k en post sPost hpost]
  rw [List.nil_append, List.append_nil]

theorem filter_rowsItems_split (k : SinkCore) (en : String)
    (pre post : List WriteBinding) (b : WriteBinding)
    (hen : (en == k.elementName) = true)
    (hpre : ∀ b' ∈ pre, ∀ nm ∈ b'.propertyNames, k.names.contains nm = false)
    (hpost : ∀ b' ∈ post, ∀ nm ∈ b'.propertyNames, k.names.contains nm = false)
    (hb : ∀ nm ∈ b.propertyNames, k.names.contains nm = true) :
    ∀ (n : Nat) (sPre sPost : List (List Nat)) (src : List Nat),
      pre.length = sPre.length →
      (rowsItemsW en (pre ++ b :: post) n (sPre ++ src :: sPost)).filter
        (itemMatches k)
      = bindingRowsItems en b n src
  | 0, _, _, _, _ => rfl
  | n + 1, sPre, sPost, src, hlen => by
    rw [show rowsItemsW en (pre ++ b :: post) (n + 1) (sPre ++ src :: sPost)
        = rowItemsW en (pre ++ b :: post) (sPre ++ src :: sPost)
          ++ rowsItemsW en (pre ++ b :: post) n
            (advanceSrcs (pre ++ b :: post) (sPre ++ src :: sPost)) from rfl]
    rw [List.filter_append]
    rw [filter_rowItems_split k en pre post b sPre sPost src hlen hen hpre hpost hb]
    rw [advanceSrcs_append pre (b :: post) sPre (src :: sPost) hlen]
    rw [show advanceSrcs (b :: post) (src :: sPost)
        = src.drop (b.propertyNames.length * bindingGSB b) :: advanceSrcs post sPost
        from rfl]
    rw [filter_rowsItems_split k en pre post b hen hpre hpost hb n
      (advanceSrcs pre sPre) (advanceSrcs post sPost)
      (src.drop (b.propertyNames.length * bindingGSB b))
      (advanceSrcs_length pre sPre hlen).symm]
    rw [show bindingRowsItems en b (n + 1) src
        = namesItemsW en b.t b.listType b.listCount b.propertyNames src
          ++ bindingRowsItems en b n
            (src.drop (b.propertyNames.length * bindingGSB b)) from rfl]

theorem namesItems_bytes (en : String) (t lt : PlyType) (lc : Nat) :
    ∀ (ns : List String) (src : List Nat),
      ((namesItemsW en t lt lc ns src).map (fun it => it.bytes)).flatten
        = src.take (ns.length * ((if lc = 0 then 1 else lc) * t.stride))
  | [], src => by
    rw [show namesItemsW en t lt lc [] src = [] from rfl]
    simp
  | n :: ns, src => by
    rw [show namesItemsW en t lt lc (n :: ns) src
        = ({ ename := en, name := n, t := t,
             lt := if lc = 0 then PlyType.INVALID else lt,
             bytes := src.take ((if lc = 0 then 1 else lc) * t.stride),
             listCount := if lc = 0 then none else some lc } : Item)
          :: namesItemsW en t lt lc ns
            (src.drop ((if lc = 0 then 1 else lc) * t.stride)) from rfl]
    rw [List.map_cons, List.flatten_cons]
    rw [namesItems_bytes en t lt lc ns
      (src.drop ((if lc = 0 then 1 else lc) * t.stride))]
    rw [← List.take_add]
    have e : (if lc = 0 then 1 else lc) * t.stride
        + ns.length * ((if lc = 0 then 1 else lc) * t.stride)
        = (n :: ns).length * ((if lc = 0 then 1 else lc) * t.stride) := by
      rw [List.length_cons]; ring
    rw [e]

theorem bindingRowsItems_bytes (en : String) (b : WriteBinding) :
    ∀ (n : Nat) (src : List Nat),
      ((bindingRowsItems en b n src).map (fun it => it.bytes)).flatten
        = src.take (n * (b.propertyNames.length * bindingGSB b))
  | 0, src => by
    rw [show bindingRowsItems en b 0 src = [] from rfl]
    simp
  | n + 1, src => by
    rw [show bindingRowsItems en b (n + 1) src
        = namesItemsW en b.t b.listType b.listCount b.propertyNames src
          ++ bindingRowsItems en b n
            (src.drop (b.propertyNames.length * bindingGSB b)) from rfl]
    rw [List.map_append, List.flatten_append]
    rw [namesItems_bytes en b.t b.listType b.listCount b.propertyNames src]
    rw [bindingRowsItems_bytes en b n
      (src.drop (b.propertyNames.length * bindingGSB b))]
    rw [show (if b.listCount = 0 then 1 else b.listCount) * b.t.stride
        = bindingGSB b from rfl]
    rw [← List.take_add]
    have e : b.propertyNames.length * bindingGSB b
        + n * (b.propertyNames.length * bindingGSB b)
        = (n + 1) * (b.propertyNames.length * bindingGSB b) := by ring
    rw [e]

theorem namesItems_counts (en : String) (t lt : PlyType) (lc : Nat) :
    ∀ (ns : List String) (src : List Nat),
      ((namesItemsW en t lt lc ns src).map (fun it => it.listCount.toList)).flatten
        = if lc = 0 then [] else List.replicate ns.length lc
  | [], _ => by cases lc <;> rfl
  | n :: ns, src => by
    rw [show namesItemsW en t lt lc (n :: ns) src
        = ({ ename := en, name := n, t := t,
             lt := if lc = 0 then PlyType.INVALID else lt,
             bytes := src.take ((if lc = 0 then 1 else lc) * t.stride),
             listCount := if lc = 0 then none else some lc } : Item)
          :: namesItemsW en t lt lc ns
            (src.drop ((if lc = 0 then 1 else lc) * t.stride)) from rfl]
    rw [List.map_cons, List.flatten_cons]
    rw [namesItems_counts en t lt lc ns
      (src.drop ((if lc = 0 then 1 else lc) * t.stride))]
    by_cases h0 : lc = 0
    · subst h0
      rfl
    · simp only [if_neg h0]
      show [lc] ++ List.replicate ns.length lc = List.replicate (n :: ns).length lc
      rw [List.singleton_append, List.length_cons, List.replicate_succ]

theorem bindingRowsItems_counts (en : String) (b : WriteBinding) :
    ∀ (n : Nat) (src : List Nat),
      ((bindingRowsItems en b n src).map (fun it => it.listCount.toList)).flatten
        = if b.listCount = 0 then []
          else List.replicate (n * b.propertyNames.length) b.listCount
  | 0, src => by
    rw [show bindingRowsItems en b 0 src = [] from rfl]
    by_cases h0 : b.listCount = 0 <;> simp [h0]
  | n + 1, src => by
    rw [show bindingRowsItems en b (n + 1) src
        = namesItemsW en b.t b.listType b.listCount b.propertyNames src
          ++ bindingRowsItems en b n
            (src.drop (b.propertyNames.length * bindingGSB b)) from rfl]
    rw [List.map_append, List.flatten_append]
    rw [namesItems_counts en b.t b.listType b.listCount b.propertyNames src]
    rw [bindingRowsItems_counts en b n
      (src.drop (b.propertyNames.length * bindingGSB b))]
    by_cases h0 : b.listCount = 0
    · simp [h0]
    · simp only [if_neg h0]
      rw [← List.replicate_add]
      congr 1
      ring

theorem contains_eq_true_of_mem {l : List String} {a : String} (h : a ∈ l) :
    l.contains a = true := by
  simpa using h

theorem contains_eq_false_of_not_mem {l : List String} {a : String} (h : a ∉ l) :
    l.contains a = false := by
  cases hc : l.contains a with
  | false => rfl
  | true => exact absurd (mem_of_contains hc) h

theorem find?_append_none {α : Type} (l₁ l₂ : List α) (p : α → Bool)
    (h : ∀ x ∈ l₁, p x = false) : (l₁ ++ l₂).find? p = l₂.find? p := by
  induction l₁ with
  | nil => rfl
  | cons a l ih =>
    rw [List.cons_append,
      List.find?_cons_of_neg _ (by simp [h a (List.mem_cons_self a l)]),
      ih (fun x hx => h x (List.mem_cons_of_mem a hx))]

theorem resolveRequestCore_elim (h : PlyHeader) (ename : String)
    (names : List String) (e : PlyElement)
    (hfind : h.elements.find? (fun x => x.name == ename) = some e)
    (hall : names.all (fun n => e.properties.any (fun p => p.name == n)) = true)
    (p0 : PlyProperty)
    (hfp : e.properties.find? (fun p => names.contains p.name) = some p0) :
    resolveRequestCore h ename names =
      .ok { elementName := ename, names := names, t := p0.propertyType,
            isList := p0.isList, listType := p0.listType, count := e.size,
            listIndices := [], buffer := [] } := by
  unfold resolveRequestCore
  rw [hfind]
  show (if names.all (fun n => e.properties.any (fun p => p.name == n)) = true then
        (match e.properties.find? (fun p => names.contains p.name) with
         | some p =>
           Except.ok ({ elementName := ename, names := names, t := p.propertyType,
                        isList := p.isList, listType := p.listType, count := e.size,
                        listIndices := [], buffer := [] } : SinkCore)
         | none => Except.error PlyError.UnknownProperty)
      else Except.error PlyError.UnknownProperty) = _
  rw [if_pos hall, hfp]

theorem requestCapacityH_elim (h : PlyHeader) (r : ReadRequest) (e : PlyElement)
    (hfind : h.elements.find? (fun x => x.name == r.elementName) = some e)
    (p0 : PlyProperty)
    (hfp : e.properties.find? (fun p => r.propertyNames.contains p.name) = some p0) :
    requestCapacityH h r =
      if p0.isList then e.size * r.listSizeHint * p0.propertyType.stride
      else e.size * p0.propertyType.stride := by
  unfold requestCapacityH
  rw [hfind]
  show (match e.properties.find? (fun p => r.propertyNames.contains p.name) with
        | none => 0
        | some p =>
          if p.isList then e.size * r.listSizeHint * p.propertyType.stride
          else e.size * p.propertyType.stride) = _
  rw [hfp]

theorem group_names_split (g : String × List WriteBinding)
    (pre post : List WriteBinding) (b : WriteBinding)
    (hg2 : g.2 = pre ++ b :: post)
    (hnd : ((g.2.map (fun b => b.propertyNames)).flatten).Nodup) :
    (∀ b' ∈ pre, ∀ nm ∈ b'.propertyNames, b.propertyNames.contains nm = false) ∧
    (∀ b' ∈ post, ∀ nm ∈ b'.propertyNames, b.propertyNames.contains nm = false) := by
  rw [hg2, List.map_append, List.map_cons, List.flatten_append,
    List.flatten_cons] at hnd
  have hd1 := List.disjoint_of_nodup_append hnd
  have hd2 := List.disjoint_of_nodup_append (List.Nodup.of_append_right hnd)
  constructor
  · intro b' hb' nm hnm
    apply contains_eq_false_of_not_mem
    intro hmem
    have h1 : nm ∈ (pre.map (fun b => b.propertyNames)).flatten :=
      List.mem_flatten.mpr ⟨b'.propertyNames, List.mem_map_of_mem _ hb', hnm⟩
    exact hd1 h1 (List.mem_append_left _ hmem)
  · intro b' hb' nm hnm
    apply contains_eq_false_of_not_mem
    intro hmem
    have h1 : nm ∈ (post.map (fun b => b.propertyNames)).flatten :=
      List.mem_flatten.mpr ⟨b'.propertyNames, List.mem_map_of_mem _ hb', hnm⟩
    exact hd2 hmem h1

theorem mirror_find (f : PlyFileW) (isBin : Bool)
    (ePre ePost : List (String × List WriteBinding)) (g : String × List WriteBinding)
    (hfe : f.elements = ePre ++ g :: ePost) (hwf : fileWf f) :
    (headerOfW f isBin).elements.find? (fun e => e.name == g.1)
      = some (elemOfGroup g) := by
  have hnd := hwf.1
  rw [hfe, List.map_append, List.map_cons] at hnd
  have hd1 := List.disjoint_of_nodup_append hnd
  show (f.elements.map elemOfGroup).find? (fun e => e.name == g.1) = _
  rw [hfe, List.map_append, List.map_cons]
  have hpre : ∀ x ∈ ePre.map elemOfGroup, (x.name == g.1) = false := by
    intro x hx
    obtain ⟨g', hg', rfl⟩ := List.mem_map.mp hx
    show (g'.1 == g.1) = false
    have hne : g'.1 ≠ g.1 := by
      intro he
      exact hd1 (List.mem_map_of_mem _ hg')
        (by rw [he]; exact List.mem_cons_self _ _)
    exact beq_eq_false_iff_ne.mpr hne
  rw [find?_append_none _ _ _ hpre]
  rw [@List.find?_cons_of_pos _ (fun e => e.name == g.1) (elemOfGroup g)
    (ePost.map elemOfGroup) (beq_self_eq_true g.1)]

theorem mirror_findp (g : String × List WriteBinding)
    (pre post : List WriteBinding) (b : WriteBinding)
    (hg2 : g.2 = pre ++ b :: post)
    (hnd : ((g.2.map (fun b => b.propertyNames)).flatten).Nodup)
    (hne : b.propertyNames ≠ []) :
    ∃ n0 ntl, b.propertyNames = n0 :: ntl ∧
      (elemOfGroup g).properties.find? (fun p => b.propertyNames.contains p.name)
        = some { name := n0, propertyType := b.t, isList := !(b.listCount == 0),
                 listType := if b.listCount == 0 then PlyType.INVALID
                             else b.listType } := by
  obtain ⟨n0, ntl, hn0⟩ := List.exists_cons_of_ne_nil hne
  have hsplit := group_names_split g pre post b hg2 hnd
  refine ⟨n0, ntl, hn0, ?_⟩
  show ((g.2.map bindingProps).flatten).find?
    (fun p => b.propertyNames.contains p.name) = _
  rw [hg2, List.map_append, List.map_cons, List.flatten_append, List.flatten_cons]
  have hpreP : ∀ p ∈ (pre.map bindingProps).flatten,
      (b.propertyNames.contains p.name) = false := by
    intro p hp
    obtain ⟨props, hprops, hpmem⟩ := List.mem_flatten.mp hp
    obtain ⟨b', hb', rfl⟩ := List.mem_map.mp hprops
    obtain ⟨nm, hnm, rfl⟩ := List.mem_map.mp hpmem
    exact hsplit.1 b' hb' nm hnm
  rw [find?_append_none _ _ _ hpreP]
  rw [show bindingProps b = b.propertyNames.map (fun n =>
      ({ name := n, propertyType := b.t, isList := !(b.listCount == 0),
         listType := if b.listCount == 0 then PlyType.INVALID
                     else b.listType } : PlyProperty)) from rfl]
  rw [hn0, List.map_cons, List.cons_append]
  rw [@List.find?_cons_of_pos _ (fun p => (n0 :: ntl).contains p.name)
    ({ name := n0, propertyType := b.t, isList := !(b.listCount == 0),
       listType := if b.listCount == 0 then PlyType.INVALID
                   else b.listType } : PlyProperty)
    (ntl.map (fun n =>
      ({ name := n, propertyType := b.t, isList := !(b.listCount == 0),
         listType := if b.listCount == 0 then PlyType.INVALID
                     else b.listType } : PlyProperty)) ++ (post.map bindingProps).flatten)
    (contains_eq_true_of_mem (List.mem_cons_self n0 ntl))]

theorem mirror_resolve (f : PlyFileW) (isBin : Bool)
    (ePre ePost : List (String × List WriteBinding)) (g : String × List WriteBinding)
    (pre post : List WriteBinding) (b : WriteBinding)
    (hfe : f.elements = ePre ++ g :: ePost)
    (hg2 : g.2 = pre ++ b :: post)
    (hwf : fileWf f) :
    resolveRequestCore (headerOfW f isBin) g.1 b.propertyNames =
      .ok { elementName := g.1, names := b.propertyNames, t := b.t,
            isList := !(b.listCount == 0),
            listType := if b.listCount == 0 then PlyType.INVALID else b.listType,
            count := groupRows g.2, listIndices := [], buffer := [] } := by
  have hgmem : g ∈ f.elements := by
    rw [hfe]; exact List.mem_append_right _ (List.mem_cons_self g ePost)
  have hbmem : b ∈ g.2 := by
    rw [hg2]; exact List.mem_append_right _ (List.mem_cons_self b post)
  have hgw := hwf.2 g hgmem
  have hbw := hgw.2 b hbmem
  have hall : b.propertyNames.all
      (fun n => (elemOfGroup g).properties.any (fun p => p.name == n)) = true := by
    rw [List.all_eq_true]
    intro n hn
    rw [List.any_eq_true]
    refine ⟨{ name := n, propertyType := b.t, isList := !(b.listCount == 0),
              listType := if b.listCount == 0 then PlyType.INVALID
                          else b.listType }, ?_, ?_⟩
    · show _ ∈ (g.2.map bindingProps).flatten
      exact List.mem_flatten.mpr
        ⟨bindingProps b, List.mem_map_of_mem _ hbmem, List.mem_map_of_mem _ hn⟩
    · exact beq_self_eq_true n
  obtain ⟨n0, ntl, hn0, hfp⟩ := mirror_findp g pre post b hg2 hgw.1 hbw.1
  exact resolveRequestCore_elim (headerOfW f isBin) g.1 b.propertyNames
    (elemOfGroup g) (mirror_find f isBin ePre ePost g hfe hwf) hall _ hfp

theorem mirror_slot (f : PlyFileW) (isBin : Bool)
    (ePre ePost : List (String × List WriteBinding)) (g : String × List WriteBinding)
    (pre post : List WriteBinding) (b : WriteBinding)
    (hfe : f.elements = ePre ++ g :: ePost)
    (hg2 : g.2 = pre ++ b :: post)
    (hwf : fileWf f) :
    Except.map
      (mkPlyData (requestCapacityH (headerOfW f isBin)
        { elementName := g.1, propertyNames := b.propertyNames, listSizeHint := 0 }))
      (applyAll (bodyItemsW f)
        (resolveRequestCore (headerOfW f isBin) g.1 b.propertyNames))
    = .ok (expectedData (groupRows g.2) b) := by
  have hgmem : g ∈ f.elements := by
    rw [hfe]; exact List.mem_append_right _ (List.mem_cons_self g ePost)
  have hbmem : b ∈ g.2 := by
    rw [hg2]; exact List.mem_append_right _ (List.mem_cons_self b post)
  have hgw := hwf.2 g hgmem
  have hbw := hgw.2 b hbmem
  have hsplit := group_names_split g pre post b hg2 hgw.1
  set k : SinkCore := { elementName := g.1, names := b.propertyNames, t := b.t,
                        isList := !(b.listCount == 0),
                        listType := if b.listCount == 0 then PlyType.INVALID
                                    else b.listType,
                        count := groupRows g.2, listIndices := [],
                        buffer := [] } with hk
  have hCap : requestCapacityH (headerOfW f isBin)
      { elementName := g.1, propertyNames := b.propertyNames, listSizeHint := 0 }
      = expectedCapacity (groupRows g.2) b := by
    obtain ⟨n0, ntl, hn0, hfp⟩ := mirror_findp g pre post b hg2 hgw.1 hbw.1
    rw [requestCapacityH_elim (headerOfW f isBin)
      { elementName := g.1, propertyNames := b.propertyNames, listSizeHint := 0 }
      (elemOfGroup g) (mirror_find f isBin ePre ePost g hfe hwf) _ hfp]
    unfold expectedCapacity
    cases hbc : b.listCount == 0 with
    | true => simp [hbc, elemOfGroup]
    | false => simp [hbc, elemOfGroup]
  have hFil : (bodyItemsW f).filter (itemMatches k)
      = bindingRowsItems g.1 b (groupRows g.2) b.source := by
    have hnd := hwf.1
    rw [hfe, List.map_append, List.map_cons] at hnd
    have hd1 := List.disjoint_of_nodup_append hnd
    have hg1notin : g.1 ∉ ePost.map (fun x => x.1) :=
      (List.nodup_cons.mp (List.Nodup.of_append_right hnd)).1
    have hPreNil : ∀ it ∈ (ePre.map (fun g => elementItemsW g.1 g.2)).flatten,
        it.ename ≠ k.elementName := by
      intro it hit
      obtain ⟨l, hl, hitl⟩ := List.mem_flatten.mp hit
      obtain ⟨g', hg', rfl⟩ := List.mem_map.mp hl
      rw [elementItemsW_ename g'.1 g'.2 it hitl]
      show g'.1 ≠ g.1
      intro he
      exact hd1 (List.mem_map_of_mem _ hg')
        (by rw [he]; exact List.mem_cons_self _ _)
    have hPostNil : ∀ it ∈ (ePost.map (fun g => elementItemsW g.1 g.2)).flatten,
        it.ename ≠ k.elementName := by
      intro it hit
      obtain ⟨l, hl, hitl⟩ := List.mem_flatten.mp hit
      obtain ⟨g', hg', rfl⟩ := List.mem_map.mp hl
      rw [elementItemsW_ename g'.1 g'.2 it hitl]
      show g'.1 ≠ g.1
      intro he
      exact hg1notin (he ▸ List.mem_map_of_mem _ hg')
    show ((f.elements.map (fun g => elementItemsW g.1 g.2)).flatten).filter
      (itemMatches k) = _
    rw [hfe, List.map_append, List.map_cons, List.flatten_append, List.flatten_cons]
    rw [List.filter_append, List.filter_append]
    rw [filter_eq_nil_of_ename hPreNil, filter_eq_nil_of_ename hPostNil]
    rw [List.nil_append, List.append_nil]
    show (rowsItemsW g.1 g.2 (groupRows g.2) (g.2.map (fun b => b.source))).filter
      (itemMatches k) = _
    generalize groupRows g.2 = rows
    rw [hg2, List.map_append, List.map_cons]
    exact filter_rowsItems_split k g.1 pre post b (beq_self_eq_true g.1)
      hsplit.1 hsplit.2 (fun nm hnm => contains_eq_true_of_mem hnm)
      rows (pre.map (fun b => b.source)) (post.map (fun b => b.source)) b.source
      (List.length_map pre (fun b => b.source)).symm
  have hApply : applyCore (bodyItemsW f) k
      = { k with
          buffer := b.source.take
            (groupRows g.2 * (b.propertyNames.length * bindingGSB b)),
          listIndices :=
            if b.listCount = 0 then []
            else List.replicate (groupRows g.2 * b.propertyNames.length)
              b.listCount } := by
    rw [applyCore_spec, hFil, bindingRowsItems_bytes, bindingRowsItems_counts]
    rfl
  rw [mirror_resolve f isBin ePre ePost g pre post b hfe hg2 hwf, ← hk]
  rw [applyAll_ok, hApply, hCap]
  have hMain : mkPlyData (expectedCapacity (groupRows g.2) b)
      ({ k with
         buffer := b.source.take
           (groupRows g.2 * (b.propertyNames.length * bindingGSB b)),
         listIndices :=
           if b.listCount = 0 then []
           else List.replicate (groupRows g.2 * b.propertyNames.length)
             b.listCount })
      = expectedData (groupRows g.2) b := by
    unfold mkPlyData expectedData
    by_cases h0 : b.listCount = 0
    · simp [h0, hk]
    · simp [h0, hk]
  exact congrArg Except.ok hMain

theorem zipWith_self_map {α γ δ : Type} (F : α → γ → δ) (h2 : α → γ) :
    ∀ (l : List α), List.zipWith F l (l.map h2) = l.map (fun x => F x (h2 x))
  | [] => rfl
  | a :: l => by
    rw [List.map_cons, List.zipWith_cons_cons, zipWith_self_map F h2 l,
      List.map_cons]

theorem rowCountsOk_of_fileWf (f : PlyFileW) (hwf : fileWf f) :
    rowCountsOk f = true := by
  rw [rowCountsOk, List.all_eq_true]
  intro g hg
  have hgw := hwf.2 g hg
  cases hg2 : g.2 with
  | nil => rfl
  | cons b rest =>
    show rest.all (fun x => x.count == b.count) = true
    rw [List.all_eq_true]
    intro x hx
    have h2 := (hgw.2 x (by rw [hg2]; exact List.mem_cons_of_mem b hx)).2.2.1
    rw [hg2] at h2
    show (x.count == b.count) = true
    rw [h2]
    exact beq_self_eq_true _

theorem writePly_ok_of_wf (f : PlyFileW) (isBin : Bool) (hwf : fileWf f) :
    writePly f isBin = .ok (headerLinesW f isBin,
      encBodyW (if isBin then binEncoder false else asciiEncoder) f) := by
  unfold writePly
  rw [if_pos (rowCountsOk_of_fileWf f hwf)]

theorem readPly_encBody (f : PlyFileW) (isBin : Bool) (hwf : fileWf f) :
    readPly (headerLinesW f isBin)
      (encBodyW (if isBin then binEncoder false else asciiEncoder) f)
      (mirrorRequests f) = .ok (expectedResults f) := by
  have hhb : ∀ g ∈ f.elements, ∀ b ∈ g.2, b.t ≠ .INVALID ∧
      (b.listCount ≠ 0 → b.listType ≠ .INVALID) := by
    intro g hg b hb
    have hbw := (hwf.2 g hg).2 b hb
    exact ⟨hbw.2.1, hbw.2.2.2.1⟩
  rw [readPly_ok _ _ _ _ (parseHeader_headerLinesW f isBin hhb)]
  have hpb : parseBody (headerCodec (headerOfW f isBin)) (headerOfW f isBin).elements
      (encBodyW (if isBin then binEncoder false else asciiEncoder) f)
      = some (bodyItemsW f, []) := by
    cases isBin with
    | false => exact parseBody_encBodyW_ascii f hwf.2
    | true => exact parseBody_encBodyW_bin f hwf.2
  rw [hpb]
  show Except.ok (List.zipWith
      (fun r x => Except.map (mkPlyData (requestCapacityH (headerOfW f isBin) r)) x)
      (mirrorRequests f)
      (((mirrorRequests f).map (fun r =>
        resolveRequestCore (headerOfW f isBin) r.elementName r.propertyNames)).map
        (applyAll (bodyItemsW f))))
    = Except.ok (expectedResults f)
  refine congrArg Except.ok ?_
  rw [List.map_map, zipWith_self_map]
  show ((f.elements.map (fun g => g.2.map (fun b =>
      ({ elementName := g.1, propertyNames := b.propertyNames,
         listSizeHint := 0 } : ReadRequest)))).flatten).map _
    = expectedResults f
  rw [List.map_flatten, List.map_map]
  refine congrArg List.flatten (List.map_congr_left ?_)
  intro g hg
  show (g.2.map _).map _ = g.2.map _
  rw [List.map_map]
  refine List.map_congr_left ?_
  intro b hb
  obtain ⟨ePre, ePost, hfe⟩ := List.append_of_mem hg
  obtain ⟨pre, post, hg2⟩ := List.append_of_mem hb
  exact mirror_slot f isBin ePre ePost g pre post b hfe hg2 hwf

/-- C1: Round trip — for every well-formed write configuration, the binary
write and the ASCII write both succeed, serializing the generated header
and body, and decoding each output back with the mirroring read requests
reproduces for every provide binding the same ResultBuffer: the element's
logical row count, the fixed per-row list lengths, and bit-for-bit the
source bytes the binding covered — identical for both body formats. -/
theorem c1_roundtrip (f : PlyFileW) (hwf : fileWf f) :
    writePly f true
      = .ok (headerLinesW f true, encBodyW (binEncoder false) f) ∧
    writePly f false
      = .ok (headerLinesW f false, encBodyW asciiEncoder f) ∧
    readPly (headerLinesW f true) (encBodyW (binEncoder false) f)
      (mirrorRequests f) = .ok (expectedResults f) ∧
    readPly (headerLinesW f false) (encBodyW asciiEncoder f)
      (mirrorRequests f) = .ok (expectedResults f) := by
  exact ⟨writePly_ok_of_wf f true hwf, writePly_ok_of_wf f false hwf,
    readPly_encBody f true hwf, readPly_encBody f false hwf⟩

/-- Witness for C1 at the concrete two-element configuration `vFileW`. -/
theorem c1_roundtrip_witness :
    fileWf vFileW ∧
    (writePly vFileW true
        = .ok (headerLinesW vFileW true, encBodyW (binEncoder false) vFileW) ∧
      writePly vFileW false
        = .ok (headerLinesW vFileW false, encBodyW asciiEncoder vFileW) ∧
      readPly (headerLinesW vFileW true) (encBodyW (binEncoder false) vFileW)
        (mirrorRequests vFileW) = .ok (expectedResults vFileW) ∧
      readPly (headerLinesW vFileW false) (encBodyW asciiEncoder vFileW)
        (mirrorRequests vFileW) = .ok (expectedResults vFileW)) :=
  ⟨by decide, c1_roundtrip vFileW (by decide)⟩

/-- C10: Frame effect of writing — a write call hands back the engine state
it was given, so an ASCII write followed by a binary write leaves the
registered bindings, comments and caller-owned source buffers unchanged,
the second write observes exactly the state the first write observed, and
the two outputs decode back to identical logical elements, rows and
values. -/
theorem c10_write_frame (f : PlyFileW) (hwf : fileWf f) :
    (writePlySt f false).2 = f ∧
    (writePlySt (writePlySt f false).2 true).2 = f ∧
    ∃ lines1 body1 lines2 body2,
      (writePlySt f false).1 = .ok (lines1, body1) ∧
      (writePlySt (writePlySt f false).2 true).1 = .ok (lines2, body2) ∧
      readPly lines1 body1 (mirrorRequests f) = .ok (expectedResults f) ∧
      readPly lines2 body2 (mirrorRequests f) = .ok (expectedResults f) := by
  refine ⟨rfl, rfl, headerLinesW f false, encBodyW asciiEncoder f,
    headerLinesW f true, encBodyW (binEncoder false) f, ?_, ?_, ?_, ?_⟩
  · exact writePly_ok_of_wf f false hwf
  · exact writePly_ok_of_wf f true hwf
  · exact readPly_encBody f false hwf
  · exact readPly_encBody f true hwf

/-- Witness for C10 at the concrete configuration `vFileW`. -/
theorem c10_write_frame_witness :
    fileWf vFileW ∧
    ((writePlySt vFileW false).2 = vFileW ∧
      (writePlySt (writePlySt vFileW false).2 true).2 = vFileW ∧
      ∃ lines1 body1 lines2 body2,
        (writePlySt vFileW false).1 = .ok (lines1, body1) ∧
        (writePlySt (writePlySt vFileW false).2 true).1 = .ok (lines2, body2) ∧
        readPly lines1 body1 (mirrorRequests vFileW)
          = .ok (expectedResults vFileW) ∧
        readPly lines2 body2 (mirrorRequests vFileW)
          = .ok (expectedResults vFileW)) :=
  ⟨by decide, c10_write_frame vFileW (by decide)⟩

end TinyPly
